import Mathlib

/-! # Limit order book: shallow embedding of `order_book.cpp`

The definitions below transcribe `order.h`, `trade.h`, `order_book.h` and
`order_book.cpp`.

Modelling conventions.

* `double` prices are rationals: the book only copies and compares prices, and the
  comparison of finite doubles is the comparison of the rationals they denote.
* `int` fields are integers (`Int`) that hold values of the 32-bit range;
  `uint64_t` timestamps are naturals.  The arithmetic on quantities is
  `quantity -= min(...)`, computed by `int_sub`: the difference reduced to 32 bits in
  two's complement, which is what the compiled code leaves in memory when the
  subtraction overflows (an overflow needs a negative resting quantity).
* `std::map<double, std::deque<Order>, Cmp>` is an association list whose keys are
  strictly sorted by `Cmp` (predicate `sorted_by`); `begin()` is the head.
* `std::deque<Order>` is a list, `front()` its head, `push_back` appends at the end.
* `std::unordered_map<int, pair<double, iterator>>` is an association list from the
  order id to the recorded price.  The iterator component designates one entry of a
  deque; it is represented by the order id of that entry (the entry added last under
  that id).  `erase(iter)` with an iterator that does not designate an entry of the
  deque it is applied to is undefined behaviour.  What a recorded iterator designates
  once `erase` has moved the elements of its deque is the subject of the section on the
  storage of a price level.
* Undefined behaviour (`front()` of an empty deque, `erase` through a foreign or
  dangling iterator) is the result `none`.
-/

namespace TradingEngine

/-- Prices (`double` in the source). -/
abbrev Price := ℚ

/-- The enum `order::OrderType`. -/
inductive OrderType where
  | BUY
  | SELL
deriving DecidableEq, Repr

/-- The struct `order::Order`. -/
structure Order where
  order_id : Int
  type : OrderType
  quantity : Int
  price : Price
  client_id : String
  timestamp : Nat
deriving DecidableEq, Repr

/-- The struct `trade::Trade`. -/
structure Trade where
  trade_id : Int
  buy_order_id : Int
  sell_order_id : Int
  quantity : Int
  price : Price
  timestamp : Nat
deriving DecidableEq, Repr

/-- One side of the book: `std::map<double, std::deque<Order>, Cmp>` as the list of its
entries in iteration order. -/
abbrev Ladder := List (Price × List Order)

/-- The class `order_book::OrderBook` (its data members). -/
structure OrderBook where
  trade_id : Int
  buy_orders : Ladder
  sell_orders : Ladder
  orders : List (Int × Price)
  trades : List Trade
deriving DecidableEq, Repr

/-- The freshly constructed book: `trade_id = 0`, all containers empty. -/
def OrderBook.empty : OrderBook :=
  { trade_id := 0, buy_orders := [], sell_orders := [], orders := [], trades := [] }

/-- Comparator `std::greater<double>` of the bid ladder. -/
def greater (a b : Price) : Bool := decide (b < a)

/-- Comparator `std::less<double>` of the ask ladder. -/
def less (a b : Price) : Bool := decide (a < b)

/-- Key equivalence of an ordered map: neither key goes before the other. -/
def equiv_key (before : Price → Price → Bool) (a b : Price) : Bool :=
  !before a b && !before b a

/-- The statement `m[price].push_back(order)` on an ordered map: `operator[]` finds the
entry with an equivalent key, or inserts an empty deque at the sorted position. -/
def map_push_back (before : Price → Price → Bool) (m : Ladder) (price : Price)
    (order : Order) : Ladder :=
  match m with
  | [] => [(price, [order])]
  | (k, q) :: rest =>
    if before price k then (price, [order]) :: (k, q) :: rest
    else if before k price then (k, q) :: map_push_back before rest price order
    else (k, q ++ [order]) :: rest

/-- The call `m.count(price)` as a truth value. -/
def map_count (before : Price → Price → Bool) (m : Ladder) (price : Price) : Bool :=
  m.any (fun e => equiv_key before e.1 price)

/-- The call `q.erase(iter)` where `iter` is the handle recorded for `order_id`: removes
the designated entry, which is the entry added last under that id; `none` (undefined
behaviour) when the handle designates no entry of `q`. -/
def deque_erase (q : List Order) (order_id : Int) : Option (List Order) :=
  match q with
  | [] => none
  | o :: rest =>
    match deque_erase rest order_id with
    | some r => some (o :: r)
    | none => if o.order_id = order_id then some rest else none

/-- The statements `m[price].erase(iter); if (m[price].empty()) m.erase(price);` of
`cancel_order`.  When no entry has the key, `operator[]` creates an empty deque and
`erase` is applied to it with a foreign iterator: undefined behaviour. -/
def map_erase_order (before : Price → Price → Bool) (m : Ladder) (price : Price)
    (order_id : Int) : Option Ladder :=
  match m with
  | [] => none
  | (k, q) :: rest =>
    if equiv_key before k price then
      match deque_erase q order_id with
      | none => none
      | some q1 => if q1.isEmpty then some rest else some ((k, q1) :: rest)
    else (map_erase_order before rest price order_id).map (fun r => (k, q) :: r)

/-- The call `orders.find(order_id)`: the recorded price, if the id is a key. -/
def index_find (ix : List (Int × Price)) (order_id : Int) : Option Price :=
  match ix with
  | [] => none
  | (k, v) :: rest => if k = order_id then some v else index_find rest order_id

/-- The assignment `orders[order_id] = {price, handle}`: overwrites the entry of an
existing key, inserts a new entry otherwise. -/
def index_assign (ix : List (Int × Price)) (order_id : Int) (price : Price) :
    List (Int × Price) :=
  match ix with
  | [] => [(order_id, price)]
  | (k, v) :: rest =>
    if k = order_id then (k, price) :: rest
    else (k, v) :: index_assign rest order_id price

/-- The call `orders.erase(it)` for the entry of `order_id`. -/
def index_erase (ix : List (Int × Price)) (order_id : Int) : List (Int × Price) :=
  ix.filter (fun e => decide (e.1 ≠ order_id))

/-- The method `OrderBook::add_order`. -/
def add_order (b : OrderBook) (order : Order) : OrderBook :=
  if order.type = OrderType.BUY then
    { b with
      buy_orders := map_push_back greater b.buy_orders order.price order
      orders := index_assign b.orders order.order_id order.price }
  else
    { b with
      sell_orders := map_push_back less b.sell_orders order.price order
      orders := index_assign b.orders order.order_id order.price }

/-- The method `OrderBook::cancel_order`; `none` is undefined behaviour. -/
def cancel_order (b : OrderBook) (order_id : Int) : Option OrderBook :=
  match index_find b.orders order_id with
  | none => some b
  | some price =>
    if map_count greater b.buy_orders price then
      match map_erase_order greater b.buy_orders price order_id with
      | none => none
      | some m => some { b with buy_orders := m, orders := index_erase b.orders order_id }
    else
      match map_erase_order less b.sell_orders price order_id with
      | none => none
      | some m => some { b with sell_orders := m, orders := index_erase b.orders order_id }

/-- The range of `int`: 32 bits, two's complement. -/
def is_int (x : Int) : Bool := decide (-2147483648 ≤ x) && decide (x < 2147483648)

/-- The value that `a -= b` stores in an `int`: the difference, reduced to 32 bits in
two's complement when it leaves the range of `int`.  Operands outside the range of
`int` are values that no `int` holds; on them the difference is left as it is. -/
def int_sub (a b : Int) : Int :=
  if is_int a && is_int b then (a - b + 2147483648) % 4294967296 - 2147483648 else a - b

/-- Outcome of one evaluation of the loop of `match_orders`. -/
inductive MatchStep where
  /-- the loop condition fails or the `break` is taken -/
  | stop
  /-- `front()` is called on an empty deque -/
  | undefined
  /-- the body ran to its end, giving the next state -/
  | next (b : OrderBook)
deriving DecidableEq, Repr

/-- The lines `if (front().quantity == 0) { pop_front(); if (empty()) erase(key); }`
applied to the first entry of a ladder whose front order is `o` (already decremented). -/
def pop_filled (key : Price) (o : Order) (q : List Order) (rest : Ladder) : Ladder :=
  if o.quantity = 0 then
    if q.isEmpty then rest else (key, q) :: rest
  else (key, o :: q) :: rest

/-- One evaluation of the loop condition and body of `OrderBook::match_orders`. -/
def match_step (b : OrderBook) : MatchStep :=
  match b.buy_orders, b.sell_orders with
  | [], _ => MatchStep.stop
  | _ :: _, [] => MatchStep.stop
  | (buy_key, buy_q) :: buy_rest, (sell_key, sell_q) :: sell_rest =>
    if buy_key < sell_key then MatchStep.stop
    else
      match buy_q, sell_q with
      | buy_front :: buy_tail, sell_front :: sell_tail =>
        let quantity := min buy_front.quantity sell_front.quantity
        let buy_order_id := buy_front.order_id
        let sell_order_id := sell_front.order_id
        let trade_price := sell_key
        let trade_timestamp := buy_front.timestamp
        let buy_dec := { buy_front with quantity := int_sub buy_front.quantity quantity }
        let sell_dec := { sell_front with quantity := int_sub sell_front.quantity quantity }
        MatchStep.next
          { b with
            buy_orders := pop_filled buy_key buy_dec buy_tail buy_rest
            sell_orders := pop_filled sell_key sell_dec sell_tail sell_rest
            trades := b.trades ++ [{ trade_id := b.trade_id
                                     buy_order_id := buy_order_id
                                     sell_order_id := sell_order_id
                                     quantity := quantity
                                     price := trade_price
                                     timestamp := trade_timestamp }]
            trade_id := b.trade_id + 1 }
      | _, _ => MatchStep.undefined

/-- The loop of `match_orders` run for at most `fuel` iterations; `none` when the
behaviour is undefined or the fuel does not suffice. -/
def match_loop : Nat → OrderBook → Option OrderBook
  | fuel, b =>
    match match_step b with
    | MatchStep.stop => some b
    | MatchStep.undefined => none
    | MatchStep.next b1 =>
      match fuel with
      | 0 => none
      | n + 1 => match_loop n b1

/-- Number of orders resting on a ladder. -/
def ladder_count (m : Ladder) : Nat := (m.map (fun e => e.2.length)).sum

/-- The method `OrderBook::match_orders`.  Every iteration removes at least one resting
order, so the number of resting orders bounds the number of iterations
(`match_orders_iff`); `none` is undefined behaviour only (`match_orders_none_iff`). -/
def match_orders (b : OrderBook) : Option OrderBook :=
  match_loop (ladder_count b.buy_orders + ladder_count b.sell_orders) b

/-- The book after exactly `n` iterations of the loop of `match_orders`, when the loop
runs that long. -/
def match_iterate : Nat → OrderBook → Option OrderBook
  | 0, b => some b
  | n + 1, b =>
    match match_step b with
    | MatchStep.next b1 => match_iterate n b1
    | _ => none

/-- The trade emitted by an iteration whose front orders are `bf` and `sf`. -/
def make_trade (b : OrderBook) (sell_key : Price) (bf sf : Order) : Trade :=
  { trade_id := b.trade_id
    buy_order_id := bf.order_id
    sell_order_id := sf.order_id
    quantity := min bf.quantity sf.quantity
    price := sell_key
    timestamp := bf.timestamp }

/-- Number of orders resting in the book. -/
def resting_count (b : OrderBook) : Nat :=
  ladder_count b.buy_orders + ladder_count b.sell_orders

/-- Every price level of the ladder holds at least one order. -/
def levels_nonempty (m : Ladder) : Prop := ∀ e ∈ m, e.2 ≠ []

instance (m : Ladder) : Decidable (levels_nonempty m) := by
  unfold levels_nonempty; infer_instance

/-- Invariant 3 of the book: no empty price level on either ladder. -/
def OrderBook.levels_nonempty (b : OrderBook) : Prop :=
  TradingEngine.levels_nonempty b.buy_orders ∧ TradingEngine.levels_nonempty b.sell_orders

instance (b : OrderBook) : Decidable b.levels_nonempty := by
  unfold OrderBook.levels_nonempty; infer_instance

/-- The keys of an ordered map are strictly sorted by its comparator. -/
def sorted_by (before : Price → Price → Bool) (m : Ladder) : Prop :=
  m.Pairwise (fun x y => before x.1 y.1 = true)

instance (before : Price → Price → Bool) (m : Ladder) : Decidable (sorted_by before m) := by
  unfold sorted_by; infer_instance

/-- Representation invariant of the two `std::map` members: bid keys strictly
descending, ask keys strictly ascending. -/
def OrderBook.well_formed (b : OrderBook) : Prop :=
  sorted_by greater b.buy_orders ∧ sorted_by less b.sell_orders

instance (b : OrderBook) : Decidable b.well_formed := by
  unfold OrderBook.well_formed; infer_instance

/-- Invariant 1 of the book: a ladder is empty, or every bid price (so the highest) is
strictly below every ask price (so the lowest). -/
def OrderBook.not_crossed (b : OrderBook) : Prop :=
  b.buy_orders = [] ∨ b.sell_orders = [] ∨
    ∀ x ∈ b.buy_orders, ∀ y ∈ b.sell_orders, x.1 < y.1

instance (b : OrderBook) : Decidable b.not_crossed := by
  unfold OrderBook.not_crossed; infer_instance

/-- A crossed book with two bid levels and two ask levels. -/
def crossed_book : OrderBook :=
  { trade_id := 0
    buy_orders := [(101, [⟨1, OrderType.BUY, 5, 101, "a", 10⟩]),
                   (99, [⟨2, OrderType.BUY, 4, 99, "b", 11⟩])]
    sell_orders := [(98, [⟨3, OrderType.SELL, 7, 98, "c", 12⟩]),
                    (100, [⟨4, OrderType.SELL, 2, 100, "d", 13⟩])]
    orders := [(1, 101), (2, 99), (3, 98), (4, 100)]
    trades := [] }

/-- All orders resting on a ladder, best level first, each level in FIFO order. -/
def resting_orders : Ladder → List Order
  | [] => []
  | (_, q) :: rest => q ++ resting_orders rest

/-- The order ids resting on a ladder. -/
def ladder_ids (m : Ladder) : List Int := (resting_orders m).map Order.order_id

/-- The trades that a run from book `b` to book `r` appended to the trade log. -/
def appended_trades (b r : OrderBook) : List Trade := r.trades.drop b.trades.length

/-- Total quantity that the trades `ts` filled of the buy order `order_id`. -/
def buy_fills (order_id : Int) (ts : List Trade) : Int :=
  ((ts.filter (fun t => decide (t.buy_order_id = order_id))).map Trade.quantity).sum

/-- Scenario "FIFO at a level": two buys at 100 followed by a sell of 7 at 100. -/
def fifo_book : OrderBook :=
  add_order (add_order (add_order OrderBook.empty
    ⟨1, OrderType.BUY, 5, 100, "a", 10⟩)
    ⟨2, OrderType.BUY, 5, 100, "b", 11⟩)
    ⟨3, OrderType.SELL, 7, 100, "c", 12⟩

/-- The book that `match_orders` returns on `fifo_book`. -/
def fifo_result : OrderBook :=
  { trade_id := 2
    buy_orders := [(100, [⟨2, OrderType.BUY, 3, 100, "b", 11⟩])]
    sell_orders := []
    orders := [(1, 100), (2, 100), (3, 100)]
    trades := [⟨0, 1, 3, 5, 100, 10⟩, ⟨1, 2, 3, 2, 100, 11⟩] }

/-- Every order of the ladder rests at the level of its own limit price. -/
def own_price_levels (m : Ladder) : Prop := ∀ e ∈ m, ∀ o ∈ e.2, o.price = e.1

instance (m : Ladder) : Decidable (own_price_levels m) := by
  unfold own_price_levels; infer_instance

/-- Every order resting on the ladder has a strictly positive quantity. -/
def quantities_positive (m : Ladder) : Prop := ∀ o ∈ resting_orders m, 0 < o.quantity

instance (m : Ladder) : Decidable (quantities_positive m) := by
  unfold quantities_positive; infer_instance

/-- Every resting order of the book has a strictly positive quantity. -/
def OrderBook.quantities_positive (b : OrderBook) : Prop :=
  TradingEngine.quantities_positive b.buy_orders ∧
    TradingEngine.quantities_positive b.sell_orders

instance (b : OrderBook) : Decidable b.quantities_positive := by
  unfold OrderBook.quantities_positive; infer_instance

/-- A buy at 100 added first, then a sell at 99 that crosses it. -/
def buy_first_book : OrderBook :=
  add_order (add_order OrderBook.empty
    ⟨1, OrderType.BUY, 8, 100, "a", 10⟩)
    ⟨2, OrderType.SELL, 5, 99, "b", 11⟩

/-- The book that `match_orders` returns on `buy_first_book`. -/
def buy_first_result : OrderBook :=
  { trade_id := 1
    buy_orders := [(100, [⟨1, OrderType.BUY, 3, 100, "a", 10⟩])]
    sell_orders := []
    orders := [(1, 100), (2, 99)]
    trades := [⟨0, 1, 2, 5, 99, 10⟩] }

/-- Scenario "simple cross": a buy of 10 at 100 and a sell of 10 at 100. -/
def simple_cross_book : OrderBook :=
  add_order (add_order OrderBook.empty
    ⟨1, OrderType.BUY, 10, 100, "a", 10⟩)
    ⟨2, OrderType.SELL, 10, 100, "b", 11⟩

/-- The book that `match_orders` returns on `simple_cross_book`: both ladders are empty,
the index still holds both ids. -/
def simple_cross_result : OrderBook :=
  { trade_id := 1
    buy_orders := []
    sell_orders := []
    orders := [(1, 100), (2, 100)]
    trades := [⟨0, 1, 2, 10, 100, 10⟩] }

/-- Total quantity resting on a ladder. -/
def ladder_quantity (m : Ladder) : Int := ((resting_orders m).map Order.quantity).sum

/-- Total quantity resting in the book, both ladders together. -/
def resting_quantity (b : OrderBook) : Int :=
  ladder_quantity b.buy_orders + ladder_quantity b.sell_orders

/-- Total quantity of a list of trades. -/
def traded_quantity (ts : List Trade) : Int := (ts.map Trade.quantity).sum

/-- The book after a sequence of `add_order` calls on the empty book. -/
def add_orders (os : List Order) : OrderBook := os.foldl add_order OrderBook.empty

/-- The lookup `m.find(price)` on an ordered map: the FIFO stored under the key, if the
key is present. -/
def map_find (before : Price → Price → Bool) (m : Ladder) (price : Price) :
    Option (List Order) :=
  match m with
  | [] => none
  | (k, q) :: rest => if equiv_key before k price then some q else map_find before rest price

/-- A book holding a bid at 100 and an ask at 101; the order id 7 is unknown to it. -/
def resting_book : OrderBook :=
  add_order (add_order OrderBook.empty
    ⟨1, OrderType.BUY, 10, 100, "a", 10⟩)
    ⟨2, OrderType.SELL, 4, 101, "b", 11⟩

/-- One call on the book: `add_order(order)`, `cancel_order(order_id)` or
`match_orders()`. -/
inductive Op where
  | add_order (order : Order)
  | cancel_order (order_id : Int)
  | match_orders
deriving DecidableEq, Repr

/-- The effect of one call; `none` is undefined behaviour. -/
def apply_op (b : OrderBook) : Op → Option OrderBook
  | Op.add_order order => some (add_order b order)
  | Op.cancel_order order_id => cancel_order b order_id
  | Op.match_orders => match_orders b

/-- The effect of a sequence of calls, first call first; `none` when one of the calls
has undefined behaviour. -/
def run_ops : List Op → OrderBook → Option OrderBook
  | [], b => some b
  | op :: ops, b =>
    match apply_op b op with
    | none => none
    | some b1 => run_ops ops b1

/-- A call that is not `cancel_order`. -/
def Op.is_add_or_match : Op → Bool
  | Op.cancel_order _ => false
  | _ => true

/-- The trade-id counter equals the length of the trade log and the trade at position
`i` has `trade_id` `i`. -/
def trade_ids_consecutive (b : OrderBook) : Prop :=
  b.trade_id = (b.trades.length : Int) ∧
    ∀ (i : Nat) (t : Trade), b.trades[i]? = some t → t.trade_id = (i : Int)

/-- The key `begin()->first` of a ladder: the best price of that side, if any. -/
def best_price (m : Ladder) : Option Price := m.head?.map Prod.fst

/-- Adds and matches, in turn, a buy that rests, a sell that crosses it, a buy that
crosses the remainder, and a cancel of an unknown id. -/
def sample_ops : List Op :=
  [Op.add_order ⟨1, OrderType.BUY, 5, 100, "a", 10⟩, Op.match_orders,
   Op.add_order ⟨2, OrderType.SELL, 8, 99, "b", 11⟩, Op.match_orders,
   Op.cancel_order 9,
   Op.add_order ⟨3, OrderType.BUY, 2, 101, "c", 12⟩, Op.match_orders]

/-- The book after `sample_ops` on the empty book. -/
def sample_ops_result : OrderBook :=
  { trade_id := 2
    buy_orders := []
    sell_orders := [(99, [⟨2, OrderType.SELL, 1, 99, "b", 11⟩])]
    orders := [(1, 100), (2, 99), (3, 101)]
    trades := [⟨0, 1, 2, 5, 99, 10⟩, ⟨1, 3, 2, 2, 99, 12⟩] }

/-- Scenario "no cross": a buy at 99 and a sell at 101. -/
def no_cross_book : OrderBook :=
  add_order (add_order OrderBook.empty
    ⟨1, OrderType.BUY, 10, 99, "a", 10⟩)
    ⟨2, OrderType.SELL, 10, 101, "b", 11⟩

/-- Adds two buys at 100 and a sell at 101, cancels the second buy and the sell (which
empties the ask level), and matches. -/
def cancel_ops : List Op :=
  [Op.add_order ⟨1, OrderType.BUY, 5, 100, "a", 10⟩,
   Op.add_order ⟨2, OrderType.BUY, 7, 100, "b", 11⟩,
   Op.add_order ⟨3, OrderType.SELL, 4, 101, "c", 12⟩,
   Op.cancel_order 2, Op.cancel_order 3, Op.match_orders]

/-- The book after `cancel_ops` on the empty book. -/
def cancel_ops_result : OrderBook :=
  { trade_id := 0
    buy_orders := [(100, [⟨1, OrderType.BUY, 5, 100, "a", 10⟩])]
    sell_orders := []
    orders := [(1, 100)]
    trades := [] }

/-- The orders of the overflow scenario: a BUY of -1 and a SELL of 2147483647 at 100. -/
def overflow_orders : List Order :=
  [⟨1, OrderType.BUY, -1, 100, "a", 10⟩, ⟨2, OrderType.SELL, 2147483647, 100, "b", 11⟩]

/-- The book after `add_order` of the two orders of `overflow_orders`. -/
def overflow_book : OrderBook :=
  add_order (add_order OrderBook.empty
    ⟨1, OrderType.BUY, -1, 100, "a", 10⟩)
    ⟨2, OrderType.SELL, 2147483647, 100, "b", 11⟩

/-- The book that `match_orders` returns on `overflow_book`: the ask rests with the
quantity `2147483647 - (-1)` reduced to 32 bits. -/
def overflow_result : OrderBook :=
  { trade_id := 1
    buy_orders := []
    sell_orders := [(100, [⟨2, OrderType.SELL, -2147483648, 100, "b", 11⟩])]
    orders := [(1, 100), (2, 100)]
    trades := [⟨0, 1, 2, -1, 100, 10⟩] }

/-- A book with a negative resting quantity that does not overflow: a BUY of -1 and a
SELL of 5 at 100. -/
def negative_book : OrderBook :=
  add_order (add_order OrderBook.empty
    ⟨1, OrderType.BUY, -1, 100, "a", 10⟩)
    ⟨2, OrderType.SELL, 5, 100, "b", 11⟩

/-- The book that `match_orders` returns on `negative_book`: the ask rests with 6. -/
def negative_result : OrderBook :=
  { trade_id := 1
    buy_orders := []
    sell_orders := [(100, [⟨2, OrderType.SELL, 6, 100, "b", 11⟩])]
    orders := [(1, 100), (2, 100)]
    trades := [⟨0, 1, 2, -1, 100, 10⟩] }

/-- The ladder once the subexpression `m[price]` has been evaluated: `operator[]` finds
the entry with an equivalent key, or inserts an empty deque at the sorted position. -/
def map_subscript (before : Price → Price → Bool) (m : Ladder) (price : Price) : Ladder :=
  match m with
  | [] => [(price, [])]
  | (k, q) :: rest =>
    if before price k then (price, []) :: (k, q) :: rest
    else if before k price then (k, q) :: map_subscript before rest price
    else (k, q) :: rest

/-- The book at the moment `cancel_order` calls `erase(iter)`: the id has been found in
the index, the ladder has been chosen by `buy_orders.count(price)` and
`buy_orders[price]` or `sell_orders[price]` has been evaluated.  The result is `none`
when the id is not indexed: the method has returned before. -/
def cancel_order_at_erase (b : OrderBook) (order_id : Int) : Option OrderBook :=
  match index_find b.orders order_id with
  | none => none
  | some price =>
    if map_count greater b.buy_orders price then
      some { b with buy_orders := map_subscript greater b.buy_orders price }
    else
      some { b with sell_orders := map_subscript less b.sell_orders price }

/-- Unique ids and positive quantities: BUY 1 and SELL 2 of 10 at 100, a match that
fills both, and a cancel of the filled order 1. -/
def filled_then_cancelled : List Op :=
  [Op.add_order ⟨1, OrderType.BUY, 10, 100, "a", 10⟩,
   Op.add_order ⟨2, OrderType.SELL, 10, 100, "b", 11⟩,
   Op.match_orders, Op.cancel_order 1]

/-! ## Adapters: `json_utils.cpp` and `trading_api.cpp`

Further conventions.

* `std::string` is a list of characters (`List Char`) where the code indexes it and a
  `String` where it only concatenates; request bodies are taken to be ASCII.
* Number conversions of the standard library (`std::stod`, `std::to_string`,
  `operator<<`) are parameters, collected in `StdLib`; arithmetic on `double` is exact
  rational arithmetic: the NaN and the infinities that `std::stod` can return and the
  rounding of a sum to 53 bits are outside the model.
* An exception is the outcome `Run.throws`; the loop of `parse_object`, which need not
  terminate, takes an iteration budget and yields `Run.out_of_fuel` when it is used up.
* `std::mutex` is a flag; constructing a `lock_guard` on a mutex that the calling thread
  already owns is undefined behaviour.
-/

/-- Number conversions of the C++ standard library that the adapters call.  They are
outside the repository and involve the binary floating-point format, so they are
parameters of the model. -/
structure StdLib where
  /-- the text written by `std::ostream::operator<<(double)` -/
  show_double : ℚ → String
  /-- the text written by `std::ostream::operator<<(int64_t)` -/
  show_int64 : Int → String
  /-- the function `std::stod` on a whole string; `none` when it throws -/
  stod : List Char → Option ℚ
  /-- the message `what()` of the exception thrown by `std::stod` -/
  stod_what : String
  /-- the function `std::to_string(double)` -/
  double_to_string : ℚ → List Char
  /-- the function `std::to_string(int)` -/
  int_to_string : Int → String

/-- The class `utils::JsonBuilder` (its data members). -/
structure JsonBuilder where
  oss_ : String
  first_ : Bool
deriving DecidableEq, Repr

/-- The default-constructed builder: empty stream, `first_ = true`. -/
def JsonBuilder.fresh : JsonBuilder := { oss_ := "", first_ := true }

/-- The stream after the statement `if (!first_) oss_ << ",";`. -/
def JsonBuilder.separated (j : JsonBuilder) : String :=
  if j.first_ then j.oss_ else j.oss_ ++ ","

/-- The method `JsonBuilder::start_object`. -/
def JsonBuilder.start_object (j : JsonBuilder) : JsonBuilder :=
  { oss_ := j.separated ++ "\x7b", first_ := true }

/-- The method `JsonBuilder::end_object`. -/
def JsonBuilder.end_object (j : JsonBuilder) : JsonBuilder :=
  { oss_ := j.oss_ ++ "\x7d", first_ := false }

/-- The method `JsonBuilder::start_array`. -/
def JsonBuilder.start_array (j : JsonBuilder) (key : String) : JsonBuilder :=
  { oss_ := (if key.isEmpty then j.separated else j.separated ++ "\"" ++ key ++ "\":") ++ "["
    first_ := true }

/-- The method `JsonBuilder::end_array`. -/
def JsonBuilder.end_array (j : JsonBuilder) : JsonBuilder :=
  { oss_ := j.oss_ ++ "]", first_ := false }

/-- The method `JsonBuilder::add_number(const std::string&, double)`. -/
def JsonBuilder.add_number (lib : StdLib) (j : JsonBuilder) (key : String) (value : ℚ) :
    JsonBuilder :=
  { oss_ := j.separated ++ "\"" ++ key ++ "\":" ++ lib.show_double value, first_ := false }

/-- The method `JsonBuilder::add_number(const std::string&, int64_t)`. -/
def JsonBuilder.add_number_int64 (lib : StdLib) (j : JsonBuilder) (key : String)
    (value : Int) : JsonBuilder :=
  { oss_ := j.separated ++ "\"" ++ key ++ "\":" ++ lib.show_int64 value, first_ := false }

/-- The method `JsonBuilder::build`. -/
def JsonBuilder.build (j : JsonBuilder) : String := j.oss_

/-- Modelled from the spec: the accessor `OrderBook::get_buy_orders`, which
`trading_api.cpp` calls and the header under `src/` does not declare; it gives read
access to the bid ladder. -/
def get_buy_orders (b : OrderBook) : Ladder := b.buy_orders

/-- Modelled from the spec: the accessor `OrderBook::get_sell_orders`, absent from the
header under `src/`; it gives read access to the ask ladder. -/
def get_sell_orders (b : OrderBook) : Ladder := b.sell_orders

/-- Modelled from the spec: the accessor `OrderBook::get_trades`, absent from the header
under `src/`; it gives read access to the trade log. -/
def get_trades (b : OrderBook) : List Trade := b.trades

/-- The inner loop `for (order : level.second) total_quantity += order.quantity;` started
from `total`. -/
def level_quantity (q : List Order) (total : ℚ) : ℚ :=
  q.foldl (fun acc order => acc + (order.quantity : ℚ)) total

/-- The loop over the price levels in `serialize_order_book`: one object per level with
its price and its total quantity. -/
def serialize_levels (lib : StdLib) (j : JsonBuilder) (levels : Ladder) : JsonBuilder :=
  levels.foldl (fun j level =>
    ((j.start_object.add_number lib "price" level.1).add_number lib "quantity"
      (level_quantity level.2 0)).end_object) j

/-- The method `TradingApi::serialize_order_book`. -/
def serialize_order_book (lib : StdLib) (b : OrderBook) : String :=
  let json := JsonBuilder.fresh.start_object
  let json := json.start_array "buy_orders"
  let json := serialize_levels lib json (get_buy_orders b)
  let json := json.end_array
  let json := json.start_array "sell_orders"
  let json := serialize_levels lib json (get_sell_orders b)
  let json := json.end_array
  let json := json.end_object
  json.build

/-- The snapshot of a ladder in the words of the specification: one `(price,
total_quantity)` pair per price level, in ladder order, the total being the sum of the
quantities of the orders resting at that price. -/
def snapshot (m : Ladder) : List (Price × Int) :=
  m.map (fun level => (level.1, (level.2.map Order.quantity).sum))

/-- The JSON object that renders one snapshot entry. -/
def entry_text (lib : StdLib) (e : Price × Int) : String :=
  "\x7b\"price\":" ++ lib.show_double e.1 ++ ",\"quantity\":" ++ lib.show_double (e.2 : ℚ)
    ++ "\x7d"

/-- Texts separated by commas. -/
def comma_separated : List String → String
  | [] => ""
  | [x] => x
  | x :: y :: rest => x ++ "," ++ comma_separated (y :: rest)

/-- A number rendering used to evaluate the serializers on examples. -/
def sample_lib : StdLib :=
  { show_double := fun x => toString x.num ++ "/" ++ toString x.den
    show_int64 := fun n => toString n
    stod := fun _ => none
    stod_what := "stod"
    double_to_string := fun x => (toString x.num ++ "/" ++ toString x.den).toList
    int_to_string := fun n => toString n }

/-- Concatenation of a list of texts. -/
def concat_texts : List String → String
  | [] => ""
  | x :: rest => x ++ concat_texts rest

/-- A book with two bid levels (two orders at the better one) and one ask level. -/
def depth_book : OrderBook :=
  { trade_id := 2
    buy_orders := [(100, [⟨1, OrderType.BUY, 5, 100, "a", 10⟩,
                          ⟨2, OrderType.BUY, 7, 100, "b", 11⟩]),
                   (99, [⟨3, OrderType.BUY, 4, 99, "c", 12⟩])]
    sell_orders := [(101, [⟨4, OrderType.SELL, 6, 101, "d", 13⟩])]
    orders := [(1, 100), (2, 100), (3, 99), (4, 101)]
    trades := [⟨0, 8, 9, 5, 100, 1⟩, ⟨1, 8, 7, 3, 90, 2⟩] }

/-- The numbers that `serialize_market_summary` hands to the JSON builder, under the key
that names each of them. -/
structure MarketSummary where
  total_trades : Int
  total_volume : ℚ
  avg_trade_size : ℚ
  avg_price : ℚ
  buy_depth : ℚ
  sell_depth : ℚ
deriving DecidableEq, Repr

/-- The class `api::TradingApi` (its data members); `order_book_mutex_` is true while a
`lock_guard` of the running request holds the mutex. -/
structure TradingApi where
  order_book_ : OrderBook
  order_book_mutex_ : Bool
deriving DecidableEq, Repr

/-- The loop `for (trade : trades) { total_volume += trade.quantity; total_value +=
trade.price * trade.quantity; }` from `(0, 0)`; arithmetic on `double` is taken exact. -/
def trade_totals (trades : List Trade) : ℚ × ℚ :=
  trades.foldl (fun acc trade =>
    (acc.1 + (trade.quantity : ℚ), acc.2 + trade.price * (trade.quantity : ℚ))) (0, 0)

/-- The nested loops `for (level : ladder) for (order : level.second) depth +=
order.quantity;` from 0. -/
def ladder_depth (m : Ladder) : ℚ :=
  m.foldl (fun acc level => level_quantity level.2 acc) 0

/-- The statistics computed by `serialize_market_summary` between taking the lock and
building the JSON text. -/
def market_summary (b : OrderBook) : MarketSummary :=
  let buy_orders := get_buy_orders b
  let sell_orders := get_sell_orders b
  let trades := get_trades b
  let total_trades : Int := (trades.length : Int)
  let total_volume := (trade_totals trades).1
  let total_value := (trade_totals trades).2
  let avg_trade_size := if total_trades > 0 then total_volume / (total_trades : ℚ) else 0
  let avg_price := if total_volume > 0 then total_value / total_volume else 0
  let buy_depth := ladder_depth buy_orders
  let sell_depth := ladder_depth sell_orders
  { total_trades := total_trades
    total_volume := total_volume
    avg_trade_size := avg_trade_size
    avg_price := avg_price
    buy_depth := buy_depth
    sell_depth := sell_depth }

/-- The method `TradingApi::serialize_market_summary`.  Its first statement constructs a
`lock_guard` on `order_book_mutex_`; doing so while the calling thread already owns the
mutex is undefined behaviour (the thread blocks on itself), the result `none`.  The
guard is released on return, so the state of the mutex is unchanged. -/
def serialize_market_summary (lib : StdLib) (api : TradingApi) : Option String :=
  if api.order_book_mutex_ then none
  else
    let s := market_summary api.order_book_
    let json := JsonBuilder.fresh.start_object
    let json := json.add_number_int64 lib "total_trades" s.total_trades
    let json := json.add_number lib "total_volume" s.total_volume
    let json := json.add_number lib "avg_trade_size" s.avg_trade_size
    let json := json.add_number lib "avg_price" s.avg_price
    let json := json.add_number lib "buy_depth" s.buy_depth
    let json := json.add_number lib "sell_depth" s.sell_depth
    let json := json.end_object
    some json.build

/-- The traded notional: the sum of `price × quantity` over the trades. -/
def traded_notional (ts : List Trade) : ℚ :=
  (ts.map (fun t => t.price * (t.quantity : ℚ))).sum

/-- Outcome of a call of the adapter layer: it returns a value, throws a
`std::exception` with the given `what()`, has undefined behaviour, or has not returned
within the iteration budget given to the loop of `parse_object`. -/
inductive Run (α : Type) where
  | done (a : α)
  | throws (what : String)
  | undefined
  | out_of_fuel
deriving DecidableEq, Repr

/-- The test `std::isspace` in the "C" locale. -/
def is_space (c : Char) : Bool :=
  c = ' ' || c = '\t' || c = '\n' || c = '\x0b' || c = '\x0c' || c = '\r'

/-- The test `std::isdigit`. -/
def is_digit (c : Char) : Bool := decide ('0' ≤ c) && decide (c ≤ '9')

/-- The expression `json_[pos_]`; `std::string::operator[]` at `size()` yields the null
character. -/
def char_at (json : List Char) (pos : Nat) : Char := json.getD pos '\x00'

/-- The loop `while (pos_ < json_.length() && pred(json_[pos_])) pos_++;` with at most
`fuel` iterations. -/
def skip_while (pred : Char → Bool) (json : List Char) : Nat → Nat → Nat
  | 0, pos => pos
  | fuel + 1, pos =>
    if pos < json.length ∧ pred (char_at json pos) = true then
      skip_while pred json fuel (pos + 1)
    else pos

/-- The method `JsonParser::skip_whitespace`, as the new value of `pos_`; the loop ends
within `length - pos_` iterations. -/
def skip_whitespace (json : List Char) (pos : Nat) : Nat :=
  skip_while is_space json (json.length - pos) pos

/-- The escape table of `parse_string`: the character added for the one that follows a
backslash. -/
def unescape (c : Char) : Char :=
  if c = 'b' then '\x08'
  else if c = 'f' then '\x0c'
  else if c = 'n' then '\n'
  else if c = 'r' then '\r'
  else if c = 't' then '\t'
  else c

/-- The loop of `parse_string` that reads up to the closing quote, with at most `fuel`
iterations; it returns `result` and `pos_`. -/
def parse_string_loop (json : List Char) : Nat → Nat → List Char → List Char × Nat
  | 0, pos, result => (result, pos)
  | fuel + 1, pos, result =>
    if pos < json.length ∧ char_at json pos ≠ '\x22' then
      if char_at json pos = '\x5c' ∧ pos + 1 < json.length then
        parse_string_loop json fuel (pos + 2) (result ++ [unescape (char_at json (pos + 1))])
      else
        parse_string_loop json fuel (pos + 1) (result ++ [char_at json pos])
    else (result, pos)

/-- The method `JsonParser::parse_string`: the string read and the new `pos_`. -/
def parse_string (json : List Char) (pos : Nat) : List Char × Nat :=
  let pos := skip_whitespace json pos
  if pos ≥ json.length ∨ char_at json pos ≠ '\x22' then ([], pos)
  else
    let r := parse_string_loop json (json.length - (pos + 1)) (pos + 1) []
    (r.1, if r.2 < json.length then r.2 + 1 else r.2)

/-- The scan of `JsonParser::parse_number` over sign, digits, fraction and exponent: the
new `pos_`, given `pos_` after `skip_whitespace`. -/
def scan_number (json : List Char) (start : Nat) : Nat :=
  let pos := if start < json.length ∧ char_at json start = '-' then start + 1 else start
  let pos := skip_while is_digit json (json.length - pos) pos
  let pos :=
    if pos < json.length ∧ char_at json pos = '.' then
      skip_while is_digit json (json.length - (pos + 1)) (pos + 1)
    else pos
  if pos < json.length ∧ (char_at json pos = 'e' ∨ char_at json pos = 'E') then
    let pos := pos + 1
    let pos :=
      if pos < json.length ∧ (char_at json pos = '+' ∨ char_at json pos = '-') then pos + 1
      else pos
    skip_while is_digit json (json.length - pos) pos
  else pos

/-- The method `JsonParser::parse_number`: the value of `std::stod` on the scanned
substring and the new `pos_`; `none` when `std::stod` throws. -/
def parse_number (lib : StdLib) (json : List Char) (pos : Nat) : Option (ℚ × Nat) :=
  let start := skip_whitespace json pos
  let pos := scan_number json start
  match lib.stod ((json.drop start).take (pos - start)) with
  | none => none
  | some x => some (x, pos)

/-- The method `JsonParser::parse_bool`: the value and the new `pos_`. -/
def parse_bool (json : List Char) (pos : Nat) : Bool × Nat :=
  let pos := skip_whitespace json pos
  if (json.drop pos).take 4 = ['t', 'r', 'u', 'e'] then (true, pos + 4)
  else if (json.drop pos).take 5 = ['f', 'a', 'l', 's', 'e'] then (false, pos + 5)
  else (false, pos)

/-- The method `JsonParser::parse_null`, as the new `pos_`. -/
def parse_null (json : List Char) (pos : Nat) : Nat :=
  let pos := skip_whitespace json pos
  if (json.drop pos).take 4 = ['n', 'u', 'l', 'l'] then pos + 4 else pos

/-- The result of `parse_object`: `std::map<std::string, std::string>` as an association
list. -/
abbrev JsonObject := List (List Char × List Char)

/-- The assignment `result[key] = value`. -/
def json_assign (obj : JsonObject) (key value : List Char) : JsonObject :=
  match obj with
  | [] => [(key, value)]
  | (k, v) :: rest =>
    if k = key then (k, value) :: rest else (k, v) :: json_assign rest key value

/-- The lookup `obj.find(key)`. -/
def json_find (obj : JsonObject) (key : List Char) : Option (List Char) :=
  match obj with
  | [] => none
  | (k, v) :: rest => if k = key then some v else json_find rest key

/-- Outcome of one evaluation of the member loop of `parse_object`. -/
inductive ObjectStep where
  /-- the loop condition fails or the `break` is taken -/
  | finished (result : JsonObject)
  /-- `std::stod` throws inside `parse_number` -/
  | throws
  /-- the body ran to its end, giving the next `pos_` and `result` -/
  | next (pos : Nat) (result : JsonObject)
deriving DecidableEq, Repr

/-- The value dispatch of the member loop (the `if` / `else if` chain on the first
character of the value): the string stored under the key, if a branch is taken, and the
new `pos_`; `none` when `std::stod` throws.  When no branch is taken nothing is stored
and `pos_` stays where it is. -/
def parse_value (lib : StdLib) (json : List Char) (pos : Nat) :
    Option (Option (List Char) × Nat) :=
  if pos < json.length ∧ char_at json pos = '\x22' then
    some (some (parse_string json pos).1, (parse_string json pos).2)
  else if pos < json.length ∧ (is_digit (char_at json pos) = true ∨ char_at json pos = '-') then
    match parse_number lib json pos with
    | none => none
    | some (x, p) => some (some (lib.double_to_string x), p)
  else if pos < json.length ∧ (char_at json pos = 't' ∨ char_at json pos = 'f') then
    some (some (if (parse_bool json pos).1 then ['t', 'r', 'u', 'e']
                else ['f', 'a', 'l', 's', 'e']), (parse_bool json pos).2)
  else if pos < json.length ∧ char_at json pos = 'n' then
    some (some ['n', 'u', 'l', 'l'], parse_null json pos)
  else some (none, pos)

/-- One evaluation of the condition and body of the loop `while (pos_ <
json_.length())` of `JsonParser::parse_object`. -/
def parse_object_step (lib : StdLib) (json : List Char) (pos : Nat) (result : JsonObject) :
    ObjectStep :=
  if pos < json.length then
    let pos := skip_whitespace json pos
    if char_at json pos = '\x7d' then ObjectStep.finished result
    else
      let key := (parse_string json pos).1
      let pos := (parse_string json pos).2
      let pos := skip_whitespace json pos
      let pos := if pos < json.length ∧ char_at json pos = ':' then pos + 1 else pos
      let pos := skip_whitespace json pos
      match parse_value lib json pos with
      | none => ObjectStep.throws
      | some (value, pos) =>
        let result :=
          match value with
          | some v => json_assign result key v
          | none => result
        let pos := skip_whitespace json pos
        let pos := if pos < json.length ∧ char_at json pos = ',' then pos + 1 else pos
        ObjectStep.next pos result
  else ObjectStep.finished result

/-- The member loop of `parse_object` run for at most `fuel` iterations after the first
one. -/
def parse_object_loop (lib : StdLib) (json : List Char) :
    Nat → Nat → JsonObject → Run JsonObject
  | fuel, pos, result =>
    match parse_object_step lib json pos result with
    | ObjectStep.finished r => Run.done r
    | ObjectStep.throws => Run.throws lib.stod_what
    | ObjectStep.next p r =>
      match fuel with
      | 0 => Run.out_of_fuel
      | n + 1 => parse_object_loop lib json n p r

/-- The method `JsonParser::parse_object` called with `pos_ = 0`. -/
def parse_object (lib : StdLib) (fuel : Nat) (json : List Char) : Run JsonObject :=
  let pos := skip_whitespace json 0
  if pos ≥ json.length ∨ char_at json pos ≠ '\x7b' then Run.done []
  else parse_object_loop lib json fuel (pos + 1) []

/-- The method `JsonParser::get_string`. -/
def get_string (lib : StdLib) (fuel : Nat) (json : List Char) (key : String) :
    Run (List Char) :=
  match parse_object lib fuel json with
  | Run.done obj => Run.done ((json_find obj key.toList).getD [])
  | Run.throws w => Run.throws w
  | Run.undefined => Run.undefined
  | Run.out_of_fuel => Run.out_of_fuel

/-- The method `JsonParser::get_number`; `std::stod` on the stored text may throw. -/
def get_number (lib : StdLib) (fuel : Nat) (json : List Char) (key : String) : Run ℚ :=
  match parse_object lib fuel json with
  | Run.done obj =>
    match json_find obj key.toList with
    | none => Run.done 0
    | some text =>
      match lib.stod text with
      | none => Run.throws lib.stod_what
      | some x => Run.done x
  | Run.throws w => Run.throws w
  | Run.undefined => Run.undefined
  | Run.out_of_fuel => Run.out_of_fuel

/-- The struct `api::HttpRequest`. -/
structure HttpRequest where
  method : String
  path : String
  headers : List (String × String)
  body : String
deriving DecidableEq, Repr

/-- The struct `api::HttpResponse`. -/
structure HttpResponse where
  status_code : Int
  headers : List (String × String)
  body : String
deriving DecidableEq, Repr

/-- The default-constructed `HttpResponse`: status 200, the content type and the three
CORS headers (in key order, as `std::map` keeps them), empty body. -/
def HttpResponse.fresh : HttpResponse :=
  { status_code := 200
    headers := [("Access-Control-Allow-Headers", "Content-Type, Authorization"),
                ("Access-Control-Allow-Methods", "GET, POST, PUT, DELETE, OPTIONS"),
                ("Access-Control-Allow-Origin", "*"),
                ("Content-Type", "application/json")]
    body := "" }

/-- Conversion of an unsigned 64-bit value to `int` (32 bits, two's complement). -/
def to_int (n : Nat) : Int := ((n + 2 ^ 31) % 2 ^ 32 : Nat) - 2 ^ 31

/-- The conversion `static_cast<uint64_t>(x)` of a `double` assigned to an `int`: the
value truncated toward zero, then narrowed; `none` (undefined behaviour) when the
truncated value is not representable in 64 unsigned bits. -/
def double_to_int (x : ℚ) : Option Int :=
  if x ≤ -1 ∨ (2 : ℚ) ^ 64 ≤ x then none else some (to_int (Int.toNat ⌊x⌋))

/-- The method `TradingApi::parse_order_from_json`; `clock_id` and `clock_ts` are the two
readings of `steady_clock` in nanoseconds. -/
def parse_order_from_json (lib : StdLib) (fuel : Nat) (clock_id clock_ts : Nat)
    (json_body : String) : Run Order :=
  let json := json_body.toList
  let order_id := to_int (clock_id % 2 ^ 64)
  match get_string lib fuel json "type" with
  | Run.throws w => Run.throws w
  | Run.undefined => Run.undefined
  | Run.out_of_fuel => Run.out_of_fuel
  | Run.done type_str =>
    if type_str ≠ "BUY".toList ∧ type_str ≠ "SELL".toList then
      Run.throws ("Invalid order type: " ++ String.mk type_str)
    else
      match get_number lib fuel json "quantity" with
      | Run.throws w => Run.throws w
      | Run.undefined => Run.undefined
      | Run.out_of_fuel => Run.out_of_fuel
      | Run.done quantity =>
        match get_number lib fuel json "price" with
        | Run.throws w => Run.throws w
        | Run.undefined => Run.undefined
        | Run.out_of_fuel => Run.out_of_fuel
        | Run.done price =>
          match get_string lib fuel json "client_id" with
          | Run.throws w => Run.throws w
          | Run.undefined => Run.undefined
          | Run.out_of_fuel => Run.out_of_fuel
          | Run.done client_id =>
            if quantity ≤ 0 ∨ price ≤ 0 then
              Run.throws ("Invalid quantity or price: quantity="
                ++ String.mk (lib.double_to_string quantity) ++ ", price="
                ++ String.mk (lib.double_to_string price))
            else
              match double_to_int (quantity + 1 / 2) with
              | none => Run.undefined
              | some q =>
                Run.done
                  { order_id := order_id
                    type := if type_str = "BUY".toList then OrderType.BUY else OrderType.SELL
                    quantity := q
                    price := price
                    client_id := String.mk client_id
                    timestamp := clock_ts % 2 ^ 64 }

/-- The method `TradingApi::submit_order`: the response and the state of the API after
the request.  The `lock_guard` is released on return. -/
def submit_order (lib : StdLib) (fuel : Nat) (clock_id clock_ts : Nat) (api : TradingApi)
    (request : HttpRequest) : Run (HttpResponse × TradingApi) :=
  match parse_order_from_json lib fuel clock_id clock_ts request.body with
  | Run.out_of_fuel => Run.out_of_fuel
  | Run.undefined => Run.undefined
  | Run.throws what =>
    Run.done ({ HttpResponse.fresh with
                status_code := 400
                body := "\x7b\"error\": \"" ++ what ++ "\"\x7d" }, api)
  | Run.done new_order =>
    if api.order_book_mutex_ then Run.undefined
    else
      match match_orders (add_order api.order_book_ new_order) with
      | none => Run.undefined
      | some b =>
        Run.done ({ HttpResponse.fresh with
                    body := "\x7b\"status\": \"success\", \"order_id\": "
                      ++ lib.int_to_string new_order.order_id ++ "\x7d" },
                  { api with order_book_ := b })

/-- A request body whose type is neither BUY nor SELL and which holds an array. -/
def hold_body : String := "\x7b\"type\":\"HOLD\",\"tags\":[]\x7d"

/-- A request body without a type whose only member is an object. -/
def nested_body : String := "\x7b\"order\":\x7b\"type\":\"BUY\"\x7d\x7d"

/-- The run of `main` in `main.cpp`: six orders, each added and then matched; the `t`
are the six readings of `NowNs()`. -/
def main_ops (t1 t2 t3 t4 t5 t6 : Nat) : List Op :=
  [Op.add_order ⟨1, OrderType.BUY, 20, 100, "client1", t1⟩, Op.match_orders,
   Op.add_order ⟨2, OrderType.SELL, 15, 99, "client2", t2⟩, Op.match_orders,
   Op.add_order ⟨3, OrderType.BUY, 100, 98, "client3", t3⟩, Op.match_orders,
   Op.add_order ⟨4, OrderType.SELL, 50, 97, "client4", t4⟩, Op.match_orders,
   Op.add_order ⟨5, OrderType.BUY, 30, 101, "client5", t5⟩, Op.match_orders,
   Op.add_order ⟨6, OrderType.SELL, 60, 96, "client6", t6⟩, Op.match_orders]

/-- All resting orders of a ladder, each with the key of the level it rests at, best
level first and each level in FIFO order. -/
def keyed_orders : Ladder → List (Price × Order)
  | [] => []
  | (k, q) :: rest => q.map (fun o => (k, o)) ++ keyed_orders rest

/-- The order `o1` is the order `o` up to its quantity: same id, type, price, client and
timestamp. -/
def same_order (o1 o : Order) : Prop :=
  o1.order_id = o.order_id ∧ o1.type = o.type ∧ o1.price = o.price ∧
    o1.client_id = o.client_id ∧ o1.timestamp = o.timestamp

/-- The entry `x` of a ladder after a run is the entry `y` before it: same level, same
order up to the quantity. -/
def same_entry (x y : Price × Order) : Prop := x.1 = y.1 ∧ same_order x.2 y.2

/-- As `same_entry`, and the quantity has not grown. -/
def filled_entry (x y : Price × Order) : Prop :=
  same_entry x y ∧ x.2.quantity ≤ y.2.quantity

/-- Every order resting on the ladder has a non-negative quantity, as the data model
types it. -/
def quantities_nonneg (m : Ladder) : Prop := ∀ o ∈ resting_orders m, 0 ≤ o.quantity

instance (m : Ladder) : Decidable (quantities_nonneg m) := by
  unfold quantities_nonneg; infer_instance

/-- Every resting order of the book has a non-negative quantity. -/
def OrderBook.quantities_nonneg (b : OrderBook) : Prop :=
  TradingEngine.quantities_nonneg b.buy_orders ∧
    TradingEngine.quantities_nonneg b.sell_orders

instance (b : OrderBook) : Decidable b.quantities_nonneg := by
  unfold OrderBook.quantities_nonneg; infer_instance

/-- Conversion of an unsigned 64-bit value to `int64_t` (two's complement). -/
def to_int64 (n : Nat) : Int := ((n + 2 ^ 63) % 2 ^ 64 : Nat) - 2 ^ 63

/-- The loop body of `serialize_trades`: one object with the six fields of a trade. -/
def serialize_trade (lib : StdLib) (j : JsonBuilder) (trade : Trade) : JsonBuilder :=
  let j := j.start_object
  let j := j.add_number_int64 lib "trade_id" trade.trade_id
  let j := j.add_number_int64 lib "buy_order_id" trade.buy_order_id
  let j := j.add_number_int64 lib "sell_order_id" trade.sell_order_id
  let j := j.add_number_int64 lib "quantity" trade.quantity
  let j := j.add_number lib "price" trade.price
  let j := j.add_number_int64 lib "timestamp" (to_int64 trade.timestamp)
  j.end_object

/-- The method `TradingApi::serialize_trades`. -/
def serialize_trades (lib : StdLib) (b : OrderBook) : String :=
  let json := JsonBuilder.fresh.start_array ""
  let json := (get_trades b).foldl (serialize_trade lib) json
  let json := json.end_array
  json.build

/-- The handler `TradingApi::get_order_book`: it takes the mutex, serializes the book and
releases the mutex on return; `none` is undefined behaviour. -/
def TradingApi.get_order_book (lib : StdLib) (api : TradingApi) (_request : HttpRequest) :
    Option HttpResponse :=
  if api.order_book_mutex_ then none
  else
    let held : TradingApi := { api with order_book_mutex_ := true }
    some { HttpResponse.fresh with body := serialize_order_book lib held.order_book_ }

/-- The handler `TradingApi::get_trades`. -/
def TradingApi.get_trades (lib : StdLib) (api : TradingApi) (_request : HttpRequest) :
    Option HttpResponse :=
  if api.order_book_mutex_ then none
  else
    let held : TradingApi := { api with order_book_mutex_ := true }
    some { HttpResponse.fresh with body := serialize_trades lib held.order_book_ }

/-- The handler `TradingApi::get_market_summary`: it takes the mutex and, holding it,
calls `serialize_market_summary`, which takes the mutex again. -/
def TradingApi.get_market_summary (lib : StdLib) (api : TradingApi)
    (_request : HttpRequest) : Option HttpResponse :=
  if api.order_book_mutex_ then none
  else
    let held : TradingApi := { api with order_book_mutex_ := true }
    match serialize_market_summary lib held with
    | none => none
    | some body => some { HttpResponse.fresh with body := body }

/-- The standard conversions on the numbers of `small_quantity_body`: `std::stod` maps
the texts 0.3 and 0.300000 to 3/10 and 100 and 100.000000 to 100, and `std::to_string`
(format `%f`) maps them back to 0.300000 and 100.000000; on other arguments `stod`
throws.  The stream conversions are not used. -/
def decimal_lib : StdLib :=
  { show_double := fun _ => ""
    show_int64 := fun _ => ""
    stod := fun text =>
      if text = "0.3".toList ∨ text = "0.300000".toList then some (3 / 10)
      else if text = "100".toList ∨ text = "100.000000".toList then some 100
      else none
    stod_what := "stod"
    double_to_string := fun x =>
      if x = 3 / 10 then "0.300000".toList
      else if x = 100 then "100.000000".toList
      else []
    int_to_string := fun _ => "" }

/-- A request body for a BUY of quantity 0.3 at price 100. -/
def small_quantity_body : String :=
  "\x7b\"type\":\"BUY\",\"quantity\":0.3,\"price\":100,\"client_id\":\"c\"\x7d"

/-- The members that `parse_object` reads from `small_quantity_body`. -/
def small_quantity_object : JsonObject :=
  [("type".toList, "BUY".toList), ("quantity".toList, "0.300000".toList),
   ("price".toList, "100.000000".toList), ("client_id".toList, "c".toList)]

/-! ## WebSocket framing: `websocket_server.cpp`

A `std::string` used as a byte buffer is a list of byte values (`Nat` below 256);
`push_back(static_cast<char>(x))` stores `x % 256`, and `size_t` is 64 bits wide.
-/

/-- The method `WebSocketServer::encode_frame`. -/
def encode_frame (data : List Nat) : List Nat :=
  let frame : List Nat := [0x81]
  let payload_len := data.length % 2 ^ 64
  let frame :=
    if payload_len < 126 then frame ++ [payload_len % 256]
    else if payload_len < 65536 then
      frame ++ [126] ++ [((payload_len >>> 8) &&& 0xFF) % 256]
        ++ [(payload_len &&& 0xFF) % 256]
    else
      frame ++ [127]
        ++ [7, 6, 5, 4, 3, 2, 1, 0].map (fun i => ((payload_len >>> (i * 8)) &&& 0xFF) % 256)
  frame ++ data

/-- The number that a list of bytes denotes in big-endian order. -/
def big_endian (bytes : List Nat) : Nat := bytes.foldl (fun acc x => acc * 256 + x) 0

/-- The byte `static_cast<unsigned char>(frame[i])` of a byte buffer. -/
def byte_at (frame : List Nat) (i : Nat) : Nat := frame.getD i 0 % 256

/-- The last step of `decode_frame`: the length check (its right-hand side is a `size_t`
sum, which wraps) and `frame.substr(header_len, payload_len)`. -/
def extract_payload (frame : List Nat) (header_len payload_len : Nat) : List Nat :=
  if frame.length < (header_len + payload_len) % 2 ^ 64 then []
  else (frame.drop header_len).take payload_len

/-- The method `WebSocketServer::decode_frame`; the empty list is the empty string it
returns for a frame that it rejects.  The operands `frame[0]` and `frame[1]` are `char`
values promoted to `int`; the masks `0x0F` and `0x7F` keep bits that do not depend on the
signedness of `char`. -/
def decode_frame (frame : List Nat) : List Nat :=
  if frame.length < 2 then []
  else if byte_at frame 0 &&& 0x0F ≠ 1 then []
  else
    let payload_len := byte_at frame 1 &&& 0x7F
    if payload_len = 126 then
      if frame.length < 4 then []
      else extract_payload frame 4 ((byte_at frame 2 <<< 8) ||| byte_at frame 3)
    else if payload_len = 127 then
      if frame.length < 10 then []
      else
        extract_payload frame 10
          ([2, 3, 4, 5, 6, 7, 8, 9].foldl
            (fun payload_len i => ((payload_len <<< 8) % 2 ^ 64) ||| byte_at frame i) 0)
    else extract_payload frame 2 payload_len

/-! ## Storage of a price level: `std::deque<Order>` and the handles of the index

The index stores a `std::deque<Order>::iterator` for every order.  This section models
a deque together with its storage, as the GNU C++ library lays it out while the elements
stay inside one buffer node: the cells of the buffer in address order, the elements
being the cells from `start` up to `finish`; a cell outside that range holds no object.
An iterator is the position of a cell.  `push_back` constructs the next cell,
`pop_front` and `pop_back` destroy the cell at an end, and `erase(pos)` moves the
shorter side of the deque over the erased cell (`_M_erase` in `bits/deque.tcc`).
`add_order` and `cancel_order` are transcribed once more on this storage; the members
they do not use (`trades`, `trade_id`) are left out.  The sections above identify a
recorded iterator with the order it was recorded for.
-/

namespace Layout

/-- A `std::deque<Order>` with its storage. -/
structure Deque where
  cells : List (Option Order)
  start : Nat
  finish : Nat
deriving DecidableEq, Repr

/-- The default-constructed deque. -/
def Deque.empty : Deque := { cells := [], start := 0, finish := 0 }

/-- The call `size()`. -/
def Deque.size (d : Deque) : Nat := d.finish - d.start

/-- The elements from `begin()` to `end()`. -/
def Deque.elements (d : Deque) : List (Option Order) :=
  (d.cells.drop d.start).take (d.finish - d.start)

/-- The element that the iterator `pos` designates; `none` when the position lies
outside `begin() .. end()` or holds no object. -/
def Deque.element (d : Deque) (pos : Nat) : Option Order :=
  if d.start ≤ pos ∧ pos < d.finish then d.cells.getD pos none else none

/-- The call `push_back(o)`. -/
def Deque.push_back (d : Deque) (o : Order) : Deque :=
  { d with
    cells :=
      if d.finish < d.cells.length then d.cells.set d.finish (some o)
      else d.cells ++ [some o]
    finish := d.finish + 1 }

/-- The call `pop_front()`: destroys the first element and advances `start`. -/
def Deque.pop_front (d : Deque) : Deque :=
  { d with cells := d.cells.set d.start none, start := d.start + 1 }

/-- The call `pop_back()`: destroys the last element and moves `finish` back. -/
def Deque.pop_back (d : Deque) : Deque :=
  { d with cells := d.cells.set (d.finish - 1) none, finish := d.finish - 1 }

/-- The algorithm `std::move(first, last, result)` on cell positions: cell by cell in
ascending order; an empty range when `last ≤ first`. -/
def move_cells (cells : List (Option Order)) (first last result : Nat) :
    List (Option Order) :=
  (List.range (last - first)).foldl
    (fun c i => c.set (result + i) (c.getD (first + i) none)) cells

/-- The algorithm `std::move_backward(first, last, result)`: cell by cell in descending
order, the moved range ending at `result`. -/
def move_cells_backward (cells : List (Option Order)) (first last result : Nat) :
    List (Option Order) :=
  (List.range (last - first)).foldl
    (fun c i => c.set (result - 1 - i) (c.getD (last - 1 - i) none)) cells

/-- The call `erase(pos)`: with `index = pos - begin()` taken as an unsigned number, the
elements before `pos` move one cell up and the front is popped when
`index < size() / 2`, and otherwise the elements after `pos` move one cell down and the
back is popped.  The result is `none` (a pop on an empty deque) when the deque has no
element. -/
def Deque.erase (d : Deque) (pos : Nat) : Option Deque :=
  if d.size = 0 then none
  else
    let next := pos + 1
    if d.start ≤ pos ∧ pos - d.start < d.size / 2 then
      some (if pos ≠ d.start then
          { d with cells := move_cells_backward d.cells d.start pos next }
        else d).pop_front
    else
      some (if next ≠ d.finish then
          { d with cells := move_cells d.cells next d.finish pos }
        else d).pop_back

/-- One side of the book with the storage of its levels. -/
abbrev Ladder := List (Price × Deque)

/-- The members `buy_orders`, `sell_orders` and `orders` of `OrderBook`; the index maps
an order id to the recorded price and iterator. -/
structure OrderBook where
  buy_orders : Ladder
  sell_orders : Ladder
  orders : List (Int × Price × Nat)
deriving DecidableEq, Repr

/-- The freshly constructed book. -/
def OrderBook.empty : OrderBook := { buy_orders := [], sell_orders := [], orders := [] }

/-- The statement `m[price].push_back(order)`. -/
def map_push_back (before : Price → Price → Bool) (m : Ladder) (price : Price)
    (order : Order) : Ladder :=
  match m with
  | [] => [(price, Deque.empty.push_back order)]
  | (k, q) :: rest =>
    if before price k then (price, Deque.empty.push_back order) :: (k, q) :: rest
    else if before k price then (k, q) :: map_push_back before rest price order
    else (k, q.push_back order) :: rest

/-- The expression `prev(m[price].end())` for a key of the map. -/
def map_last (before : Price → Price → Bool) (m : Ladder) (price : Price) : Nat :=
  match m with
  | [] => 0
  | (k, q) :: rest =>
    if equiv_key before k price then q.finish - 1 else map_last before rest price

/-- The call `m.count(price)` as a truth value. -/
def map_count (before : Price → Price → Bool) (m : Ladder) (price : Price) : Bool :=
  m.any (fun e => equiv_key before e.1 price)

/-- The lookup `m.find(price)`. -/
def map_find (before : Price → Price → Bool) (m : Ladder) (price : Price) : Option Deque :=
  match m with
  | [] => none
  | (k, q) :: rest => if equiv_key before k price then some q else map_find before rest price

/-- The statements `m[price].erase(iter); if (m[price].empty()) m.erase(price);`.  When
no entry has the key, `operator[]` creates an empty deque and `erase` pops from it:
undefined behaviour, `none`. -/
def map_erase (before : Price → Price → Bool) (m : Ladder) (price : Price) (iter : Nat) :
    Option Ladder :=
  match m with
  | [] => none
  | (k, q) :: rest =>
    if equiv_key before k price then
      match q.erase iter with
      | none => none
      | some q1 => if q1.size = 0 then some rest else some ((k, q1) :: rest)
    else (map_erase before rest price iter).map (fun r => (k, q) :: r)

/-- The call `orders.find(order_id)`. -/
def index_find (ix : List (Int × Price × Nat)) (order_id : Int) : Option (Price × Nat) :=
  match ix with
  | [] => none
  | (k, v) :: rest => if k = order_id then some v else index_find rest order_id

/-- The assignment `orders[order_id] = {price, iter}`. -/
def index_assign (ix : List (Int × Price × Nat)) (order_id : Int) (v : Price × Nat) :
    List (Int × Price × Nat) :=
  match ix with
  | [] => [(order_id, v)]
  | (k, w) :: rest =>
    if k = order_id then (k, v) :: rest else (k, w) :: index_assign rest order_id v

/-- The call `orders.erase(it)` for the entry of `order_id`. -/
def index_erase (ix : List (Int × Price × Nat)) (order_id : Int) :
    List (Int × Price × Nat) :=
  ix.filter (fun e => decide (e.1 ≠ order_id))

/-- The method `OrderBook::add_order`. -/
def add_order (b : OrderBook) (order : Order) : OrderBook :=
  if order.type = OrderType.BUY then
    let m := map_push_back greater b.buy_orders order.price order
    { b with
      buy_orders := m
      orders := index_assign b.orders order.order_id
        (order.price, map_last greater m order.price) }
  else
    let m := map_push_back less b.sell_orders order.price order
    { b with
      sell_orders := m
      orders := index_assign b.orders order.order_id
        (order.price, map_last less m order.price) }

/-- The method `OrderBook::cancel_order`; `none` is a pop on an empty deque. -/
def cancel_order (b : OrderBook) (order_id : Int) : Option OrderBook :=
  match index_find b.orders order_id with
  | none => some b
  | some (price, iter) =>
    if map_count greater b.buy_orders price then
      match map_erase greater b.buy_orders price iter with
      | none => none
      | some m => some { b with buy_orders := m, orders := index_erase b.orders order_id }
    else
      match map_erase less b.sell_orders price iter with
      | none => none
      | some m => some { b with sell_orders := m, orders := index_erase b.orders order_id }

/-- Successive calls of `cancel_order`, first id first. -/
def cancel_orders : List Int → OrderBook → Option OrderBook
  | [], b => some b
  | order_id :: rest, b =>
    match cancel_order b order_id with
    | none => none
    | some b1 => cancel_orders rest b1

/-- The ids of the elements of each level of a ladder, in order; 0 stands for a cell
that holds no object. -/
def level_ids (m : Ladder) : List (Price × List Int) :=
  m.map (fun e => (e.1, e.2.elements.map (fun c => (c.map Order.order_id).getD 0)))

/-- The element that the iterator recorded for `order_id` designates in the deque
stored under the recorded price, if it designates one. -/
def handle_target (b : OrderBook) (order_id : Int) : Option Order :=
  match index_find b.orders order_id with
  | none => none
  | some (price, iter) =>
    match map_find greater b.buy_orders price with
    | some q => q.element iter
    | none =>
      match map_find less b.sell_orders price with
      | some q => q.element iter
      | none => none

end Layout

/-- Four buys of 5 at 100, ids 1 to 4, in the order of their arrival. -/
def four_buys : List Order :=
  [⟨1, OrderType.BUY, 5, 100, "a", 10⟩, ⟨2, OrderType.BUY, 5, 100, "b", 11⟩,
   ⟨3, OrderType.BUY, 5, 100, "c", 12⟩, ⟨4, OrderType.BUY, 5, 100, "d", 13⟩]

/-- The book with its storage after `add_order` of the four buys. -/
def four_buys_layout : Layout.OrderBook :=
  four_buys.foldl Layout.add_order Layout.OrderBook.empty

/-! ## HTTP adapter: `http_server.cpp`

A route handler is a `std::function<HttpResponse(const HttpRequest&)>`.  It acts on the
state that it captures (for the handlers of `main`, the `TradingApi` object), and a call
of it may return, throw, run into undefined behaviour or never return.  Integers written
to a `std::ostringstream` appear in decimal.
-/

/-- A route handler over the captured state `σ`. -/
abbrev RouteHandler (σ : Type) := HttpRequest → σ → Run (HttpResponse × σ)

/-- The member `HttpServer::routes_`, a `std::map` from `"METHOD path"` to the handler;
every key occurs once. -/
abbrev Routes (σ : Type) := List (String × RouteHandler σ)

/-- The lookup `routes_.find(key)`; `none` is `routes_.end()`. -/
def routes_find {σ : Type} (routes_ : Routes σ) (key : String) : Option (RouteHandler σ) :=
  match routes_ with
  | [] => none
  | (k, handler) :: rest => if k = key then some handler else routes_find rest key

/-- The method `HttpServer::add_route`: `routes_[method + " " + path] = handler`. -/
def add_route {σ : Type} (routes_ : Routes σ) (method path : String)
    (handler : RouteHandler σ) : Routes σ :=
  let key := method ++ " " ++ path
  (key, handler) :: routes_.filter (fun entry => entry.1 ≠ key)

/-- The method `HttpServer::serialize_response`; `body.length()` counts bytes. -/
def serialize_response (response : HttpResponse) : String :=
  let oss := "HTTP/1.1 " ++ toString response.status_code ++ " "
  let oss :=
    if response.status_code = 200 then oss ++ "OK"
    else if response.status_code = 404 then oss ++ "Not Found"
    else if response.status_code = 500 then oss ++ "Internal Server Error"
    else oss ++ "Unknown"
  let oss := oss ++ "\r\n"
  let oss := response.headers.foldl
    (fun oss header => oss ++ header.1 ++ ": " ++ header.2 ++ "\r\n") oss
  let oss := oss ++ "Content-Length: " ++ toString response.body.utf8ByteSize ++ "\r\n"
  let oss := oss ++ "\r\n"
  oss ++ response.body

/-- What the dispatch of `handle_client` did with a request: the keys of the route
handlers that it invoked and, when it gets that far, the response object, its
serialization and the state of the handlers afterwards. -/
structure Handled (σ : Type) where
  invoked : List String
  outcome : Run (HttpResponse × String × σ)

/-- The part `// Handle request` of `HttpServer::handle_client` (the dispatch on method
and route key, and the call of `serialize_response`) for the request that the first part
of the method has read; `s` is the state of the handlers.  An exception of a handler is
not caught. -/
def handle_request {σ : Type} (routes_ : Routes σ) (request : HttpRequest) (s : σ) :
    Handled σ :=
  let response := HttpResponse.fresh
  let route_key := request.method ++ " " ++ request.path
  let step : List String × Run (HttpResponse × σ) :=
    if request.method = "OPTIONS" then
      ([], Run.done ({ response with status_code := 200 }, s))
    else
      match routes_find routes_ route_key with
      | some handler => ([route_key], handler request s)
      | none =>
        ([], Run.done ({ response with
          status_code := 404, body := "\x7b\x22error\x22: \x22Not Found\x22\x7d" }, s))
  match step.2 with
  | Run.done (response, s) =>
    { invoked := step.1, outcome := Run.done (response, serialize_response response, s) }
  | Run.throws what => { invoked := step.1, outcome := Run.throws what }
  | Run.undefined => { invoked := step.1, outcome := Run.undefined }
  | Run.out_of_fuel => { invoked := step.1, outcome := Run.out_of_fuel }

/-- A handler that never returns. -/
def stuck_handler : RouteHandler Nat := fun _ _ => Run.out_of_fuel

/-- A handler that counts its calls and answers with the default response. -/
def counting_handler : RouteHandler Nat := fun _ n => Run.done (HttpResponse.fresh, n + 1)

/-- A routing table with a handler registered for `OPTIONS /api/orders`. -/
def preflight_routes : Routes Nat :=
  add_route (add_route [] "GET" "/health" counting_handler) "OPTIONS" "/api/orders"
    stuck_handler

/-- A preflight request for the path of the registered `OPTIONS` route. -/
def preflight_request : HttpRequest :=
  { method := "OPTIONS", path := "/api/orders",
    headers := [("origin", "http://localhost:3000")], body := "" }

/-- The method `HttpServer::read_line` on the bytes that `recv` still has to deliver
(the connection ends after them): the line up to the next line feed, without its
carriage returns, and the rest of the connection. -/
def read_line : List Char → List Char × List Char
  | [] => ([], [])
  | c :: rest =>
    if c = '\n' then ([], rest)
    else
      let r := read_line rest
      (if c ≠ '\r' then c :: r.1 else r.1, r.2)

/-- The loop `// Read headers` of `handle_client`: appends every line and `"\r\n"` to
`raw_request` until an empty line is read.  Every line that is not empty consumes a
byte, so `fuel` above the length of the connection suffices. -/
def read_headers : Nat → List Char → List Char → Option (List Char × List Char)
  | 0, _, _ => none
  | fuel + 1, raw_request, connection =>
    let r := read_line connection
    if r.1.isEmpty then some (raw_request, r.2)
    else read_headers fuel (raw_request ++ r.1 ++ ['\r', '\n']) r.2

/-- The lines that successive calls of `std::getline` extract from a stream. -/
def getlines : List Char → List Char → List (List Char)
  | [], line => if line.isEmpty then [] else [line.reverse]
  | c :: rest, line =>
    if c = '\n' then line.reverse :: getlines rest [] else getlines rest (c :: line)

/-- The extraction `stream >> word`: skips white space, then takes the characters up to
the next white space; the word and the rest of the stream. -/
def extract_word (stream : List Char) : List Char × List Char :=
  let s := stream.dropWhile is_space
  (s.takeWhile (fun c => !is_space c), s.dropWhile (fun c => !is_space c))

/-- The two `erase` calls that trim a header key or value: leading blanks and tabs,
trailing blanks, tabs and carriage returns. -/
def trim_header (s : List Char) : List Char :=
  let s := s.dropWhile (fun c => c = ' ' || c = '\t')
  (s.reverse.dropWhile (fun c => c = ' ' || c = '\t' || c = '\r')).reverse

/-- The assignment `headers[key] = value` on the header map. -/
def headers_assign (headers : List (String × String)) (key value : String) :
    List (String × String) :=
  match headers with
  | [] => [(key, value)]
  | (k, v) :: rest =>
    if k = key then (k, value) :: rest else (k, v) :: headers_assign rest key value

/-- The lookup `headers.find(key)`. -/
def headers_find (headers : List (String × String)) (key : String) : Option String :=
  match headers with
  | [] => none
  | (k, v) :: rest => if k = key then some v else headers_find rest key

/-- The loop `// Parse headers` of `parse_request` over the lines after the request
line: it ends at the line `"\r"` or at an empty line; a line without a colon is
skipped. -/
def parse_headers : List (List Char) → List (String × String) → List (String × String)
  | [], headers => headers
  | line :: rest, headers =>
    if line = ['\r'] ∨ line.isEmpty then headers
    else if line.contains ':' then
      let key := line.takeWhile (fun c => c ≠ ':')
      let value := (line.dropWhile (fun c => c ≠ ':')).drop 1
      let key := (trim_header key).map Char.toLower
      let value := trim_header value
      parse_headers rest (headers_assign headers (String.mk key) (String.mk value))
    else parse_headers rest headers

/-- The method `HttpServer::parse_request`. -/
def parse_request (raw_request : List Char) : HttpRequest :=
  match getlines raw_request [] with
  | [] => { method := "", path := "", headers := [], body := "" }
  | line :: rest =>
    let method := extract_word line
    let path := extract_word method.2
    { method := String.mk method.1, path := String.mk path.1,
      headers := parse_headers rest [], body := "" }

/-- The function `std::stoul` in base 10: white space, an optional sign, then digits;
`none` when it throws (`std::invalid_argument` without a digit, `std::out_of_range`
above 2^64 - 1); a minus sign negates modulo 2^64. -/
def stoul (str : List Char) : Option Nat :=
  let s := str.dropWhile is_space
  let negative := s.head? = some '-'
  let s := if s.head? = some '-' ∨ s.head? = some '+' then s.drop 1 else s
  let digits := s.takeWhile is_digit
  if digits.isEmpty then none
  else
    let n := digits.foldl (fun acc c => acc * 10 + (c.toNat - 48)) 0
    if 2 ^ 64 ≤ n then none
    else some (if negative then (2 ^ 64 - n) % 2 ^ 64 else n)

/-- The method `HttpServer::read_body`: a string of `content_length` bytes, filled with
the bytes that the connection still delivers and with null bytes after them; and the
rest of the connection. -/
def read_body (connection : List Char) (content_length : Nat) : List Char × List Char :=
  (connection.take content_length
      ++ List.replicate (content_length - connection.length) '\x00',
    connection.drop content_length)

/-- What `handle_client` did with a connection: the keys of the route handlers that it
invoked, the text that it passed to `send` (if it got that far), and how the method
ended: `Run.done` with the state of the handlers when it returned, `Run.throws` when an
exception left it (the method is the function of a detached thread, where this ends
the process). -/
structure Served (σ : Type) where
  invoked : List String
  sent : Option String
  outcome : Run σ

/-- The method `HttpServer::handle_client` on a connection that delivers the bytes
`connection` and then ends.  `max_size` is `std::string::max_size()`, beyond which
`body.resize` throws; the exhaustion of memory below that size is not modelled. -/
def handle_client {σ : Type} (max_size : Nat) (routes_ : Routes σ)
    (connection : List Char) (s : σ) : Served σ :=
  let line := read_line connection
  if line.1.isEmpty then { invoked := [], sent := none, outcome := Run.done s }
  else
    match read_headers (connection.length + 1) (line.1 ++ ['\r', '\n']) line.2 with
    | none => { invoked := [], sent := none, outcome := Run.out_of_fuel }
    | some (raw_request, connection) =>
      let raw_request := raw_request ++ ['\r', '\n']
      let request := parse_request raw_request
      let with_body : Run HttpRequest :=
        match headers_find request.headers "content-length" with
        | none => Run.done request
        | some value =>
          match stoul value.toList with
          | none => Run.throws "stoul"
          | some content_length =>
            if 0 < content_length then
              if max_size < content_length then Run.throws "basic_string::_M_replace_aux"
              else
                Run.done { request with
                  body := String.mk (read_body connection content_length).1 }
            else Run.done request
      match with_body with
      | Run.done request =>
        let handled := handle_request routes_ request s
        match handled.outcome with
        | Run.done (_, response_str, s) =>
          { invoked := handled.invoked, sent := some response_str, outcome := Run.done s }
        | Run.throws what =>
          { invoked := handled.invoked, sent := none, outcome := Run.throws what }
        | Run.undefined =>
          { invoked := handled.invoked, sent := none, outcome := Run.undefined }
        | Run.out_of_fuel =>
          { invoked := handled.invoked, sent := none, outcome := Run.out_of_fuel }
      | Run.throws what => { invoked := [], sent := none, outcome := Run.throws what }
      | Run.undefined => { invoked := [], sent := none, outcome := Run.undefined }
      | Run.out_of_fuel => { invoked := [], sent := none, outcome := Run.out_of_fuel }

/-- A preflight request whose `Content-Length` header is not a number. -/
def bad_length_preflight : String :=
  "OPTIONS /api/orders HTTP/1.1\r\nHost: localhost\r\nContent-Length: abc\r\n\r\n"

/-- The same preflight request without the `Content-Length` header. -/
def plain_preflight : String :=
  "OPTIONS /api/orders HTTP/1.1\r\nHost: localhost\r\n\r\n"

/-! ## Theorems -/

theorem int_sub_of_range {a b : Int} (ha : is_int a = true) (hb : is_int b = true) :
    int_sub a b = (a - b + 2147483648) % 4294967296 - 2147483648 := by
  simp [int_sub, ha, hb]

theorem int_sub_out_of_range {a b : Int} (h : ¬ (is_int a = true ∧ is_int b = true)) :
    int_sub a b = a - b := by
  unfold int_sub
  rw [if_neg]
  simpa using h

theorem is_int_iff (x : Int) : is_int x = true ↔ -2147483648 ≤ x ∧ x < 2147483648 := by
  simp [is_int]

theorem int_sub_eq_zero {a b : Int} : int_sub a b = 0 ↔ a = b := by
  by_cases h : is_int a = true ∧ is_int b = true
  · rw [int_sub_of_range h.1 h.2]
    have ha := (is_int_iff a).mp h.1
    have hb := (is_int_iff b).mp h.2
    omega
  · rw [int_sub_out_of_range h]
    omega

theorem int_sub_self (a : Int) : int_sub a a = 0 := int_sub_eq_zero.mpr rfl

theorem int_sub_exact {a b : Int} (h0 : 0 ≤ b) (h : b ≤ a) : int_sub a b = a - b := by
  by_cases hr : is_int a = true ∧ is_int b = true
  · rw [int_sub_of_range hr.1 hr.2]
    have ha := (is_int_iff a).mp hr.1
    omega
  · exact int_sub_out_of_range hr

theorem int_sub_min_left (a b : Int) (h0 : 0 ≤ a) (h1 : 0 ≤ b) :
    int_sub a (min a b) = a - min a b :=
  int_sub_exact (le_min h0 h1) (min_le_left a b)

theorem int_sub_min_right (a b : Int) (h0 : 0 ≤ a) (h1 : 0 ≤ b) :
    int_sub b (min a b) = b - min a b :=
  int_sub_exact (le_min h0 h1) (min_le_right a b)

theorem int_sub_min_nonneg_left {a b : Int} (h0 : 0 ≤ a) (h1 : 0 ≤ b) :
    0 ≤ int_sub a (min a b) := by
  rw [int_sub_min_left a b h0 h1]
  exact sub_nonneg.mpr (min_le_left _ _)

theorem int_sub_min_nonneg_right {a b : Int} (h0 : 0 ≤ a) (h1 : 0 ≤ b) :
    0 ≤ int_sub b (min a b) := by
  rw [int_sub_min_right a b h0 h1]
  exact sub_nonneg.mpr (min_le_right _ _)

theorem int_sub_mod (a b : Int) : int_sub a b % 4294967296 = (a - b) % 4294967296 := by
  by_cases h : is_int a = true ∧ is_int b = true
  · rw [int_sub_of_range h.1 h.2]
    omega
  · rw [int_sub_out_of_range h]

theorem match_step_next_inv {s s1 : OrderBook} (h : match_step s = MatchStep.next s1) :
    ∃ bk bf bt br sk sf st sr,
      s.buy_orders = (bk, bf :: bt) :: br ∧ s.sell_orders = (sk, sf :: st) :: sr ∧
      ¬ bk < sk ∧
      s1 = { s with
        buy_orders := pop_filled bk
          { bf with quantity := int_sub bf.quantity (min bf.quantity sf.quantity) } bt br
        sell_orders := pop_filled sk
          { sf with quantity := int_sub sf.quantity (min bf.quantity sf.quantity) } st sr
        trades := s.trades ++ [make_trade s sk bf sf]
        trade_id := s.trade_id + 1 } := by
  unfold match_step at h
  split at h
  · simp at h
  · simp at h
  · rename_i bk bq br sk sq sr hb hs
    split at h
    · simp at h
    · rename_i hlt
      split at h
      · rename_i bf bt sf st
        refine ⟨bk, bf, bt, br, sk, sf, st, sr, hb, hs, hlt, ?_⟩
        simp only [MatchStep.next.injEq] at h
        rw [← h]
        rfl
      · simp at h

theorem ladder_count_cons (k : Price) (q : List Order) (r : Ladder) :
    ladder_count ((k, q) :: r) = q.length + ladder_count r := by
  simp [ladder_count]

theorem ladder_count_pop_filled (k : Price) (o : Order) (q : List Order) (r : Ladder) :
    ladder_count (pop_filled k o q r)
      = (if o.quantity = 0 then 0 else 1) + q.length + ladder_count r := by
  unfold pop_filled
  by_cases h0 : o.quantity = 0
  · cases q with
    | nil => simp [h0, ladder_count]
    | cons a t => simp [h0, ladder_count]
  · simp [h0, ladder_count]; omega

theorem match_step_count {s s1 : OrderBook} (h : match_step s = MatchStep.next s1) :
    resting_count s1 < resting_count s := by
  obtain ⟨bk, bf, bt, br, sk, sf, st, sr, hb, hs, _, rfl⟩ := match_step_next_inv h
  simp only [resting_count, hb, hs, ladder_count_pop_filled, ladder_count_cons,
    List.length_cons]
  rcases le_total bf.quantity sf.quantity with hle | hle
  · rw [min_eq_left hle]
    simp only [int_sub_self, if_true]
    split <;> omega
  · rw [min_eq_right hle]
    simp only [int_sub_self, if_true]
    split <;> omega

theorem match_iterate_succ {n : Nat} {b s1 : OrderBook} :
    match_iterate (n + 1) b = some s1 ↔
      ∃ s, match_iterate n b = some s ∧ match_step s = MatchStep.next s1 := by
  induction n generalizing b with
  | zero =>
    simp only [match_iterate]
    constructor
    · intro h
      split at h
      · rename_i b1 hb1
        simp only [Option.some.injEq] at h
        exact ⟨b, rfl, h ▸ hb1⟩
      · simp at h
    · rintro ⟨s, hs, hstep⟩
      simp only [Option.some.injEq] at hs
      subst hs
      rw [hstep]
  | succ n ih =>
    constructor
    · intro h
      rw [match_iterate] at h
      split at h
      · rename_i b1 hb1
        obtain ⟨s, hs, hstep⟩ := ih.mp h
        refine ⟨s, ?_, hstep⟩
        rw [match_iterate, hb1]
        exact hs
      · simp at h
    · rintro ⟨s, hs, hstep⟩
      rw [match_iterate] at hs
      split at hs
      · rename_i b1 hb1
        rw [match_iterate, hb1]
        exact ih.mpr ⟨s, hs, hstep⟩
      · simp at hs

theorem match_iterate_count {n : Nat} {b s : OrderBook} (h : match_iterate n b = some s) :
    resting_count s + n ≤ resting_count b := by
  induction n generalizing s with
  | zero =>
    simp only [match_iterate, Option.some.injEq] at h
    subst h
    omega
  | succ n ih =>
    obtain ⟨s0, hs0, hstep⟩ := match_iterate_succ.mp h
    have h1 := ih hs0
    have h2 := match_step_count hstep
    omega

theorem match_loop_some {fuel : Nat} {b r : OrderBook} (h : match_loop fuel b = some r) :
    ∃ n, n ≤ fuel ∧ match_iterate n b = some r ∧ match_step r = MatchStep.stop := by
  induction fuel generalizing b with
  | zero =>
    unfold match_loop at h
    split at h
    · rename_i hstop
      simp only [Option.some.injEq] at h
      subst h
      exact ⟨0, le_refl _, rfl, hstop⟩
    · simp at h
    · simp at h
  | succ k ih =>
    unfold match_loop at h
    split at h
    · rename_i hstop
      simp only [Option.some.injEq] at h
      subst h
      exact ⟨0, Nat.zero_le _, rfl, hstop⟩
    · simp at h
    · rename_i b1 hb1
      simp only at h
      obtain ⟨n, hn, hit, hstop⟩ := ih h
      refine ⟨n + 1, by omega, ?_, hstop⟩
      rw [match_iterate, hb1]
      exact hit

theorem match_iterate_loop {n fuel : Nat} {b r : OrderBook}
    (hit : match_iterate n b = some r) (hstop : match_step r = MatchStep.stop)
    (hn : n ≤ fuel) : match_loop fuel b = some r := by
  induction n generalizing b fuel with
  | zero =>
    simp only [match_iterate, Option.some.injEq] at hit
    subst hit
    unfold match_loop
    rw [hstop]
  | succ k ih =>
    rw [match_iterate] at hit
    split at hit
    · rename_i b1 hb1
      cases fuel with
      | zero => omega
      | succ f =>
        unfold match_loop
        rw [hb1]
        exact ih hit (by omega)
    · simp at hit

/-- The result of `match_orders` is the state reached after some number of complete
iterations at which the loop exits; the fuel never runs out on a defined run. -/
theorem match_orders_iff {b r : OrderBook} :
    match_orders b = some r ↔
      ∃ n, match_iterate n b = some r ∧ match_step r = MatchStep.stop := by
  constructor
  · intro h
    obtain ⟨n, _, hit, hstop⟩ := match_loop_some h
    exact ⟨n, hit, hstop⟩
  · rintro ⟨n, hit, hstop⟩
    have := match_iterate_count hit
    exact match_iterate_loop hit hstop (by unfold resting_count at this; omega)

theorem levels_nonempty_pop_filled {k : Price} {o : Order} {q : List Order} {r : Ladder}
    (hr : levels_nonempty r) : levels_nonempty (pop_filled k o q r) := by
  unfold pop_filled
  by_cases h0 : o.quantity = 0
  · cases q with
    | nil => simpa [h0] using hr
    | cons a t =>
      simp only [h0, if_true, List.isEmpty_cons, Bool.false_eq_true, if_false]
      intro e he
      rcases List.mem_cons.mp he with rfl | he
      · simp
      · exact hr e he
  · simp only [h0, if_false]
    intro e he
    rcases List.mem_cons.mp he with rfl | he
    · simp
    · exact hr e he

theorem levels_nonempty_tail {e : Price × List Order} {r : Ladder}
    (h : levels_nonempty (e :: r)) : levels_nonempty r :=
  fun x hx => h x (List.mem_cons_of_mem _ hx)

theorem match_step_levels_nonempty {s s1 : OrderBook} (hne : s.levels_nonempty)
    (h : match_step s = MatchStep.next s1) : s1.levels_nonempty := by
  obtain ⟨bk, bf, bt, br, sk, sf, st, sr, hb, hs, _, rfl⟩ := match_step_next_inv h
  obtain ⟨h1, h2⟩ := hne
  rw [hb] at h1
  rw [hs] at h2
  exact ⟨levels_nonempty_pop_filled (levels_nonempty_tail h1),
    levels_nonempty_pop_filled (levels_nonempty_tail h2)⟩

theorem match_step_defined {s : OrderBook} (hne : s.levels_nonempty) :
    match_step s ≠ MatchStep.undefined := by
  obtain ⟨h1, h2⟩ := hne
  unfold match_step
  split
  · simp
  · simp
  · rename_i bk bq br sk sq sr hb hs
    split
    · simp
    · rw [hb] at h1
      rw [hs] at h2
      have hbq : bq ≠ [] := h1 (bk, bq) (List.mem_cons_self _ _)
      have hsq : sq ≠ [] := h2 (sk, sq) (List.mem_cons_self _ _)
      cases bq with
      | nil => exact absurd rfl hbq
      | cons bf bt =>
        cases sq with
        | nil => exact absurd rfl hsq
        | cons sf st => simp

theorem match_loop_defined (fuel : Nat) (b : OrderBook) (hne : b.levels_nonempty)
    (hfuel : resting_count b ≤ fuel) : ∃ r, match_loop fuel b = some r := by
  induction fuel generalizing b with
  | zero =>
    unfold match_loop
    cases hstep : match_step b with
    | stop => exact ⟨b, rfl⟩
    | undefined => exact absurd hstep (match_step_defined hne)
    | next b1 =>
      have := match_step_count hstep
      omega
  | succ k ih =>
    unfold match_loop
    cases hstep : match_step b with
    | stop => exact ⟨b, rfl⟩
    | undefined => exact absurd hstep (match_step_defined hne)
    | next b1 =>
      have := match_step_count hstep
      exact ih b1 (match_step_levels_nonempty hne hstep) (by omega)

/-- On a book without empty price levels `match_orders` has defined behaviour and
returns. -/
theorem match_orders_defined (b : OrderBook) (hne : b.levels_nonempty) :
    ∃ r, match_orders b = some r :=
  match_loop_defined _ b hne (le_refl _)

theorem match_step_trades {s s1 : OrderBook} (h : match_step s = MatchStep.next s1) :
    ∃ t, s1.trades = s.trades ++ [t] := by
  obtain ⟨bk, bf, bt, br, sk, sf, st, sr, _, _, _, rfl⟩ := match_step_next_inv h
  exact ⟨_, rfl⟩

theorem match_iterate_trades_length {n : Nat} {b s : OrderBook}
    (h : match_iterate n b = some s) : s.trades.length = b.trades.length + n := by
  induction n generalizing s with
  | zero =>
    simp only [match_iterate, Option.some.injEq] at h
    subst h
    rfl
  | succ n ih =>
    obtain ⟨s0, hs0, hstep⟩ := match_iterate_succ.mp h
    obtain ⟨t, ht⟩ := match_step_trades hstep
    rw [ht, List.length_append, ih hs0]
    simp
    omega

/-- The trade at position `i` among those appended by a run of `n` iterations is the one
emitted by the iteration that starts in the state reached after `i` iterations. -/
theorem appended_trade {n : Nat} {b r : OrderBook} (h : match_iterate n b = some r)
    {i : Nat} {t : Trade} (ht : r.trades[b.trades.length + i]? = some t) :
    ∃ s s1, match_iterate i b = some s ∧ match_step s = MatchStep.next s1 ∧
      s1.trades = s.trades ++ [t] := by
  induction n generalizing r with
  | zero =>
    simp only [match_iterate, Option.some.injEq] at h
    subst h
    have := List.getElem?_eq_some.mp ht
    obtain ⟨hlt, _⟩ := this
    omega
  | succ n ih =>
    obtain ⟨s0, hs0, hstep⟩ := match_iterate_succ.mp h
    obtain ⟨t0, ht0⟩ := match_step_trades hstep
    have hlen := match_iterate_trades_length hs0
    rw [ht0] at ht
    rcases Nat.lt_trichotomy i n with hlt | heq | hgt
    · rw [List.getElem?_append_left (by omega)] at ht
      exact ih hs0 ht
    · subst heq
      rw [List.getElem?_append_right (by omega)] at ht
      have : b.trades.length + i - s0.trades.length = 0 := by omega
      rw [this] at ht
      simp only [List.getElem?_cons_zero, Option.some.injEq] at ht
      subst ht
      exact ⟨s0, r, hs0, hstep, ht0⟩
    · have := List.getElem?_eq_some.mp ht
      obtain ⟨hlt, _⟩ := this
      simp at hlt
      omega

theorem sorted_by_tail {before : Price → Price → Bool} {e : Price × List Order}
    {r : Ladder} (h : sorted_by before (e :: r)) : sorted_by before r :=
  (List.pairwise_cons.mp h).2

theorem sorted_by_head {before : Price → Price → Bool} {e : Price × List Order}
    {r : Ladder} (h : sorted_by before (e :: r)) : ∀ x ∈ r, before e.1 x.1 = true :=
  (List.pairwise_cons.mp h).1

theorem sorted_by_pop_filled {before : Price → Price → Bool} {k : Price} {q0 : List Order}
    {r : Ladder} (h : sorted_by before ((k, q0) :: r)) (o : Order) (q : List Order) :
    sorted_by before (pop_filled k o q r) := by
  have hh : ∀ x ∈ r, before k x.1 = true := sorted_by_head h
  have hcons : ∀ q1 : List Order, sorted_by before ((k, q1) :: r) := fun q1 =>
    List.pairwise_cons.mpr ⟨hh, sorted_by_tail h⟩
  unfold pop_filled
  split
  · split
    · exact sorted_by_tail h
    · exact hcons q
  · exact hcons (o :: q)

theorem match_step_well_formed {s s1 : OrderBook} (hwf : s.well_formed)
    (h : match_step s = MatchStep.next s1) : s1.well_formed := by
  obtain ⟨bk, bf, bt, br, sk, sf, st, sr, hb, hs, _, rfl⟩ := match_step_next_inv h
  obtain ⟨h1, h2⟩ := hwf
  rw [hb] at h1
  rw [hs] at h2
  exact ⟨sorted_by_pop_filled h1 _ _, sorted_by_pop_filled h2 _ _⟩

theorem match_iterate_well_formed {n : Nat} {b s : OrderBook} (hwf : b.well_formed)
    (h : match_iterate n b = some s) : s.well_formed := by
  induction n generalizing s with
  | zero =>
    simp only [match_iterate, Option.some.injEq] at h
    exact h ▸ hwf
  | succ n ih =>
    obtain ⟨s0, hs0, hstep⟩ := match_iterate_succ.mp h
    exact match_step_well_formed (ih hs0) hstep

theorem match_iterate_levels_nonempty {n : Nat} {b s : OrderBook}
    (hne : b.levels_nonempty) (h : match_iterate n b = some s) : s.levels_nonempty := by
  induction n generalizing s with
  | zero =>
    simp only [match_iterate, Option.some.injEq] at h
    exact h ▸ hne
  | succ n ih =>
    obtain ⟨s0, hs0, hstep⟩ := match_iterate_succ.mp h
    exact match_step_levels_nonempty (ih hs0) hstep

theorem match_step_stop_inv {s : OrderBook} (h : match_step s = MatchStep.stop) :
    s.buy_orders = [] ∨ s.sell_orders = [] ∨
      ∃ bk bq br sk sq sr, s.buy_orders = (bk, bq) :: br ∧
        s.sell_orders = (sk, sq) :: sr ∧ bk < sk := by
  unfold match_step at h
  split at h
  · rename_i hb
    exact Or.inl hb
  · rename_i hs
    exact Or.inr (Or.inl hs)
  · rename_i bk bq br sk sq sr hb hs
    split at h
    · rename_i hlt
      exact Or.inr (Or.inr ⟨bk, bq, br, sk, sq, sr, hb, hs, hlt⟩)
    · split at h <;> simp at h

/-- In a well-formed book the first bid key is the highest and the first ask key the
lowest. -/
theorem best_prices_extreme {b : OrderBook} (hwf : b.well_formed)
    {bk sk : Price} {bq sq : List Order} {br sr : Ladder}
    (hb : b.buy_orders = (bk, bq) :: br) (hs : b.sell_orders = (sk, sq) :: sr) :
    (∀ x ∈ b.buy_orders, x.1 ≤ bk) ∧ (∀ y ∈ b.sell_orders, sk ≤ y.1) := by
  obtain ⟨h1, h2⟩ := hwf
  rw [hb] at h1 ⊢
  rw [hs] at h2 ⊢
  constructor
  · intro x hx
    rcases List.mem_cons.mp hx with rfl | hx
    · exact le_refl _
    · have := sorted_by_head h1 x hx
      simp only [greater, decide_eq_true_eq] at this
      exact le_of_lt this
  · intro y hy
    rcases List.mem_cons.mp hy with rfl | hy
    · exact le_refl _
    · have := sorted_by_head h2 y hy
      simp only [less, decide_eq_true_eq] at this
      exact le_of_lt this

/-- C1: on every book without empty price levels (crossed or not), `match_orders`
returns, and the book it returns is not crossed: the bid ladder is empty, or the ask
ladder is empty, or every bid price, in particular the highest, is strictly less than
every ask price, in particular the lowest. -/
theorem match_orders_not_crossed (b : OrderBook) (hwf : b.well_formed)
    (hne : b.levels_nonempty) : ∃ r, match_orders b = some r ∧ r.not_crossed := by
  obtain ⟨r, hr⟩ := match_orders_defined b hne
  refine ⟨r, hr, ?_⟩
  obtain ⟨n, hit, hstop⟩ := match_orders_iff.mp hr
  have hwfr := match_iterate_well_formed hwf hit
  rcases match_step_stop_inv hstop with h | h | ⟨bk, bq, br, sk, sq, sr, hb, hs, hlt⟩
  · exact Or.inl h
  · exact Or.inr (Or.inl h)
  · refine Or.inr (Or.inr ?_)
    obtain ⟨h1, h2⟩ := best_prices_extreme hwfr hb hs
    intro x hx y hy
    exact lt_of_le_of_lt (h1 x hx) (lt_of_lt_of_le hlt (h2 y hy))

theorem match_orders_not_crossed_witness :
    crossed_book.well_formed ∧ crossed_book.levels_nonempty ∧
      ∃ r, match_orders crossed_book = some r ∧ r.not_crossed :=
  ⟨by decide, by decide, match_orders_not_crossed crossed_book (by decide) (by decide)⟩

theorem match_iterate_trades_append {n : Nat} {b s : OrderBook}
    (h : match_iterate n b = some s) : ∃ ts, s.trades = b.trades ++ ts := by
  induction n generalizing s with
  | zero =>
    simp only [match_iterate, Option.some.injEq] at h
    subst h
    exact ⟨[], by simp⟩
  | succ n ih =>
    obtain ⟨s0, hs0, hstep⟩ := match_iterate_succ.mp h
    obtain ⟨t, ht⟩ := match_step_trades hstep
    obtain ⟨ts, hts⟩ := ih hs0
    exact ⟨ts ++ [t], by rw [ht, hts, List.append_assoc]⟩

theorem appended_trades_self (b : OrderBook) : appended_trades b b = [] := by
  simp [appended_trades]

/-- Head decomposition of the appended trades: the first iteration emits its trade, the
remaining iterations emit the rest. -/
theorem appended_trades_step {n : Nat} {s s1 r : OrderBook} {t : Trade}
    (ht : s1.trades = s.trades ++ [t]) (h : match_iterate n s1 = some r) :
    appended_trades s r = t :: appended_trades s1 r := by
  obtain ⟨ts, hts⟩ := match_iterate_trades_append h
  simp [appended_trades, hts, ht]

theorem appended_trades_getElem? (b r : OrderBook) (i : Nat) :
    (appended_trades b r)[i]? = r.trades[b.trades.length + i]? := by
  simp [appended_trades]

/-- The trade at position `i` among those appended by `match_orders` is emitted by the
iteration that starts in the state reached after `i` iterations. -/
theorem appended_trade_of_match_orders {b r : OrderBook} (h : match_orders b = some r)
    {i : Nat} {t : Trade} (ht : (appended_trades b r)[i]? = some t) :
    ∃ s bk bf bt br sk sf st sr, match_iterate i b = some s ∧
      s.buy_orders = (bk, bf :: bt) :: br ∧ s.sell_orders = (sk, sf :: st) :: sr ∧
      ¬ bk < sk ∧ t = make_trade s sk bf sf := by
  obtain ⟨n, hit, _⟩ := match_orders_iff.mp h
  rw [appended_trades_getElem?] at ht
  obtain ⟨s, s1, hs, hstep, htr⟩ := appended_trade hit ht
  obtain ⟨bk, bf, bt, br, sk, sf, st, sr, hb, hsell, hlt, rfl⟩ := match_step_next_inv hstep
  refine ⟨s, bk, bf, bt, br, sk, sf, st, sr, hs, hb, hsell, hlt, ?_⟩
  simp only [List.append_cancel_left_eq, List.cons.injEq, and_true] at htr
  exact htr.symm

/-- Field-wise form of `match_step_next_inv`. -/
theorem match_step_next_fields {s s1 : OrderBook} (h : match_step s = MatchStep.next s1) :
    ∃ bk bf bt br sk sf st sr,
      s.buy_orders = (bk, bf :: bt) :: br ∧ s.sell_orders = (sk, sf :: st) :: sr ∧
      ¬ bk < sk ∧
      s1.buy_orders = pop_filled bk
        { bf with quantity := int_sub bf.quantity (min bf.quantity sf.quantity) } bt br ∧
      s1.sell_orders = pop_filled sk
        { sf with quantity := int_sub sf.quantity (min bf.quantity sf.quantity) } st sr ∧
      s1.trades = s.trades ++ [make_trade s sk bf sf] ∧
      s1.trade_id = s.trade_id + 1 ∧ s1.orders = s.orders := by
  obtain ⟨bk, bf, bt, br, sk, sf, st, sr, hb, hs, hlt, rfl⟩ := match_step_next_inv h
  exact ⟨bk, bf, bt, br, sk, sf, st, sr, hb, hs, hlt, rfl, rfl, rfl, rfl, rfl⟩

theorem resting_orders_pop_filled (k : Price) (o : Order) (q : List Order) (r : Ladder) :
    resting_orders (pop_filled k o q r)
      = (if o.quantity = 0 then q else o :: q) ++ resting_orders r := by
  unfold pop_filled
  by_cases h0 : o.quantity = 0
  · cases q with
    | nil => simp [h0]
    | cons a t => simp [h0, resting_orders]
  · simp [h0, resting_orders]

theorem mem_resting_orders {m : Ladder} {k : Price} {q : List Order} (h : (k, q) ∈ m)
    {o : Order} (ho : o ∈ q) : o ∈ resting_orders m := by
  induction m with
  | nil => simp at h
  | cons e r ih =>
    obtain ⟨k0, q0⟩ := e
    simp only [resting_orders, List.mem_append]
    rcases List.mem_cons.mp h with heq | hr
    · simp only [Prod.mk.injEq] at heq
      exact Or.inl (heq.2 ▸ ho)
    · exact Or.inr (ih hr)

theorem ladder_ids_cons (k : Price) (q : List Order) (r : Ladder) :
    ladder_ids ((k, q) :: r) = q.map Order.order_id ++ ladder_ids r := by
  simp [ladder_ids, resting_orders]

theorem ladder_ids_pop_filled (k : Price) (o : Order) (q : List Order) (r : Ladder) :
    ladder_ids (pop_filled k o q r)
      = (if o.quantity = 0 then [] else [o.order_id]) ++ q.map Order.order_id
          ++ ladder_ids r := by
  unfold ladder_ids
  rw [resting_orders_pop_filled]
  split <;> simp

theorem ladder_ids_pop_filled_sublist (k : Price) (o o1 : Order) (q : List Order)
    (r : Ladder) (hid : o1.order_id = o.order_id) :
    (ladder_ids (pop_filled k o1 q r)).Sublist (ladder_ids ((k, o :: q) :: r)) := by
  rw [ladder_ids_pop_filled, ladder_ids_cons]
  split
  · simp
  · simp [hid]

theorem match_step_buy_ids_sublist {s s1 : OrderBook} (h : match_step s = MatchStep.next s1) :
    (ladder_ids s1.buy_orders).Sublist (ladder_ids s.buy_orders) := by
  obtain ⟨bk, bf, bt, br, sk, sf, st, sr, hb, _, _, hb1, _, _, _, _⟩ :=
    match_step_next_fields h
  rw [hb, hb1]
  exact ladder_ids_pop_filled_sublist _ _ _ _ _ rfl

/-- Every trade appended by a run names a buy order that was resting at its start. -/
theorem appended_buy_ids {n : Nat} {s r : OrderBook} (h : match_iterate n s = some r) :
    ∀ t ∈ appended_trades s r, t.buy_order_id ∈ ladder_ids s.buy_orders := by
  induction n generalizing s with
  | zero =>
    simp only [match_iterate, Option.some.injEq] at h
    subst h
    simp [appended_trades_self]
  | succ n ih =>
    rw [match_iterate] at h
    split at h
    · rename_i s1 hstep
      obtain ⟨bk, bf, bt, br, sk, sf, st, sr, hb, _, _, _, _, htr, _, _⟩ :=
        match_step_next_fields hstep
      rw [appended_trades_step htr h]
      intro t ht
      rcases List.mem_cons.mp ht with rfl | ht
      · rw [hb, ladder_ids_cons]
        simp [make_trade]
      · exact (match_step_buy_ids_sublist hstep).subset (ih h t ht)
    · simp at h

theorem quantities_nonneg_pop_filled {k : Price} {o : Order} {q : List Order}
    {r : Ladder} (h : quantities_nonneg ((k, o :: q) :: r)) {x : Int} (hx : 0 ≤ x) :
    quantities_nonneg (pop_filled k { o with quantity := x } q r) := by
  unfold quantities_nonneg at h ⊢
  rw [resting_orders_pop_filled]
  simp only [resting_orders, List.cons_append, List.mem_cons, List.mem_append] at h
  intro a ha
  by_cases hz : x = 0
  · simp only [hz, if_true, List.mem_append] at ha
    exact h a (Or.inr ha)
  · simp only [hz, if_false, List.cons_append, List.mem_cons, List.mem_append] at ha
    rcases ha with rfl | ha
    · exact hx
    · exact h a (Or.inr ha)

theorem match_step_quantities_nonneg (s s1 : OrderBook) (hpos : s.quantities_nonneg)
    (h : match_step s = MatchStep.next s1) : s1.quantities_nonneg := by
  obtain ⟨bk, bf, bt, br, sk, sf, st, sr, hb, hs, _, hb1, hs1, _, _, _⟩ :=
    match_step_next_fields h
  obtain ⟨h1, h2⟩ := hpos
  rw [hb] at h1
  rw [hs] at h2
  have hbf : 0 ≤ bf.quantity := h1 bf (by simp [resting_orders])
  have hsf : 0 ≤ sf.quantity := h2 sf (by simp [resting_orders])
  constructor
  · rw [hb1]
    exact quantities_nonneg_pop_filled h1 (int_sub_min_nonneg_left hbf hsf)
  · rw [hs1]
    exact quantities_nonneg_pop_filled h2 (int_sub_min_nonneg_right hbf hsf)

theorem buy_fills_cons (id : Int) (t : Trade) (ts : List Trade) :
    buy_fills id (t :: ts)
      = (if t.buy_order_id = id then t.quantity else 0) + buy_fills id ts := by
  unfold buy_fills
  by_cases h : t.buy_order_id = id
  · simp [h]
  · simp [h]

theorem buy_fills_eq_zero {id : Int} {ts : List Trade}
    (h : ∀ t ∈ ts, t.buy_order_id ≠ id) : buy_fills id ts = 0 := by
  induction ts with
  | nil => simp [buy_fills]
  | cons t ts ih =>
    rw [buy_fills_cons, if_neg (h t (List.mem_cons_self _ _)),
      ih (fun x hx => h x (List.mem_cons_of_mem _ hx))]
    simp

/-- FIFO priority along a run: if `o1` stands before `o2` in a bid level and the trade at
position `j` fills `o2`, the earlier trades filled `o1` for its whole quantity: as `int`
values (modulo 2^32) on every book, and exactly when no resting quantity is negative. -/
theorem fifo_run (n : Nat) : ∀ (s r : OrderBook), match_iterate n s = some r →
    (ladder_ids s.buy_orders).Nodup →
    ∀ (k : Price) (pre : List Order) (o1 : Order) (mid : List Order) (o2 : Order)
      (post : List Order), (k, pre ++ o1 :: (mid ++ o2 :: post)) ∈ s.buy_orders →
    ∀ (j : Nat) (t : Trade), (appended_trades s r)[j]? = some t →
      t.buy_order_id = o2.order_id →
      buy_fills o1.order_id ((appended_trades s r).take j) % 4294967296
          = o1.quantity % 4294967296 ∧
        (s.quantities_nonneg →
          buy_fills o1.order_id ((appended_trades s r).take j) = o1.quantity) := by
  induction n with
  | zero =>
    intro s r h _ k pre o1 mid o2 post _ j t ht _
    simp only [match_iterate, Option.some.injEq] at h
    subst h
    simp [appended_trades_self] at ht
  | succ n ih =>
    intro s r h hnd k pre o1 mid o2 post hmem j t ht hid
    rw [match_iterate] at h
    split at h
    swap
    · simp at h
    rename_i s1 hstep
    obtain ⟨bk, bf, bt, br, sk, sf, st, sr, hb, hsell, _, hb1, _, htr, _, _⟩ :=
      match_step_next_fields hstep
    have hfront : s.quantities_nonneg → 0 ≤ bf.quantity ∧ 0 ≤ sf.quantity := by
      intro hnn
      obtain ⟨h1, h2⟩ := hnn
      rw [hb] at h1
      rw [hsell] at h2
      exact ⟨h1 bf (by simp [resting_orders]), h2 sf (by simp [resting_orders])⟩
    have hnd1 : (ladder_ids s1.buy_orders).Nodup :=
      (match_step_buy_ids_sublist hstep).nodup hnd
    have hids := appended_buy_ids h
    rw [appended_trades_step htr h] at ht ⊢
    rw [hb, ladder_ids_cons, List.map_cons, List.cons_append, List.nodup_cons] at hnd
    obtain ⟨hbf, hnd⟩ := hnd
    rw [hb] at hmem
    -- the later order is never the front of the best level
    have ho2 : o2.order_id ≠ bf.order_id := by
      intro heq
      apply hbf
      rw [← heq]
      rcases List.mem_cons.mp hmem with hhead | hrest
      · simp only [Prod.mk.injEq] at hhead
        obtain ⟨_, hq⟩ := hhead
        cases pre with
        | nil =>
          simp only [List.nil_append, List.cons.injEq] at hq
          rw [← hq.2]
          simp
        | cons p pre1 =>
          simp only [List.cons_append, List.cons.injEq] at hq
          rw [← hq.2]
          simp
      · apply List.mem_append_right
        exact List.mem_map_of_mem _ (mem_resting_orders hrest (by simp))
    cases j with
    | zero =>
      simp only [List.getElem?_cons_zero, Option.some.injEq] at ht
      subst ht
      exact absurd hid.symm ho2
    | succ j =>
      simp only [List.getElem?_cons_succ] at ht
      rw [List.take_succ_cons, buy_fills_cons]
      have hq0 : (make_trade s sk bf sf).quantity = min bf.quantity sf.quantity := rfl
      have hi0 : (make_trade s sk bf sf).buy_order_id = bf.order_id := rfl
      rw [hq0, hi0]
      -- an order other than the front is untouched by this iteration
      have hother : ∀ (pre1 : List Order),
          o1.order_id ≠ bf.order_id →
          (k, pre1 ++ o1 :: (mid ++ o2 :: post)) ∈ s1.buy_orders →
          ((if bf.order_id = o1.order_id then min bf.quantity sf.quantity else 0)
            + buy_fills o1.order_id (List.take j (appended_trades s1 r))) % 4294967296
              = o1.quantity % 4294967296 ∧
          (s.quantities_nonneg →
            (if bf.order_id = o1.order_id then min bf.quantity sf.quantity else 0)
              + buy_fills o1.order_id (List.take j (appended_trades s1 r))
                = o1.quantity) := by
        intro pre1 hne hm
        rw [if_neg (fun h => hne h.symm), zero_add]
        obtain ⟨h1, h2⟩ := ih s1 r h hnd1 k pre1 o1 mid o2 post hm j t ht hid
        exact ⟨h1, fun hnn => h2 (match_step_quantities_nonneg s s1 hnn hstep)⟩
      rcases List.mem_cons.mp hmem with hhead | hrest
      · simp only [Prod.mk.injEq] at hhead
        obtain ⟨hk, hq⟩ := hhead
        subst hk
        cases pre with
        | nil =>
          simp only [List.nil_append, List.cons.injEq] at hq
          obtain ⟨ho1, hbt⟩ := hq
          subst ho1
          rw [if_pos rfl]
          by_cases hz : int_sub o1.quantity (min o1.quantity sf.quantity) = 0
          · -- completely filled: popped, and never named again
            have hzero : buy_fills o1.order_id (List.take j (appended_trades s1 r)) = 0 := by
              apply buy_fills_eq_zero
              intro x hx heq
              have hx1 := hids x (List.mem_of_mem_take hx)
              rw [hb1, ladder_ids_pop_filled, if_pos hz, List.nil_append, heq] at hx1
              exact hbf hx1
            rw [hzero]
            have hq := int_sub_eq_zero.mp hz
            exact ⟨by omega, fun _ => by omega⟩
          · -- partially filled: stays at the front with the reduced quantity
            have hm : (k, [] ++ { o1 with quantity := int_sub o1.quantity (min o1.quantity sf.quantity) }
                :: (mid ++ o2 :: post)) ∈ s1.buy_orders := by
              rw [hb1, pop_filled, if_neg hz, hbt]
              simp
            obtain ⟨h1, h2⟩ := ih s1 r h hnd1 k [] _ mid o2 post hm j t ht hid
            simp only at h1 h2
            have hmod := int_sub_mod o1.quantity (min o1.quantity sf.quantity)
            refine ⟨by omega, fun hnn => ?_⟩
            obtain ⟨hq1, hq2⟩ := hfront hnn
            have hex := int_sub_min_left o1.quantity sf.quantity hq1 hq2
            have h3 := h2 (match_step_quantities_nonneg s s1 hnn hstep)
            omega
        | cons p pre1 =>
          simp only [List.cons_append, List.cons.injEq] at hq
          obtain ⟨hp, hbt⟩ := hq
          subst hp
          have hne : o1.order_id ≠ p.order_id := by
            intro heq
            apply hbf
            rw [← heq, ← hbt]
            simp
          by_cases hz : int_sub p.quantity (min p.quantity sf.quantity) = 0
          · apply hother pre1 hne
            rw [hb1, pop_filled, if_pos hz, ← hbt]
            simp
          · apply hother ({ p with quantity := int_sub p.quantity (min p.quantity sf.quantity) }
              :: pre1) hne
            rw [hb1, pop_filled, if_neg hz, ← hbt]
            simp
      · have hne : o1.order_id ≠ bf.order_id := by
          intro heq
          apply hbf
          rw [← heq]
          apply List.mem_append_right
          exact List.mem_map_of_mem _ (mem_resting_orders hrest (by simp))
        apply hother pre hne
        rw [hb1, pop_filled]
        split
        · split
          · exact hrest
          · exact List.mem_cons_of_mem _ hrest
        · exact List.mem_cons_of_mem _ hrest

/-- C2: every trade appended by `match_orders` pairs the front order of the first bid
level, whose price is the highest bid price, with the front order of the first ask
level, whose price is the lowest ask price, of the book as it stands after the earlier
iterations; and when `o1` stands before `o2` in a bid level (unique bid ids), the trades
appended before the first trade that fills `o2` have filled `o1` for its whole quantity:
their quantities sum to the quantity of `o1` as `int` values (modulo 2^32) on every
book, and exactly when no resting quantity is negative.
The call returns on every book without empty levels. -/
theorem match_orders_pairs_fronts (b : OrderBook) (hwf : b.well_formed) :
    (b.levels_nonempty → ∃ r, match_orders b = some r) ∧
    ∀ r, match_orders b = some r →
      (∀ (i : Nat) (t : Trade), (appended_trades b r)[i]? = some t →
        ∃ s bk bf bt br sk sf st sr, match_iterate i b = some s ∧
          s.buy_orders = (bk, bf :: bt) :: br ∧ s.sell_orders = (sk, sf :: st) :: sr ∧
          (∀ x ∈ s.buy_orders, x.1 ≤ bk) ∧ (∀ y ∈ s.sell_orders, sk ≤ y.1) ∧
          t.buy_order_id = bf.order_id ∧ t.sell_order_id = sf.order_id) ∧
      ((ladder_ids b.buy_orders).Nodup →
        ∀ (k : Price) (pre : List Order) (o1 : Order) (mid : List Order) (o2 : Order)
          (post : List Order), (k, pre ++ o1 :: (mid ++ o2 :: post)) ∈ b.buy_orders →
        ∀ (j : Nat) (t : Trade), (appended_trades b r)[j]? = some t →
          t.buy_order_id = o2.order_id →
          buy_fills o1.order_id ((appended_trades b r).take j) % 4294967296
              = o1.quantity % 4294967296 ∧
            (b.quantities_nonneg →
              buy_fills o1.order_id ((appended_trades b r).take j) = o1.quantity)) := by
  refine ⟨match_orders_defined b, ?_⟩
  intro r hr
  constructor
  · intro i t ht
    obtain ⟨s, bk, bf, bt, br, sk, sf, st, sr, hs, hb, hsell, _, rfl⟩ :=
      appended_trade_of_match_orders hr ht
    obtain ⟨h1, h2⟩ := best_prices_extreme (match_iterate_well_formed hwf hs) hb hsell
    exact ⟨s, bk, bf, bt, br, sk, sf, st, sr, hs, hb, hsell, h1, h2, rfl, rfl⟩
  · intro hnd k pre o1 mid o2 post hmem j t ht hid
    obtain ⟨n, hit, _⟩ := match_orders_iff.mp hr
    exact fifo_run n b r hit hnd k pre o1 mid o2 post hmem j t ht hid

theorem match_orders_pairs_fronts_witness :
    fifo_book.well_formed ∧ match_orders fifo_book = some fifo_result ∧
      (∃ s bk bf bt br sk sf st sr, match_iterate 1 fifo_book = some s ∧
        s.buy_orders = (bk, bf :: bt) :: br ∧ s.sell_orders = (sk, sf :: st) :: sr ∧
        (∀ x ∈ s.buy_orders, x.1 ≤ bk) ∧ (∀ y ∈ s.sell_orders, sk ≤ y.1) ∧
        (2 : Int) = bf.order_id ∧ (3 : Int) = sf.order_id) ∧
      buy_fills 1 ((appended_trades fifo_book fifo_result).take 1) = 5 :=
  ⟨by decide, by decide,
    ((match_orders_pairs_fronts fifo_book (by decide)).2 fifo_result (by decide)).1 1
      ⟨1, 2, 3, 2, 100, 11⟩ (by decide),
    (((match_orders_pairs_fronts fifo_book (by decide)).2 fifo_result (by decide)).2
      (by decide) 100 [] ⟨1, OrderType.BUY, 5, 100, "a", 10⟩ []
      ⟨2, OrderType.BUY, 5, 100, "b", 11⟩ [] (by decide) 1 ⟨1, 2, 3, 2, 100, 11⟩
      (by decide) (by decide)).2 (by decide)⟩

theorem own_price_levels_pop_filled {k : Price} {o : Order} {q : List Order} {r : Ladder}
    (h : own_price_levels ((k, o :: q) :: r)) (x : Int) :
    own_price_levels (pop_filled k { o with quantity := x } q r) := by
  have hr : own_price_levels r := fun e he => h e (List.mem_cons_of_mem _ he)
  have hq : ∀ a ∈ q, a.price = k := fun a ha =>
    h (k, o :: q) (List.mem_cons_self _ _) a (List.mem_cons_of_mem _ ha)
  have ho : o.price = k := h (k, o :: q) (List.mem_cons_self _ _) o (List.mem_cons_self _ _)
  unfold pop_filled
  split
  · split
    · exact hr
    · intro e he
      rcases List.mem_cons.mp he with rfl | he
      · exact hq
      · exact hr e he
  · intro e he
    rcases List.mem_cons.mp he with rfl | he
    · intro a ha
      rcases List.mem_cons.mp ha with rfl | ha
      · exact ho
      · exact hq a ha
    · exact hr e he

theorem match_iterate_own_price_sell {n : Nat} {b s : OrderBook}
    (hown : own_price_levels b.sell_orders) (h : match_iterate n b = some s) :
    own_price_levels s.sell_orders := by
  induction n generalizing s with
  | zero =>
    simp only [match_iterate, Option.some.injEq] at h
    exact h ▸ hown
  | succ n ih =>
    obtain ⟨s0, hs0, hstep⟩ := match_iterate_succ.mp h
    obtain ⟨bk, bf, bt, br, sk, sf, st, sr, _, hs, _, _, hs1, _, _, _⟩ :=
      match_step_next_fields hstep
    have := ih hs0
    rw [hs] at this
    rw [hs1]
    exact own_price_levels_pop_filled this _

theorem match_iterate_own_price_buy {n : Nat} {b s : OrderBook}
    (hown : own_price_levels b.buy_orders) (h : match_iterate n b = some s) :
    own_price_levels s.buy_orders := by
  induction n generalizing s with
  | zero =>
    simp only [match_iterate, Option.some.injEq] at h
    exact h ▸ hown
  | succ n ih =>
    obtain ⟨s0, hs0, hstep⟩ := match_iterate_succ.mp h
    obtain ⟨bk, bf, bt, br, sk, sf, st, sr, hb, _, _, hb1, _, _, _, _⟩ :=
      match_step_next_fields hstep
    have := ih hs0
    rw [hb] at this
    rw [hb1]
    exact own_price_levels_pop_filled this _

/-- C3: every trade appended by `match_orders` carries the key of the first ask level of
the book as it stands at that iteration, which is the lowest ask price; when the sell
orders rest at the level of their own price this is the limit price of the sell order of
the trade.  Nothing in the book records which of the two orders arrived first.  The call
returns on every book without empty levels. -/
theorem match_orders_trade_price (b : OrderBook) (hwf : b.well_formed) :
    (b.levels_nonempty → ∃ r, match_orders b = some r) ∧
    ∀ r, match_orders b = some r →
      ∀ (i : Nat) (t : Trade), (appended_trades b r)[i]? = some t →
        ∃ s sk sf st sr, match_iterate i b = some s ∧
          s.sell_orders = (sk, sf :: st) :: sr ∧ (∀ y ∈ s.sell_orders, sk ≤ y.1) ∧
          t.sell_order_id = sf.order_id ∧ t.price = sk ∧
          (own_price_levels b.sell_orders → t.price = sf.price) := by
  refine ⟨match_orders_defined b, ?_⟩
  intro r hr i t ht
  obtain ⟨s, bk, bf, bt, br, sk, sf, st, sr, hs, hb, hsell, _, rfl⟩ :=
    appended_trade_of_match_orders hr ht
  obtain ⟨_, h2⟩ := best_prices_extreme (match_iterate_well_formed hwf hs) hb hsell
  refine ⟨s, sk, sf, st, sr, hs, hsell, h2, rfl, rfl, ?_⟩
  intro hown
  have := match_iterate_own_price_sell hown hs
  rw [hsell] at this
  exact (this (sk, sf :: st) (List.mem_cons_self _ _) sf (List.mem_cons_self _ _)).symm

theorem match_orders_trade_price_witness :
    buy_first_book.well_formed ∧ match_orders buy_first_book = some buy_first_result ∧
      ∃ s sk sf st sr, match_iterate 0 buy_first_book = some s ∧
        s.sell_orders = (sk, sf :: st) :: sr ∧ (∀ y ∈ s.sell_orders, sk ≤ y.1) ∧
        (2 : Int) = sf.order_id ∧ (99 : Price) = sk ∧
        (own_price_levels buy_first_book.sell_orders → (99 : Price) = sf.price) :=
  ⟨by decide, by decide,
    (match_orders_trade_price buy_first_book (by decide)).2 buy_first_result (by decide) 0
      ⟨0, 1, 2, 5, 99, 10⟩ (by decide)⟩

theorem quantities_positive_pop_filled {k : Price} {o : Order} {q : List Order}
    {r : Ladder} (h : quantities_positive ((k, o :: q) :: r)) {x : Int} (hx : 0 ≤ x) :
    quantities_positive (pop_filled k { o with quantity := x } q r) := by
  unfold quantities_positive at h ⊢
  rw [resting_orders_pop_filled]
  simp only [resting_orders, List.cons_append, List.mem_cons, List.mem_append] at h
  intro a ha
  by_cases hz : x = 0
  · simp only [hz, if_true, List.mem_append] at ha
    exact h a (Or.inr ha)
  · simp only [hz, if_false, List.cons_append, List.mem_cons, List.mem_append] at ha
    rcases ha with rfl | ha
    · exact lt_of_le_of_ne hx (Ne.symm hz)
    · exact h a (Or.inr ha)

theorem match_step_quantities_positive {s s1 : OrderBook} (hpos : s.quantities_positive)
    (h : match_step s = MatchStep.next s1) : s1.quantities_positive := by
  obtain ⟨bk, bf, bt, br, sk, sf, st, sr, hb, hs, _, hb1, hs1, _, _, _⟩ :=
    match_step_next_fields h
  obtain ⟨h1, h2⟩ := hpos
  rw [hb] at h1
  rw [hs] at h2
  have hbf : 0 < bf.quantity := h1 bf (by simp [resting_orders])
  have hsf : 0 < sf.quantity := h2 sf (by simp [resting_orders])
  constructor
  · rw [hb1]
    exact quantities_positive_pop_filled h1 (int_sub_min_nonneg_left hbf.le hsf.le)
  · rw [hs1]
    exact quantities_positive_pop_filled h2 (int_sub_min_nonneg_right hbf.le hsf.le)

theorem match_iterate_quantities_positive {n : Nat} {b s : OrderBook}
    (hpos : b.quantities_positive) (h : match_iterate n b = some s) :
    s.quantities_positive := by
  induction n generalizing s with
  | zero =>
    simp only [match_iterate, Option.some.injEq] at h
    exact h ▸ hpos
  | succ n ih =>
    obtain ⟨s0, hs0, hstep⟩ := match_iterate_succ.mp h
    exact match_step_quantities_positive (ih hs0) hstep

/-- C9: every trade appended by `match_orders` has as quantity the minimum of the
remaining quantities of the two front orders it pairs, as they stand at the start of
that iteration; when every resting order has a positive quantity before the call, the
quantity of every appended trade is strictly positive.  The call returns on every book
without empty levels. -/
theorem match_orders_trade_quantity (b : OrderBook) :
    (b.levels_nonempty → ∃ r, match_orders b = some r) ∧
    ∀ r, match_orders b = some r →
      ∀ (i : Nat) (t : Trade), (appended_trades b r)[i]? = some t →
        ∃ s bk bf bt br sk sf st sr, match_iterate i b = some s ∧
          s.buy_orders = (bk, bf :: bt) :: br ∧ s.sell_orders = (sk, sf :: st) :: sr ∧
          t.buy_order_id = bf.order_id ∧ t.sell_order_id = sf.order_id ∧
          t.quantity = min bf.quantity sf.quantity ∧
          (b.quantities_positive → 0 < t.quantity) := by
  refine ⟨match_orders_defined b, ?_⟩
  intro r hr i t ht
  obtain ⟨s, bk, bf, bt, br, sk, sf, st, sr, hs, hb, hsell, _, rfl⟩ :=
    appended_trade_of_match_orders hr ht
  refine ⟨s, bk, bf, bt, br, sk, sf, st, sr, hs, hb, hsell, rfl, rfl, rfl, ?_⟩
  intro hpos
  obtain ⟨h1, h2⟩ := match_iterate_quantities_positive hpos hs
  rw [hb] at h1
  rw [hsell] at h2
  have hbf : 0 < bf.quantity := h1 bf (by simp [resting_orders])
  have hsf : 0 < sf.quantity := h2 sf (by simp [resting_orders])
  exact lt_min hbf hsf

theorem match_orders_trade_quantity_witness :
    fifo_book.levels_nonempty ∧ fifo_book.quantities_positive ∧
      (∃ r, match_orders fifo_book = some r) ∧
      ∃ s bk bf bt br sk sf st sr, match_iterate 1 fifo_book = some s ∧
        s.buy_orders = (bk, bf :: bt) :: br ∧ s.sell_orders = (sk, sf :: st) :: sr ∧
        (2 : Int) = bf.order_id ∧ (3 : Int) = sf.order_id ∧
        (2 : Int) = min bf.quantity sf.quantity ∧
        (fifo_book.quantities_positive → (0 : Int) < 2) :=
  ⟨by decide, by decide, (match_orders_trade_quantity fifo_book).1 (by decide),
    (match_orders_trade_quantity fifo_book).2 fifo_result (by decide) 1
      ⟨1, 2, 3, 2, 100, 11⟩ (by decide)⟩

theorem pop_filled_eq (k : Price) (o : Order) (q : List Order) (r : Ladder) :
    pop_filled k o q r
      = if o.quantity = 0 then (if q = [] then r else (k, q) :: r)
        else (k, o :: q) :: r := by
  unfold pop_filled
  cases q <;> simp

/-- The iteration that emits the trade at position `i`, with the books before and after
it. -/
theorem appended_trade_iteration {b r : OrderBook} (h : match_orders b = some r)
    {i : Nat} {t : Trade} (ht : (appended_trades b r)[i]? = some t) :
    ∃ s s1 bk bf bt br sk sf st sr, match_iterate i b = some s ∧
      match_iterate (i + 1) b = some s1 ∧
      s.buy_orders = (bk, bf :: bt) :: br ∧ s.sell_orders = (sk, sf :: st) :: sr ∧
      t = make_trade s sk bf sf ∧
      s1.buy_orders = pop_filled bk
        { bf with quantity := int_sub bf.quantity (min bf.quantity sf.quantity) } bt br ∧
      s1.sell_orders = pop_filled sk
        { sf with quantity := int_sub sf.quantity (min bf.quantity sf.quantity) } st sr := by
  obtain ⟨n, hit, _⟩ := match_orders_iff.mp h
  rw [appended_trades_getElem?] at ht
  obtain ⟨s, s1, hs, hstep, htr⟩ := appended_trade hit ht
  obtain ⟨bk, bf, bt, br, sk, sf, st, sr, hb, hsell, _, hb1, hs1, htr1, _, _⟩ :=
    match_step_next_fields hstep
  refine ⟨s, s1, bk, bf, bt, br, sk, sf, st, sr, hs, match_iterate_succ.mpr ⟨s, hs, hstep⟩,
    hb, hsell, ?_, hb1, hs1⟩
  rw [htr1] at htr
  simp only [List.append_cancel_left_eq, List.cons.injEq, and_true] at htr
  exact htr.symm

/-- C10: when every resting order has a positive quantity before `match_orders`, every
order resting after it has a positive quantity.  At the iteration of each appended trade
`t`, a front order whose quantity minus `t.quantity` (an `int` subtraction) is 0 is
popped from its FIFO and its price level is removed when that empties it, and otherwise
stays at the front of its level with its quantity reduced by `t.quantity`; with positive
quantities the subtraction does not overflow, so the reduced quantity is the exact
difference.  The call returns on every book without empty levels. -/
theorem match_orders_quantities_positive (b : OrderBook) :
    (b.levels_nonempty → ∃ r, match_orders b = some r) ∧
    ∀ r, match_orders b = some r →
      (b.quantities_positive → r.quantities_positive) ∧
      ∀ (i : Nat) (t : Trade), (appended_trades b r)[i]? = some t →
        ∃ s s1 bk bf bt br sk sf st sr, match_iterate i b = some s ∧
          match_iterate (i + 1) b = some s1 ∧
          s.buy_orders = (bk, bf :: bt) :: br ∧ s.sell_orders = (sk, sf :: st) :: sr ∧
          t.buy_order_id = bf.order_id ∧ t.sell_order_id = sf.order_id ∧
          s1.buy_orders =
            (if int_sub bf.quantity t.quantity = 0 then
               (if bt = [] then br else (bk, bt) :: br)
             else (bk, { bf with quantity := int_sub bf.quantity t.quantity } :: bt) :: br) ∧
          s1.sell_orders =
            (if int_sub sf.quantity t.quantity = 0 then
               (if st = [] then sr else (sk, st) :: sr)
             else (sk, { sf with quantity := int_sub sf.quantity t.quantity } :: st) :: sr) ∧
          (b.quantities_positive →
            int_sub bf.quantity t.quantity = bf.quantity - t.quantity ∧
            int_sub sf.quantity t.quantity = sf.quantity - t.quantity) := by
  refine ⟨match_orders_defined b, ?_⟩
  intro r hr
  constructor
  · intro hpos
    obtain ⟨n, hit, _⟩ := match_orders_iff.mp hr
    exact match_iterate_quantities_positive hpos hit
  · intro i t ht
    obtain ⟨s, s1, bk, bf, bt, br, sk, sf, st, sr, hs, hs1, hb, hsell, rfl, hb1, hsell1⟩ :=
      appended_trade_iteration hr ht
    refine ⟨s, s1, bk, bf, bt, br, sk, sf, st, sr, hs, hs1, hb, hsell, rfl, rfl, ?_, ?_, ?_⟩
    · rw [hb1, pop_filled_eq]
      rfl
    · rw [hsell1, pop_filled_eq]
      rfl
    · intro hpos
      obtain ⟨h1, h2⟩ := match_iterate_quantities_positive hpos hs
      rw [hb] at h1
      rw [hsell] at h2
      have hbf : 0 < bf.quantity := h1 bf (by simp [resting_orders])
      have hsf : 0 < sf.quantity := h2 sf (by simp [resting_orders])
      exact ⟨int_sub_min_left bf.quantity sf.quantity hbf.le hsf.le,
        int_sub_min_right bf.quantity sf.quantity hbf.le hsf.le⟩

theorem match_orders_quantities_positive_witness :
    fifo_book.levels_nonempty ∧ fifo_book.quantities_positive ∧
      (∃ r, match_orders fifo_book = some r) ∧ fifo_result.quantities_positive ∧
      ∃ s s1 bk bf bt br sk sf st sr, match_iterate 0 fifo_book = some s ∧
        match_iterate (0 + 1) fifo_book = some s1 ∧
        s.buy_orders = (bk, bf :: bt) :: br ∧ s.sell_orders = (sk, sf :: st) :: sr ∧
        (1 : Int) = bf.order_id ∧ (3 : Int) = sf.order_id ∧
        s1.buy_orders =
          (if int_sub bf.quantity 5 = 0 then (if bt = [] then br else (bk, bt) :: br)
           else (bk, { bf with quantity := int_sub bf.quantity 5 } :: bt) :: br) ∧
        s1.sell_orders =
          (if int_sub sf.quantity 5 = 0 then (if st = [] then sr else (sk, st) :: sr)
           else (sk, { sf with quantity := int_sub sf.quantity 5 } :: st) :: sr) ∧
        (fifo_book.quantities_positive →
          int_sub bf.quantity 5 = bf.quantity - 5 ∧
          int_sub sf.quantity 5 = sf.quantity - 5) :=
  ⟨by decide, by decide, (match_orders_quantities_positive fifo_book).1 (by decide),
    ((match_orders_quantities_positive fifo_book).2 fifo_result (by decide)).1 (by decide),
    ((match_orders_quantities_positive fifo_book).2 fifo_result (by decide)).2 0
      ⟨0, 1, 3, 5, 100, 10⟩ (by decide)⟩

theorem ladder_quantity_cons (k : Price) (q : List Order) (r : Ladder) :
    ladder_quantity ((k, q) :: r) = (q.map Order.quantity).sum + ladder_quantity r := by
  simp [ladder_quantity, resting_orders]

theorem ladder_quantity_pop_filled (k : Price) (o : Order) (q : List Order) (r : Ladder) :
    ladder_quantity (pop_filled k o q r)
      = o.quantity + (q.map Order.quantity).sum + ladder_quantity r := by
  unfold ladder_quantity
  rw [resting_orders_pop_filled]
  by_cases h0 : o.quantity = 0
  · simp [h0]
  · simp [h0]
    omega

theorem front_quantities_nonneg {s : OrderBook} (hnn : s.quantities_nonneg)
    {bk sk : Price} {bf sf : Order} {bt st : List Order} {br sr : Ladder}
    (hb : s.buy_orders = (bk, bf :: bt) :: br) (hs : s.sell_orders = (sk, sf :: st) :: sr) :
    0 ≤ bf.quantity ∧ 0 ≤ sf.quantity := by
  obtain ⟨h1, h2⟩ := hnn
  rw [hb] at h1
  rw [hs] at h2
  exact ⟨h1 bf (by simp [resting_orders]), h2 sf (by simp [resting_orders])⟩

theorem match_step_quantity {s s1 : OrderBook} {t : Trade} (hnn : s.quantities_nonneg)
    (h : match_step s = MatchStep.next s1) (ht : s1.trades = s.trades ++ [t]) :
    ladder_quantity s1.buy_orders + t.quantity = ladder_quantity s.buy_orders ∧
    ladder_quantity s1.sell_orders + t.quantity = ladder_quantity s.sell_orders := by
  obtain ⟨bk, bf, bt, br, sk, sf, st, sr, hb, hs, _, hb1, hs1, htr, _, _⟩ :=
    match_step_next_fields h
  obtain ⟨hbf, hsf⟩ := front_quantities_nonneg hnn hb hs
  have e1 := int_sub_min_left bf.quantity sf.quantity hbf hsf
  have e2 := int_sub_min_right bf.quantity sf.quantity hbf hsf
  rw [htr] at ht
  simp only [List.append_cancel_left_eq, List.cons.injEq, and_true] at ht
  subst ht
  rw [hb, hs, hb1, hs1, ladder_quantity_pop_filled, ladder_quantity_pop_filled,
    ladder_quantity_cons, ladder_quantity_cons]
  simp only [make_trade, List.map_cons, List.sum_cons]
  constructor <;> omega

theorem match_iterate_quantities_nonneg {n : Nat} {b s : OrderBook}
    (hnn : b.quantities_nonneg) (h : match_iterate n b = some s) : s.quantities_nonneg := by
  induction n generalizing s with
  | zero =>
    simp only [match_iterate, Option.some.injEq] at h
    exact h ▸ hnn
  | succ n ih =>
    obtain ⟨s0, hs0, hstep⟩ := match_iterate_succ.mp h
    exact match_step_quantities_nonneg s0 s (ih hs0) hstep

theorem match_iterate_quantity {n : Nat} {b r : OrderBook} (hnn : b.quantities_nonneg)
    (h : match_iterate n b = some r) :
    ladder_quantity r.buy_orders + traded_quantity (appended_trades b r)
        = ladder_quantity b.buy_orders ∧
    ladder_quantity r.sell_orders + traded_quantity (appended_trades b r)
        = ladder_quantity b.sell_orders := by
  induction n generalizing b with
  | zero =>
    simp only [match_iterate, Option.some.injEq] at h
    subst h
    simp [appended_trades_self, traded_quantity]
  | succ n ih =>
    rw [match_iterate] at h
    split at h
    · rename_i s1 hstep
      obtain ⟨t, ht⟩ := match_step_trades hstep
      obtain ⟨h1, h2⟩ := match_step_quantity hnn hstep ht
      obtain ⟨h3, h4⟩ := ih (match_step_quantities_nonneg b s1 hnn hstep) h
      rw [appended_trades_step ht h]
      simp only [traded_quantity, List.map_cons, List.sum_cons] at h3 h4 ⊢
      constructor <;> omega
    · simp at h

theorem resting_orders_push_back (before : Price → Price → Bool) (m : Ladder)
    (p : Price) (o x : Order) (hx : x ∈ resting_orders (map_push_back before m p o)) :
    x = o ∨ x ∈ resting_orders m := by
  induction m with
  | nil =>
    simp only [map_push_back, resting_orders, List.append_nil, List.mem_singleton] at hx
    exact Or.inl hx
  | cons e r ih =>
    obtain ⟨k, q⟩ := e
    unfold map_push_back at hx
    split at hx
    · simp only [resting_orders, List.cons_append, List.nil_append, List.mem_cons] at hx
      rcases hx with hx | hx
      · exact Or.inl hx
      · exact Or.inr (by simpa [resting_orders] using hx)
    · split at hx
      · simp only [resting_orders, List.mem_append] at hx ⊢
        rcases hx with hx | hx
        · exact Or.inr (Or.inl hx)
        · rcases ih hx with h | h
          · exact Or.inl h
          · exact Or.inr (Or.inr h)
      · simp only [resting_orders, List.mem_append, List.mem_singleton] at hx ⊢
        rcases hx with (hx | hx) | hx
        · exact Or.inr (Or.inl hx)
        · exact Or.inl hx
        · exact Or.inr (Or.inr hx)

theorem add_order_quantities_nonneg {b : OrderBook} (hnn : b.quantities_nonneg) (o : Order)
    (ho : 0 ≤ o.quantity) : (add_order b o).quantities_nonneg := by
  unfold add_order
  split
  · refine ⟨fun x hx => ?_, hnn.2⟩
    rcases resting_orders_push_back _ _ _ _ x hx with h | h
    · exact h ▸ ho
    · exact hnn.1 x h
  · refine ⟨hnn.1, fun x hx => ?_⟩
    rcases resting_orders_push_back _ _ _ _ x hx with h | h
    · exact h ▸ ho
    · exact hnn.2 x h

theorem foldl_add_order_nonneg (os : List Order) (b : OrderBook)
    (hnn : b.quantities_nonneg) (hos : ∀ o ∈ os, 0 ≤ o.quantity) :
    (os.foldl add_order b).quantities_nonneg := by
  induction os generalizing b with
  | nil => exact hnn
  | cons o os ih =>
    rw [List.foldl_cons]
    exact ih (add_order b o)
      (add_order_quantities_nonneg hnn o (hos o (List.mem_cons_self _ _)))
      (fun x hx => hos x (List.mem_cons_of_mem _ hx))

theorem ladder_quantity_push_back (before : Price → Price → Bool) (m : Ladder)
    (p : Price) (o : Order) :
    ladder_quantity (map_push_back before m p o) = ladder_quantity m + o.quantity := by
  induction m with
  | nil => simp [map_push_back, ladder_quantity, resting_orders]
  | cons e r ih =>
    obtain ⟨k, q⟩ := e
    unfold map_push_back
    split
    · simp only [ladder_quantity_cons, List.map_cons, List.map_nil, List.sum_cons,
        List.sum_nil]
      omega
    · split
      · rw [ladder_quantity_cons, ladder_quantity_cons, ih]
        omega
      · simp only [ladder_quantity_cons, List.map_append, List.sum_append, List.map_cons,
          List.map_nil, List.sum_cons, List.sum_nil]
        omega

theorem levels_nonempty_push_back (before : Price → Price → Bool) {m : Ladder}
    (h : levels_nonempty m) (p : Price) (o : Order) :
    levels_nonempty (map_push_back before m p o) := by
  induction m with
  | nil =>
    intro e he
    simp only [map_push_back, List.mem_singleton] at he
    subst he
    simp
  | cons e r ih =>
    obtain ⟨k, q⟩ := e
    have hr : levels_nonempty r := levels_nonempty_tail h
    unfold map_push_back
    split
    · intro x hx
      rcases List.mem_cons.mp hx with rfl | hx
      · simp
      · exact h x hx
    · split
      · intro x hx
        rcases List.mem_cons.mp hx with rfl | hx
        · exact h (k, q) (List.mem_cons_self _ _)
        · exact ih hr x hx
      · intro x hx
        rcases List.mem_cons.mp hx with rfl | hx
        · simp
        · exact hr x hx

theorem add_order_levels_nonempty {b : OrderBook} (h : b.levels_nonempty) (o : Order) :
    (add_order b o).levels_nonempty := by
  unfold add_order
  split
  · exact ⟨levels_nonempty_push_back _ h.1 _ _, h.2⟩
  · exact ⟨h.1, levels_nonempty_push_back _ h.2 _ _⟩

theorem add_order_trades (b : OrderBook) (o : Order) : (add_order b o).trades = b.trades := by
  unfold add_order
  split <;> rfl

theorem add_order_trade_id (b : OrderBook) (o : Order) :
    (add_order b o).trade_id = b.trade_id := by
  unfold add_order
  split <;> rfl

theorem add_order_resting_quantity (b : OrderBook) (o : Order) :
    resting_quantity (add_order b o) = resting_quantity b + o.quantity := by
  unfold add_order resting_quantity
  split
  · simp only [ladder_quantity_push_back]
    omega
  · simp only [ladder_quantity_push_back]
    omega

/-- What a sequence of `add_order` calls builds from a book: no empty level, the same
trade log, and a resting quantity grown by the submitted quantities. -/
theorem foldl_add_order (os : List Order) (b : OrderBook) (h : b.levels_nonempty) :
    (os.foldl add_order b).levels_nonempty ∧ (os.foldl add_order b).trades = b.trades ∧
      resting_quantity (os.foldl add_order b)
        = resting_quantity b + (os.map Order.quantity).sum := by
  induction os generalizing b with
  | nil => simp [h]
  | cons o os ih =>
    obtain ⟨h1, h2, h3⟩ := ih (add_order b o) (add_order_levels_nonempty h o)
    refine ⟨h1, ?_, ?_⟩
    · rw [List.foldl_cons, h2, add_order_trades]
    · rw [List.foldl_cons, h3, add_order_resting_quantity]
      simp only [List.map_cons, List.sum_cons]
      omega

/-- C4 (counterexample): a BUY of -1 and a SELL of 2147483647 are added at 100 and
matched.  The trade has quantity -1, the subtraction `2147483647 - (-1)` overflows the
`int` and the ask rests with quantity -2147483648: the resting quantity went from
2147483646 to -2147483648 while twice the traded quantity is -2, and the resting quantity
plus twice the traded quantity is not the submitted quantity. -/
theorem conservation_fails_on_overflow :
    match_orders overflow_book = some overflow_result ∧
      overflow_book = add_orders overflow_orders ∧
      resting_quantity overflow_book = 2147483646 ∧
      resting_quantity overflow_result = -2147483648 ∧
      traded_quantity (appended_trades overflow_book overflow_result) = -1 ∧
      resting_quantity overflow_result
          + 2 * traded_quantity (appended_trades overflow_book overflow_result)
        ≠ resting_quantity overflow_book ∧
      resting_quantity overflow_result + 2 * traded_quantity overflow_result.trades
        ≠ (overflow_orders.map Order.quantity).sum := by
  decide

/-- C4 (amended): `match_orders` conserves quantity on every book whose resting
quantities are not negative.  On such a book each appended trade lowers the quantity
resting on the bid ladder and the quantity resting on the ask ladder by the quantity of
the trade, so the call lowers the total resting quantity by exactly twice the sum of
the quantities of the trades it appends; and for every sequence of `add_order` calls
with non-negative quantities on the empty book followed by `match_orders`, the call
returns and the resting quantity plus twice the traded quantity is the submitted
quantity. -/
theorem match_orders_conserves_quantity :
    (∀ b : OrderBook, b.quantities_nonneg →
      (b.levels_nonempty → ∃ r, match_orders b = some r) ∧
      ∀ r, match_orders b = some r →
        ladder_quantity r.buy_orders + traded_quantity (appended_trades b r)
          = ladder_quantity b.buy_orders ∧
        ladder_quantity r.sell_orders + traded_quantity (appended_trades b r)
          = ladder_quantity b.sell_orders ∧
        resting_quantity r + 2 * traded_quantity (appended_trades b r)
          = resting_quantity b ∧
        ∀ (i : Nat) (t : Trade), (appended_trades b r)[i]? = some t →
          ∃ s s1, match_iterate i b = some s ∧ match_iterate (i + 1) b = some s1 ∧
            ladder_quantity s1.buy_orders + t.quantity = ladder_quantity s.buy_orders ∧
            ladder_quantity s1.sell_orders + t.quantity = ladder_quantity s.sell_orders) ∧
    (∀ os : List Order, (∀ o ∈ os, 0 ≤ o.quantity) →
      ∃ r, match_orders (add_orders os) = some r ∧
        resting_quantity r + 2 * traded_quantity r.trades
          = (os.map Order.quantity).sum) := by
  constructor
  · intro b hnn
    refine ⟨match_orders_defined b, ?_⟩
    intro r hr
    obtain ⟨n, hit, _⟩ := match_orders_iff.mp hr
    obtain ⟨h1, h2⟩ := match_iterate_quantity hnn hit
    refine ⟨h1, h2, ?_, ?_⟩
    · unfold resting_quantity
      omega
    · intro i t ht
      rw [appended_trades_getElem?] at ht
      obtain ⟨s, s1, hs, hstep, htr⟩ := appended_trade hit ht
      obtain ⟨h3, h4⟩ := match_step_quantity (match_iterate_quantities_nonneg hnn hs) hstep htr
      exact ⟨s, s1, hs, match_iterate_succ.mpr ⟨s, hs, hstep⟩, h3, h4⟩
  · intro os hos
    have hempty : OrderBook.empty.levels_nonempty := by decide
    have hnn0 : OrderBook.empty.quantities_nonneg := by decide
    obtain ⟨hne, htr, hq⟩ := foldl_add_order os OrderBook.empty hempty
    have hnn : (add_orders os).quantities_nonneg :=
      foldl_add_order_nonneg os OrderBook.empty hnn0 hos
    obtain ⟨r, hr⟩ := match_orders_defined (add_orders os) hne
    refine ⟨r, hr, ?_⟩
    obtain ⟨n, hit, _⟩ := match_orders_iff.mp hr
    obtain ⟨h1, h2⟩ := match_iterate_quantity hnn hit
    have happ : appended_trades (add_orders os) r = r.trades := by
      unfold appended_trades add_orders
      rw [htr]
      rfl
    rw [happ] at h1 h2
    have hq0 : resting_quantity OrderBook.empty = 0 := by decide
    unfold add_orders at h1 h2
    rw [hq0] at hq
    unfold resting_quantity at hq ⊢
    omega

theorem match_orders_conserves_quantity_witness :
    fifo_book.quantities_nonneg ∧ fifo_book.levels_nonempty ∧
      (∃ r, match_orders fifo_book = some r) ∧
      resting_quantity fifo_result + 2 * traded_quantity (appended_trades fifo_book fifo_result)
        = resting_quantity fifo_book :=
  ⟨by decide, by decide, (match_orders_conserves_quantity.1 fifo_book (by decide)).1 (by decide),
    ((match_orders_conserves_quantity.1 fifo_book (by decide)).2 fifo_result
      (by decide)).2.2.1⟩

theorem index_find_none {ix : List (Int × Price)} {id : Int}
    (h : id ∉ ix.map Prod.fst) : index_find ix id = none := by
  induction ix with
  | nil => rfl
  | cons e r ih =>
    obtain ⟨k, v⟩ := e
    simp only [List.map_cons, List.mem_cons, not_or] at h
    simp only [index_find, if_neg (Ne.symm h.1)]
    exact ih h.2

/-- C7: for every book and every order id that is not a key of the order index,
`cancel_order` has defined behaviour and returns the book unchanged: bid ladder, ask
ladder, order index, trade log and trade-id counter are what they were. -/
theorem cancel_order_unknown (b : OrderBook) (order_id : Int)
    (h : order_id ∉ b.orders.map Prod.fst) : cancel_order b order_id = some b := by
  unfold cancel_order
  rw [index_find_none h]

theorem cancel_order_unknown_witness :
    (7 : Int) ∉ resting_book.orders.map Prod.fst ∧
      cancel_order resting_book 7 = some resting_book :=
  ⟨by decide, cancel_order_unknown resting_book 7 (by decide)⟩

theorem match_iterate_orders {n : Nat} {b s : OrderBook} (h : match_iterate n b = some s) :
    s.orders = b.orders := by
  induction n generalizing s with
  | zero =>
    simp only [match_iterate, Option.some.injEq] at h
    rw [← h]
  | succ n ih =>
    obtain ⟨s0, hs0, hstep⟩ := match_iterate_succ.mp h
    obtain ⟨_, _, _, _, _, _, _, _, _, _, _, _, _, _, _, ho⟩ := match_step_next_fields hstep
    rw [ho, ih hs0]

/-- The matcher never touches the order index. -/
theorem match_orders_orders {b r : OrderBook} (h : match_orders b = some r) :
    r.orders = b.orders := by
  obtain ⟨n, hit, _⟩ := match_orders_iff.mp h
  exact match_iterate_orders hit

/-- C5 (evaluation at the failing input): after `add_order` of a buy of 10 at 100 and of
a sell of 10 at 100 on the empty book, `match_orders` fills both orders and removes them
from their ladders, and the order index still holds the ids 1 and 2. -/
theorem match_orders_keeps_filled_ids :
    match_orders simple_cross_book = some simple_cross_result ∧
      simple_cross_result.orders.map Prod.fst = [1, 2] ∧
      ladder_ids simple_cross_result.buy_orders = [] ∧
      ladder_ids simple_cross_result.sell_orders = [] := by
  decide

/-- C6 (evaluation at the failing input): with a buy (id 1) and a sell (id 2) resting at
the same price 100, `cancel_order(2)` finds the price on the bid ladder, takes the bid
branch and applies `erase` to the bid FIFO with the handle of the sell order, which is
undefined behaviour; cancelling the buy order 1 in the same book is defined. -/
theorem cancel_order_same_price_undefined :
    index_find simple_cross_book.orders 2 = some 100 ∧
      map_count greater simple_cross_book.buy_orders 100 = true ∧
      deque_erase [⟨1, OrderType.BUY, 10, 100, "a", 10⟩] 2 = none ∧
      cancel_order simple_cross_book 2 = none ∧
      (cancel_order simple_cross_book 1).isSome = true := by
  decide

theorem match_iterate_succ_of_step {n : Nat} {b b1 : OrderBook}
    (h : match_step b = MatchStep.next b1) :
    match_iterate (n + 1) b = match_iterate n b1 := by
  rw [match_iterate, h]

theorem match_loop_none {fuel : Nat} {b : OrderBook} (hfuel : resting_count b ≤ fuel)
    (h : match_loop fuel b = none) :
    ∃ n s, match_iterate n b = some s ∧ match_step s = MatchStep.undefined := by
  induction fuel generalizing b with
  | zero =>
    unfold match_loop at h
    cases hstep : match_step b with
    | stop => simp [hstep] at h
    | undefined => exact ⟨0, b, rfl, hstep⟩
    | next b1 =>
      have := match_step_count hstep
      omega
  | succ k ih =>
    unfold match_loop at h
    cases hstep : match_step b with
    | stop => simp [hstep] at h
    | undefined => exact ⟨0, b, rfl, hstep⟩
    | next b1 =>
      simp only [hstep] at h
      have := match_step_count hstep
      obtain ⟨n, s, hs, hund⟩ := ih (by omega) h
      exact ⟨n + 1, s, by rw [match_iterate_succ_of_step hstep]; exact hs, hund⟩

theorem match_iterate_stop_unique {n m : Nat} {b s r : OrderBook}
    (hs : match_iterate n b = some s) (hr : match_iterate m b = some r)
    (hstop : match_step r = MatchStep.stop) : n ≤ m ∧ (n = m → s = r) := by
  induction m generalizing b n with
  | zero =>
    simp only [match_iterate, Option.some.injEq] at hr
    subst hr
    cases n with
    | zero =>
      simp only [match_iterate, Option.some.injEq] at hs
      exact ⟨le_refl _, fun _ => hs.symm⟩
    | succ n => simp [match_iterate, hstop] at hs
  | succ m ih =>
    rw [match_iterate] at hr
    split at hr
    · rename_i b1 hb1
      cases n with
      | zero => exact ⟨Nat.zero_le _, fun h => by omega⟩
      | succ n =>
        rw [match_iterate_succ_of_step hb1] at hs
        obtain ⟨h1, h2⟩ := ih hs hr
        exact ⟨by omega, fun h => h2 (by omega)⟩
    · simp at hr

theorem match_iterate_after_undefined {n : Nat} {b s : OrderBook}
    (hs : match_iterate n b = some s) (hund : match_step s = MatchStep.undefined)
    (k : Nat) : match_iterate (n + 1 + k) b = none := by
  induction n generalizing b with
  | zero =>
    simp only [match_iterate, Option.some.injEq] at hs
    subst hs
    have : 0 + 1 + k = k + 1 := by omega
    rw [this, match_iterate, hund]
  | succ n ih =>
    rw [match_iterate] at hs
    split at hs
    · rename_i b1 hb1
      have : n + 1 + 1 + k = (n + 1 + k) + 1 := by omega
      rw [this, match_iterate_succ_of_step hb1]
      exact ih hs
    · simp at hs

/-- The model of `match_orders` has no result exactly when some iteration calls `front()`
on an empty deque: the fuel never runs out. -/
theorem match_orders_none_iff {b : OrderBook} :
    match_orders b = none ↔
      ∃ n s, match_iterate n b = some s ∧ match_step s = MatchStep.undefined := by
  constructor
  · intro h
    exact match_loop_none (le_refl _) h
  · rintro ⟨n, s, hs, hund⟩
    cases hres : match_orders b with
    | none => rfl
    | some r =>
      obtain ⟨m, hr, hstop⟩ := match_orders_iff.mp hres
      obtain ⟨hle, heq⟩ := match_iterate_stop_unique hs hr hstop
      rcases Nat.lt_or_ge n m with hlt | hge
      · obtain ⟨k, hk⟩ : ∃ k, m = n + 1 + k := ⟨m - n - 1, by omega⟩
        rw [hk, match_iterate_after_undefined hs hund k] at hr
        simp at hr
      · have hsr := heq (by omega)
        rw [hsr, hstop] at hund
        cases hund

theorem cancel_order_frame {b r : OrderBook} {order_id : Int}
    (h : cancel_order b order_id = some r) :
    r.trades = b.trades ∧ r.trade_id = b.trade_id := by
  unfold cancel_order at h
  split at h
  · simp only [Option.some.injEq] at h
    subst h
    exact ⟨rfl, rfl⟩
  · split at h
    · split at h
      · simp at h
      · simp only [Option.some.injEq] at h
        subst h
        exact ⟨rfl, rfl⟩
    · split at h
      · simp at h
      · simp only [Option.some.injEq] at h
        subst h
        exact ⟨rfl, rfl⟩

theorem match_step_trade_ids {s s1 : OrderBook} (hinv : trade_ids_consecutive s)
    (h : match_step s = MatchStep.next s1) : trade_ids_consecutive s1 := by
  obtain ⟨bk, bf, bt, br, sk, sf, st, sr, _, _, _, _, _, htr, hid, _⟩ :=
    match_step_next_fields h
  obtain ⟨hcount, hpos⟩ := hinv
  constructor
  · rw [hid, htr, hcount]
    simp
  · intro i t ht
    rw [htr] at ht
    rcases Nat.lt_or_ge i s.trades.length with hlt | hge
    · rw [List.getElem?_append_left hlt] at ht
      exact hpos i t ht
    · rw [List.getElem?_append_right hge] at ht
      cases hi : i - s.trades.length with
      | zero =>
        rw [hi] at ht
        simp only [List.getElem?_cons_zero, Option.some.injEq] at ht
        subst ht
        simp only [make_trade, hcount]
        have : i = s.trades.length := by omega
        rw [this]
      | succ k =>
        rw [hi] at ht
        simp at ht

theorem match_iterate_trade_ids {n : Nat} {b s : OrderBook} (hinv : trade_ids_consecutive b)
    (h : match_iterate n b = some s) : trade_ids_consecutive s := by
  induction n generalizing s with
  | zero =>
    simp only [match_iterate, Option.some.injEq] at h
    exact h ▸ hinv
  | succ n ih =>
    obtain ⟨s0, hs0, hstep⟩ := match_iterate_succ.mp h
    exact match_step_trade_ids (ih hs0) hstep

theorem apply_op_trade_ids {b r : OrderBook} {op : Op} (hinv : trade_ids_consecutive b)
    (h : apply_op b op = some r) : trade_ids_consecutive r := by
  cases op with
  | add_order o =>
    simp only [apply_op, Option.some.injEq] at h
    subst h
    unfold trade_ids_consecutive
    rw [add_order_trades, add_order_trade_id]
    exact hinv
  | cancel_order id =>
    obtain ⟨h1, h2⟩ := cancel_order_frame h
    unfold trade_ids_consecutive
    rw [h1, h2]
    exact hinv
  | match_orders =>
    obtain ⟨n, hit, _⟩ := match_orders_iff.mp h
    exact match_iterate_trade_ids hinv hit

theorem run_ops_trade_ids {ops : List Op} {b r : OrderBook} (hinv : trade_ids_consecutive b)
    (h : run_ops ops b = some r) : trade_ids_consecutive r := by
  induction ops generalizing b with
  | nil =>
    simp only [run_ops, Option.some.injEq] at h
    exact h ▸ hinv
  | cons op ops ih =>
    rw [run_ops] at h
    split at h
    · simp at h
    · rename_i b1 hb1
      exact ih (apply_op_trade_ids hinv hb1) h

/-- A sequence of `add_order` and `match_orders` calls on a book without empty levels
has defined behaviour and ends in a book without empty levels. -/
theorem run_ops_defined (ops : List Op) (hops : ∀ op ∈ ops, op.is_add_or_match = true)
    (b : OrderBook) (hne : b.levels_nonempty) :
    ∃ r, run_ops ops b = some r ∧ r.levels_nonempty := by
  induction ops generalizing b with
  | nil => exact ⟨b, rfl, hne⟩
  | cons op ops ih =>
    have hrest : ∀ x ∈ ops, x.is_add_or_match = true :=
      fun x hx => hops x (List.mem_cons_of_mem _ hx)
    have hop := hops op (List.mem_cons_self _ _)
    cases op with
    | add_order o =>
      simp only [run_ops, apply_op]
      exact ih hrest (add_order b o) (add_order_levels_nonempty hne o)
    | cancel_order id => simp [Op.is_add_or_match] at hop
    | match_orders =>
      obtain ⟨r, hr⟩ := match_orders_defined b hne
      obtain ⟨n, hit, _⟩ := match_orders_iff.mp hr
      simp only [run_ops, apply_op, hr]
      exact ih hrest r (match_iterate_levels_nonempty hne hit)

/-- C11: starting from the freshly constructed book, after any sequence of `add_order`,
`cancel_order` and `match_orders` calls with defined behaviour, the trade at position `i`
of the trade log has `trade_id` `i` and the counter equals the length of the log, also
across several `match_orders` calls; every sequence of `add_order` and `match_orders`
calls has defined behaviour. -/
theorem trade_ids_are_positions :
    (∀ ops : List Op, (∀ op ∈ ops, op.is_add_or_match = true) →
      ∃ r, run_ops ops OrderBook.empty = some r) ∧
    ∀ (ops : List Op) (r : OrderBook), run_ops ops OrderBook.empty = some r →
      r.trade_id = (r.trades.length : Int) ∧
      ∀ (i : Nat) (t : Trade), r.trades[i]? = some t → t.trade_id = (i : Int) := by
  constructor
  · intro ops hops
    obtain ⟨r, hr, _⟩ := run_ops_defined ops hops OrderBook.empty (by decide)
    exact ⟨r, hr⟩
  · intro ops r hr
    have h0 : trade_ids_consecutive OrderBook.empty := by
      constructor
      · rfl
      · intro i t ht
        simp [OrderBook.empty] at ht
    exact run_ops_trade_ids h0 hr

theorem trade_ids_are_positions_witness :
    run_ops sample_ops OrderBook.empty = some sample_ops_result ∧
      sample_ops_result.trade_id = (sample_ops_result.trades.length : Int) ∧
      (⟨1, 3, 2, 2, 99, 12⟩ : Trade).trade_id = ((1 : Nat) : Int) :=
  ⟨by decide, (trade_ids_are_positions.2 sample_ops sample_ops_result (by decide)).1,
    (trade_ids_are_positions.2 sample_ops sample_ops_result (by decide)).2 1
      ⟨1, 3, 2, 2, 99, 12⟩ (by decide)⟩

theorem levels_nonempty_erase_order {before : Price → Price → Bool} {m r : Ladder}
    {p : Price} {id : Int} (hne : levels_nonempty m)
    (h : map_erase_order before m p id = some r) : levels_nonempty r := by
  induction m generalizing r with
  | nil => simp [map_erase_order] at h
  | cons e rest ih =>
    obtain ⟨k, q⟩ := e
    have hrest : levels_nonempty rest := levels_nonempty_tail hne
    unfold map_erase_order at h
    split at h
    · split at h
      · simp at h
      · rename_i q1 _
        split at h
        · simp only [Option.some.injEq] at h
          exact h ▸ hrest
        · rename_i hq1
          simp only [Option.some.injEq] at h
          subst h
          intro x hx
          rcases List.mem_cons.mp hx with rfl | hx
          · intro hnil
            apply hq1
            simp only at hnil
            rw [hnil]
            rfl
          · exact hrest x hx
    · cases hrec : map_erase_order before rest p id with
      | none => simp [hrec] at h
      | some r1 =>
        simp only [hrec, Option.map_some', Option.some.injEq] at h
        subst h
        intro x hx
        rcases List.mem_cons.mp hx with rfl | hx
        · exact hne (k, q) (List.mem_cons_self _ _)
        · exact ih hrest hrec x hx

theorem cancel_order_levels_nonempty {b r : OrderBook} {order_id : Int}
    (hne : b.levels_nonempty) (h : cancel_order b order_id = some r) :
    r.levels_nonempty := by
  unfold cancel_order at h
  split at h
  · simp only [Option.some.injEq] at h
    exact h ▸ hne
  · split at h
    · split at h
      · simp at h
      · rename_i m hm
        simp only [Option.some.injEq] at h
        subst h
        exact ⟨levels_nonempty_erase_order hne.1 hm, hne.2⟩
    · split at h
      · simp at h
      · rename_i m hm
        simp only [Option.some.injEq] at h
        subst h
        exact ⟨hne.1, levels_nonempty_erase_order hne.2 hm⟩

theorem apply_op_levels_nonempty {b r : OrderBook} {op : Op} (hne : b.levels_nonempty)
    (h : apply_op b op = some r) : r.levels_nonempty := by
  cases op with
  | add_order o =>
    simp only [apply_op, Option.some.injEq] at h
    exact h ▸ add_order_levels_nonempty hne o
  | cancel_order id => exact cancel_order_levels_nonempty hne h
  | match_orders =>
    obtain ⟨n, hit, _⟩ := match_orders_iff.mp h
    exact match_iterate_levels_nonempty hne hit

theorem run_ops_levels_nonempty {ops : List Op} {b r : OrderBook}
    (hne : b.levels_nonempty) (h : run_ops ops b = some r) : r.levels_nonempty := by
  induction ops generalizing b with
  | nil =>
    simp only [run_ops, Option.some.injEq] at h
    exact h ▸ hne
  | cons op ops ih =>
    rw [run_ops] at h
    split at h
    · simp at h
    · rename_i b1 hb1
      exact ih (apply_op_levels_nonempty hne hb1) h

theorem map_find_mem {before : Price → Price → Bool} {m : Ladder} {p : Price}
    {q : List Order} (h : map_find before m p = some q) : ∃ k, (k, q) ∈ m := by
  induction m with
  | nil => simp [map_find] at h
  | cons e rest ih =>
    obtain ⟨k, q0⟩ := e
    unfold map_find at h
    split at h
    · simp only [Option.some.injEq] at h
      exact ⟨k, h ▸ List.mem_cons_self _ _⟩
    · obtain ⟨k1, hk1⟩ := ih h
      exact ⟨k1, List.mem_cons_of_mem _ hk1⟩

theorem map_find_nonempty_iff {before : Price → Price → Bool} {m : Ladder}
    (hne : levels_nonempty m) (p : Price) :
    map_find before m p ≠ none ↔ ∃ q, map_find before m p = some q ∧ q ≠ [] := by
  constructor
  · intro h
    cases hq : map_find before m p with
    | none => exact absurd hq h
    | some q =>
      obtain ⟨k, hk⟩ := map_find_mem hq
      exact ⟨q, rfl, hne (k, q) hk⟩
  · rintro ⟨q, hq, _⟩
    rw [hq]
    simp

/-- Supporting lemma for the runs with defined behaviour: starting from the empty book,
after every sequence of `add_order`, `cancel_order` and `match_orders` calls with
defined behaviour, no ladder holds an empty price level: a price is a key of a ladder if
and only if a non-empty FIFO is stored under it.  Every sequence of `add_order` and
`match_orders` calls has defined behaviour. -/
theorem no_empty_price_level :
    (∀ ops : List Op, (∀ op ∈ ops, op.is_add_or_match = true) →
      ∃ r, run_ops ops OrderBook.empty = some r) ∧
    ∀ (ops : List Op) (r : OrderBook), run_ops ops OrderBook.empty = some r →
      r.levels_nonempty ∧
      ∀ p : Price,
        (map_find greater r.buy_orders p ≠ none ↔
          ∃ q, map_find greater r.buy_orders p = some q ∧ q ≠ []) ∧
        (map_find less r.sell_orders p ≠ none ↔
          ∃ q, map_find less r.sell_orders p = some q ∧ q ≠ []) := by
  constructor
  · intro ops hops
    obtain ⟨r, hr, _⟩ := run_ops_defined ops hops OrderBook.empty (by decide)
    exact ⟨r, hr⟩
  · intro ops r hr
    have hne : r.levels_nonempty := run_ops_levels_nonempty (by decide) hr
    exact ⟨hne, fun p => ⟨map_find_nonempty_iff hne.1 p, map_find_nonempty_iff hne.2 p⟩⟩

theorem no_empty_price_level_witness :
    run_ops cancel_ops OrderBook.empty = some cancel_ops_result ∧
      cancel_ops_result.levels_nonempty :=
  ⟨by decide, (no_empty_price_level.2 cancel_ops cancel_ops_result (by decide)).1⟩

theorem match_step_at_rest {b : OrderBook}
    (h : b.buy_orders = [] ∨ b.sell_orders = [] ∨
      ∃ B A, best_price b.buy_orders = some B ∧ best_price b.sell_orders = some A ∧ B < A) :
    match_step b = MatchStep.stop := by
  unfold match_step
  split
  · rfl
  · rfl
  · rename_i bk bq br sk sq sr hb hs
    rcases h with h | h | ⟨B, A, hB, hA, hlt⟩
    · rw [hb] at h
      cases h
    · rw [hs] at h
      cases h
    · rw [hb] at hB
      rw [hs] at hA
      simp only [best_price, List.head?_cons, Option.map_some', Option.some.injEq] at hB hA
      rw [hB, hA, if_pos hlt]

/-- C13: for every book in which a ladder is empty or the best bid price is strictly
less than the best ask price, `match_orders` returns the book unchanged (both ladders,
order index, trade log and trade-id counter) and so appends no trade. -/
theorem match_orders_at_rest (b : OrderBook)
    (h : b.buy_orders = [] ∨ b.sell_orders = [] ∨
      ∃ B A, best_price b.buy_orders = some B ∧ best_price b.sell_orders = some A ∧ B < A) :
    match_orders b = some b ∧ appended_trades b b = [] := by
  refine ⟨?_, appended_trades_self b⟩
  unfold match_orders match_loop
  rw [match_step_at_rest h]

theorem match_orders_at_rest_witness :
    (no_cross_book.buy_orders = [] ∨ no_cross_book.sell_orders = [] ∨
      ∃ B A, best_price no_cross_book.buy_orders = some B ∧
        best_price no_cross_book.sell_orders = some A ∧ B < A) ∧
      match_orders no_cross_book = some no_cross_book ∧
      appended_trades no_cross_book no_cross_book = [] :=
  ⟨Or.inr (Or.inr ⟨99, 101, by decide, by decide, by decide⟩),
    match_orders_at_rest no_cross_book
      (Or.inr (Or.inr ⟨99, 101, by decide, by decide, by decide⟩))⟩

theorem index_find_erase (ix : List (Int × Price)) (id : Int) :
    index_find (index_erase ix id) id = none := by
  induction ix with
  | nil => rfl
  | cons e rest ih =>
    obtain ⟨k, v⟩ := e
    unfold index_erase at ih ⊢
    by_cases hk : k = id
    · simp only [List.filter_cons, hk, ne_eq, not_true_eq_false, decide_False,
        Bool.false_eq_true, if_false]
      exact ih
    · simp only [List.filter_cons, ne_eq, hk, not_false_eq_true, decide_True, if_true,
        index_find, if_false]
      exact ih

/-- C14: cancel is idempotent.  For every book and every order id on which a first
`cancel_order` has defined behaviour, a second `cancel_order` of the same id right after
it returns the book that the first call left, unchanged in ladders, index, trade log and
trade-id counter. -/
theorem cancel_order_idempotent (b b1 : OrderBook) (order_id : Int)
    (h : cancel_order b order_id = some b1) : cancel_order b1 order_id = some b1 := by
  have hnone : index_find b1.orders order_id = none := by
    unfold cancel_order at h
    split at h
    · rename_i hfind
      simp only [Option.some.injEq] at h
      rw [← h]
      exact hfind
    · split at h
      · split at h
        · simp at h
        · simp only [Option.some.injEq] at h
          rw [← h]
          exact index_find_erase _ _
      · split at h
        · simp at h
        · simp only [Option.some.injEq] at h
          rw [← h]
          exact index_find_erase _ _
  unfold cancel_order
  rw [hnone]

theorem cancel_order_idempotent_witness :
    cancel_order fifo_book 2
        = some { fifo_book with
                  buy_orders := [(100, [⟨1, OrderType.BUY, 5, 100, "a", 10⟩])]
                  orders := [(1, 100), (3, 100)] } ∧
      cancel_order { fifo_book with
                      buy_orders := [(100, [⟨1, OrderType.BUY, 5, 100, "a", 10⟩])]
                      orders := [(1, 100), (3, 100)] } 2
        = some { fifo_book with
                  buy_orders := [(100, [⟨1, OrderType.BUY, 5, 100, "a", 10⟩])]
                  orders := [(1, 100), (3, 100)] } :=
  ⟨by decide, cancel_order_idempotent fifo_book _ 2 (by decide)⟩

/-- C15: `match_orders` terminates.  It returns on every book without empty levels; the
number of trades it appends is at most the number of orders resting before the call
(each iteration removes at least one order: the front order whose quantity the trade
brings to 0); every iteration starts with both ladders non-empty and the best bid not
below the best ask, and the returned book has an empty ladder or its best bid strictly
below its best ask. -/
theorem match_orders_terminates (b : OrderBook) :
    (b.levels_nonempty → ∃ r, match_orders b = some r) ∧
    ∀ r, match_orders b = some r →
      (appended_trades b r).length + resting_count r ≤ resting_count b ∧
      (r.buy_orders = [] ∨ r.sell_orders = [] ∨
        ∃ B A, best_price r.buy_orders = some B ∧ best_price r.sell_orders = some A ∧
          B < A) ∧
      ∀ (i : Nat) (t : Trade), (appended_trades b r)[i]? = some t →
        ∃ s s1 bk bf bt br sk sf st sr, match_iterate i b = some s ∧
          match_iterate (i + 1) b = some s1 ∧
          s.buy_orders = (bk, bf :: bt) :: br ∧ s.sell_orders = (sk, sf :: st) :: sr ∧
          ¬ bk < sk ∧
          (bf.quantity - t.quantity = 0 ∨ sf.quantity - t.quantity = 0) ∧
          (bf.quantity - t.quantity = 0 →
            resting_orders s1.buy_orders = bt ++ resting_orders br) ∧
          (sf.quantity - t.quantity = 0 →
            resting_orders s1.sell_orders = st ++ resting_orders sr) ∧
          resting_count s1 < resting_count s := by
  refine ⟨match_orders_defined b, ?_⟩
  intro r hr
  obtain ⟨n, hit, hstop⟩ := match_orders_iff.mp hr
  refine ⟨?_, ?_, ?_⟩
  · have h1 := match_iterate_count hit
    have h2 := match_iterate_trades_length hit
    have h3 : (appended_trades b r).length = n := by
      simp only [appended_trades, List.length_drop]
      omega
    omega
  · rcases match_step_stop_inv hstop with h | h | ⟨bk, bq, br, sk, sq, sr, hb, hs, hlt⟩
    · exact Or.inl h
    · exact Or.inr (Or.inl h)
    · refine Or.inr (Or.inr ⟨bk, sk, ?_, ?_, hlt⟩)
      · rw [hb]
        rfl
      · rw [hs]
        rfl
  · intro i t ht
    rw [appended_trades_getElem?] at ht
    obtain ⟨s, s1, hs, hstep, htr⟩ := appended_trade hit ht
    obtain ⟨bk, bf, bt, br, sk, sf, st, sr, hb, hsell, hlt, hb1, hs1, htr1, _, _⟩ :=
      match_step_next_fields hstep
    rw [htr1] at htr
    simp only [List.append_cancel_left_eq, List.cons.injEq, and_true] at htr
    subst htr
    refine ⟨s, s1, bk, bf, bt, br, sk, sf, st, sr, hs, match_iterate_succ.mpr ⟨s, hs, hstep⟩,
      hb, hsell, hlt, ?_, ?_, ?_, match_step_count hstep⟩
    · simp only [make_trade]
      rcases le_total bf.quantity sf.quantity with hle | hle
      · exact Or.inl (by rw [min_eq_left hle]; omega)
      · exact Or.inr (by rw [min_eq_right hle]; omega)
    · intro hz
      rw [hb1, resting_orders_pop_filled]
      simp only [make_trade] at hz
      rw [if_pos (int_sub_eq_zero.mpr (by omega))]
    · intro hz
      rw [hs1, resting_orders_pop_filled]
      simp only [make_trade] at hz
      rw [if_pos (int_sub_eq_zero.mpr (by omega))]

theorem match_orders_terminates_witness :
    fifo_book.levels_nonempty ∧ (∃ r, match_orders fifo_book = some r) ∧
      (appended_trades fifo_book fifo_result).length + resting_count fifo_result
        ≤ resting_count fifo_book :=
  ⟨by decide, (match_orders_terminates fifo_book).1 (by decide),
    ((match_orders_terminates fifo_book).2 fifo_result (by decide)).1⟩

/-- C16: every trade appended by `match_orders` carries the timestamp of its buy order,
the front order of the first (highest-priced) bid level of the book as it stands at that
iteration; nothing in the computation depends on which of the two orders arrived first.
The call returns on every book without empty levels. -/
theorem match_orders_trade_timestamp (b : OrderBook) (hwf : b.well_formed) :
    (b.levels_nonempty → ∃ r, match_orders b = some r) ∧
    ∀ r, match_orders b = some r →
      ∀ (i : Nat) (t : Trade), (appended_trades b r)[i]? = some t →
        ∃ s bk bf bt br, match_iterate i b = some s ∧
          s.buy_orders = (bk, bf :: bt) :: br ∧ (∀ x ∈ s.buy_orders, x.1 ≤ bk) ∧
          t.buy_order_id = bf.order_id ∧ t.timestamp = bf.timestamp := by
  refine ⟨match_orders_defined b, ?_⟩
  intro r hr i t ht
  obtain ⟨s, bk, bf, bt, br, sk, sf, st, sr, hs, hb, hsell, _, rfl⟩ :=
    appended_trade_of_match_orders hr ht
  obtain ⟨h1, _⟩ := best_prices_extreme (match_iterate_well_formed hwf hs) hb hsell
  exact ⟨s, bk, bf, bt, br, hs, hb, h1, rfl, rfl⟩

theorem match_orders_trade_timestamp_witness :
    buy_first_book.well_formed ∧ match_orders buy_first_book = some buy_first_result ∧
      ∃ s bk bf bt br, match_iterate 0 buy_first_book = some s ∧
        s.buy_orders = (bk, bf :: bt) :: br ∧ (∀ x ∈ s.buy_orders, x.1 ≤ bk) ∧
        (1 : Int) = bf.order_id ∧ (10 : Nat) = bf.timestamp :=
  ⟨by decide, by decide,
    (match_orders_trade_timestamp buy_first_book (by decide)).2 buy_first_result
      (by decide) 0 ⟨0, 1, 2, 5, 99, 10⟩ (by decide)⟩

/-- C17: the trade log is append-only.  The log after `match_orders` is the log before
it followed by the appended trades, and the call returns on every book without empty
levels; `add_order` leaves the log unchanged, and so does every `cancel_order` with
defined behaviour. -/
theorem trade_log_append_only (b : OrderBook) :
    (b.levels_nonempty → ∃ r, match_orders b = some r) ∧
    (∀ r, match_orders b = some r → r.trades = b.trades ++ appended_trades b r) ∧
    (∀ o : Order, (add_order b o).trades = b.trades) ∧
    (∀ (order_id : Int) (r : OrderBook), cancel_order b order_id = some r →
      r.trades = b.trades) := by
  refine ⟨match_orders_defined b, ?_, add_order_trades b, ?_⟩
  · intro r hr
    obtain ⟨n, hit, _⟩ := match_orders_iff.mp hr
    obtain ⟨ts, hts⟩ := match_iterate_trades_append hit
    simp [appended_trades, hts]
  · intro id r hr
    exact (cancel_order_frame hr).1

theorem trade_log_append_only_witness :
    run_ops [Op.match_orders] sample_ops_result = some sample_ops_result ∧
      (add_order sample_ops_result ⟨4, OrderType.BUY, 3, 99, "d", 13⟩).trades
        = sample_ops_result.trades ∧
      (∃ r, match_orders (add_order sample_ops_result ⟨4, OrderType.BUY, 3, 99, "d", 13⟩)
          = some r ∧
        r.trades = sample_ops_result.trades ++ [⟨2, 4, 2, 1, 99, 13⟩]) :=
  ⟨by decide, (trade_log_append_only sample_ops_result).2.2.1 _,
    ⟨{ trade_id := 3
       buy_orders := [(99, [⟨4, OrderType.BUY, 2, 99, "d", 13⟩])]
       sell_orders := []
       orders := [(1, 100), (2, 99), (3, 101), (4, 99)]
       trades := [⟨0, 1, 2, 5, 99, 10⟩, ⟨1, 3, 2, 2, 99, 12⟩, ⟨2, 4, 2, 1, 99, 13⟩] },
      by decide,
      (trade_log_append_only
        (add_order sample_ops_result ⟨4, OrderType.BUY, 3, 99, "d", 13⟩)).2.1 _ (by decide)⟩⟩

theorem level_quantity_eq (q : List Order) (total : ℚ) :
    level_quantity q total = total + (((q.map Order.quantity).sum : Int) : ℚ) := by
  induction q generalizing total with
  | nil => simp [level_quantity]
  | cons o q ih =>
    have := ih (total + (o.quantity : ℚ))
    simp only [level_quantity, List.foldl_cons] at this ⊢
    rw [this]
    simp only [List.map_cons, List.sum_cons]
    push_cast
    ring

theorem price_key_text (x : String) :
    "\x7b" ++ ("\"" ++ ("price" ++ ("\":" ++ x))) = "\x7b\"price\":" ++ x := by
  rw [← String.append_assoc, ← String.append_assoc, ← String.append_assoc]
  rfl

theorem quantity_key_text (x : String) :
    "," ++ ("\"" ++ ("quantity" ++ ("\":" ++ x))) = ",\"quantity\":" ++ x := by
  rw [← String.append_assoc, ← String.append_assoc, ← String.append_assoc]
  rfl

/-- The builder calls made for one price level append one entry object. -/
theorem serialize_level_step (lib : StdLib) (j : JsonBuilder) (level : Price × List Order) :
    ((j.start_object.add_number lib "price" level.1).add_number lib "quantity"
        (level_quantity level.2 0)).end_object
      = { oss_ := j.separated
            ++ entry_text lib (level.1, (level.2.map Order.quantity).sum)
          first_ := false } := by
  simp only [JsonBuilder.start_object, JsonBuilder.add_number, JsonBuilder.end_object,
    JsonBuilder.separated, entry_text, level_quantity_eq, zero_add, Bool.false_eq_true,
    if_false, if_true, String.append_assoc, price_key_text, quantity_key_text]

/-- The text that the level loop appends when it does not start a fresh array. -/
theorem serialize_levels_later (lib : StdLib) (levels : Ladder) (s : String) :
    serialize_levels lib { oss_ := s, first_ := false } levels
      = { oss_ := s ++ concat_texts ((snapshot levels).map (fun e => "," ++ entry_text lib e))
          first_ := false } := by
  induction levels generalizing s with
  | nil => simp [serialize_levels, snapshot, concat_texts]
  | cons level rest ih =>
    have hstep : serialize_levels lib { oss_ := s, first_ := false } (level :: rest)
        = serialize_levels lib
            { oss_ := s ++ ("," ++ entry_text lib (level.1, (level.2.map Order.quantity).sum))
              first_ := false } rest := by
      unfold serialize_levels
      rw [List.foldl_cons, serialize_level_step]
      simp only [JsonBuilder.separated, Bool.false_eq_true, if_false, String.append_assoc]
    rw [hstep, ih]
    simp only [snapshot, List.map_cons, concat_texts, String.append_assoc]

theorem comma_separated_cons (x : String) (rest : List String) :
    comma_separated (x :: rest) = x ++ concat_texts (rest.map (fun e => "," ++ e)) := by
  induction rest generalizing x with
  | nil => simp [comma_separated, concat_texts]
  | cons y rest ih =>
    rw [comma_separated, ih y]
    simp only [List.map_cons, concat_texts, String.append_assoc]

/-- The text that the level loop appends to a freshly started array: the entries of the
snapshot separated by commas. -/
theorem serialize_levels_fresh (lib : StdLib) (levels : Ladder) (s : String) :
    (serialize_levels lib { oss_ := s, first_ := true } levels).oss_
      = s ++ comma_separated ((snapshot levels).map (entry_text lib)) := by
  cases levels with
  | nil => simp [serialize_levels, snapshot, comma_separated]
  | cons level rest =>
    have hstep : serialize_levels lib { oss_ := s, first_ := true } (level :: rest)
        = serialize_levels lib
            { oss_ := s ++ entry_text lib (level.1, (level.2.map Order.quantity).sum)
              first_ := false } rest := by
      unfold serialize_levels
      rw [List.foldl_cons, serialize_level_step]
      simp only [JsonBuilder.separated, if_true]
    rw [hstep, serialize_levels_later]
    simp only [snapshot, List.map_cons, comma_separated_cons, List.map_map,
      String.append_assoc]
    rfl

theorem snapshot_prices (m : Ladder) : (snapshot m).map Prod.fst = m.map Prod.fst := by
  simp [snapshot]

theorem sorted_by_iff_keys (before : Price → Price → Bool) (m : Ladder) :
    sorted_by before m ↔ (m.map Prod.fst).Pairwise (fun a b => before a b = true) := by
  unfold sorted_by
  rw [List.pairwise_map]

/-- C18: for every book, the text returned by `serialize_order_book` is the object with
the array `buy_orders` followed by the array `sell_orders`, each holding, in ladder
order, exactly one entry per price level of its ladder: the price of the level and the
sum of the quantities of the orders resting at it; in a well-formed book the bid entries
are in strictly descending and the ask entries in strictly ascending price order. -/
theorem serialize_order_book_snapshot (lib : StdLib) (b : OrderBook) :
    serialize_order_book lib b
      = "\x7b\"buy_orders\":["
          ++ comma_separated ((snapshot b.buy_orders).map (entry_text lib))
          ++ "],\"sell_orders\":["
          ++ comma_separated ((snapshot b.sell_orders).map (entry_text lib))
          ++ "]\x7d" ∧
    (snapshot b.buy_orders).length = b.buy_orders.length ∧
    (snapshot b.sell_orders).length = b.sell_orders.length ∧
    (∀ (i : Nat) (p : Price) (q : List Order), b.buy_orders[i]? = some (p, q) →
      (snapshot b.buy_orders)[i]? = some (p, (q.map Order.quantity).sum)) ∧
    (∀ (i : Nat) (p : Price) (q : List Order), b.sell_orders[i]? = some (p, q) →
      (snapshot b.sell_orders)[i]? = some (p, (q.map Order.quantity).sum)) ∧
    (b.well_formed →
      ((snapshot b.buy_orders).map Prod.fst).Pairwise (fun x y => y < x) ∧
      ((snapshot b.sell_orders).map Prod.fst).Pairwise (fun x y => x < y)) := by
  refine ⟨?_, by simp [snapshot], by simp [snapshot], ?_, ?_, ?_⟩
  · have h1 : (JsonBuilder.fresh.start_object.start_array "buy_orders")
        = { oss_ := "\x7b\"buy_orders\":[", first_ := true } := by decide
    have hkey : ("sell_orders" : String).isEmpty = false := by decide
    have hlit : ∀ x : String,
        x ++ ("," ++ ("\"" ++ ("sell_orders" ++ ("\":" ++ "["))))
          = x ++ ",\"sell_orders\":[" := fun x => rfl
    have h2 : ∀ s : String,
        JsonBuilder.start_array { oss_ := s, first_ := false } "sell_orders"
          = { oss_ := s ++ ",\"sell_orders\":[", first_ := true } := by
      intro s
      simp only [JsonBuilder.start_array, JsonBuilder.separated,
        hkey, Bool.false_eq_true, if_false, String.append_assoc, hlit]
    have hmid : ∀ x y : String, x ++ ("]" ++ (",\"sell_orders\":[" ++ y))
        = x ++ ("],\"sell_orders\":[" ++ y) := by
      intro x y
      rw [← String.append_assoc "]"]
      rfl
    have hend : ∀ x : String, x ++ ("]" ++ "\x7d") = x ++ "]\x7d" := fun x => rfl
    unfold serialize_order_book get_buy_orders get_sell_orders
    simp only [h1, h2, JsonBuilder.build, JsonBuilder.end_object, JsonBuilder.end_array,
      serialize_levels_fresh, String.append_assoc, hend, hmid]
  · intro i p q h
    simp only [snapshot, List.getElem?_map, h, Option.map_some']
  · intro i p q h
    simp only [snapshot, List.getElem?_map, h, Option.map_some']
  · intro hwf
    rw [snapshot_prices, snapshot_prices]
    obtain ⟨h1, h2⟩ := hwf
    rw [sorted_by_iff_keys] at h1 h2
    constructor
    · refine h1.imp ?_
      intro a c h
      simpa [greater] using h
    · refine h2.imp ?_
      intro a c h
      simpa [less] using h

theorem serialize_order_book_snapshot_witness :
    depth_book.well_formed ∧
      (snapshot depth_book.buy_orders)[0]? = some (100, 12) ∧
      ((snapshot depth_book.buy_orders).map Prod.fst).Pairwise (fun x y => y < x) ∧
      ((snapshot depth_book.sell_orders).map Prod.fst).Pairwise (fun x y => x < y) :=
  ⟨by decide,
    (serialize_order_book_snapshot sample_lib depth_book).2.2.2.1 0 100
      [⟨1, OrderType.BUY, 5, 100, "a", 10⟩, ⟨2, OrderType.BUY, 7, 100, "b", 11⟩] (by decide),
    (serialize_order_book_snapshot sample_lib depth_book).2.2.2.2.2 (by decide)⟩

theorem trade_totals_eq (ts : List Trade) :
    trade_totals ts = (((traded_quantity ts : Int) : ℚ), traded_notional ts) := by
  have h : ∀ (acc : ℚ × ℚ),
      ts.foldl (fun acc trade =>
        (acc.1 + (trade.quantity : ℚ), acc.2 + trade.price * (trade.quantity : ℚ))) acc
        = (acc.1 + ((traded_quantity ts : Int) : ℚ), acc.2 + traded_notional ts) := by
    induction ts with
    | nil => intro acc; simp [traded_quantity, traded_notional]
    | cons t ts ih =>
      intro acc
      rw [List.foldl_cons, ih]
      simp only [traded_quantity, traded_notional, List.map_cons, List.sum_cons]
      push_cast
      ext <;> simp only <;> ring
  have := h (0, 0)
  simpa [trade_totals] using this

theorem ladder_depth_eq (m : Ladder) : ladder_depth m = ((ladder_quantity m : Int) : ℚ) := by
  have h : ∀ acc : ℚ, m.foldl (fun acc level => level_quantity level.2 acc) acc
      = acc + ((ladder_quantity m : Int) : ℚ) := by
    induction m with
    | nil => intro acc; simp [ladder_quantity, resting_orders]
    | cons e rest ih =>
      obtain ⟨k, q⟩ := e
      intro acc
      rw [List.foldl_cons, ih, level_quantity_eq, ladder_quantity_cons]
      push_cast
      ring
  have := h 0
  simpa [ladder_depth] using this

/-- The statistics in closed form: counts and sums over the trade log and the ladders. -/
theorem market_summary_eq (b : OrderBook) :
    market_summary b =
      { total_trades := (b.trades.length : Int)
        total_volume := ((traded_quantity b.trades : Int) : ℚ)
        avg_trade_size :=
          if 0 < b.trades.length then
            ((traded_quantity b.trades : Int) : ℚ) / (b.trades.length : ℚ)
          else 0
        avg_price :=
          if 0 < traded_quantity b.trades then
            traded_notional b.trades / ((traded_quantity b.trades : Int) : ℚ)
          else 0
        buy_depth := ((ladder_quantity b.buy_orders : Int) : ℚ)
        sell_depth := ((ladder_quantity b.sell_orders : Int) : ℚ) } := by
  simp only [market_summary, get_buy_orders, get_sell_orders, get_trades, trade_totals_eq,
    ladder_depth_eq, gt_iff_lt, Int.cast_natCast, Nat.cast_pos, Int.cast_pos]

theorem summary_first_key_text (x : String) :
    "\x7b" ++ ("\"" ++ ("total_trades" ++ ("\":" ++ x))) = "\x7b\"total_trades\":" ++ x := by
  rw [← String.append_assoc, ← String.append_assoc, ← String.append_assoc]
  rfl

theorem summary_key_texts (x : String) :
    "," ++ ("\"" ++ ("total_volume" ++ ("\":" ++ x))) = ",\"total_volume\":" ++ x ∧
    "," ++ ("\"" ++ ("avg_trade_size" ++ ("\":" ++ x))) = ",\"avg_trade_size\":" ++ x ∧
    "," ++ ("\"" ++ ("avg_price" ++ ("\":" ++ x))) = ",\"avg_price\":" ++ x ∧
    "," ++ ("\"" ++ ("buy_depth" ++ ("\":" ++ x))) = ",\"buy_depth\":" ++ x ∧
    "," ++ ("\"" ++ ("sell_depth" ++ ("\":" ++ x))) = ",\"sell_depth\":" ++ x := by
  refine ⟨?_, ?_, ?_, ?_, ?_⟩ <;>
  · rw [← String.append_assoc, ← String.append_assoc, ← String.append_assoc]
    rfl

/-- The text built from the statistics when the mutex is free. -/
theorem serialize_market_summary_text (lib : StdLib) (api : TradingApi)
    (hfree : api.order_book_mutex_ = false) :
    serialize_market_summary lib api
      = some ("\x7b\"total_trades\":"
          ++ lib.show_int64 (market_summary api.order_book_).total_trades
          ++ ",\"total_volume\":"
          ++ lib.show_double (market_summary api.order_book_).total_volume
          ++ ",\"avg_trade_size\":"
          ++ lib.show_double (market_summary api.order_book_).avg_trade_size
          ++ ",\"avg_price\":" ++ lib.show_double (market_summary api.order_book_).avg_price
          ++ ",\"buy_depth\":" ++ lib.show_double (market_summary api.order_book_).buy_depth
          ++ ",\"sell_depth\":" ++ lib.show_double (market_summary api.order_book_).sell_depth
          ++ "\x7d") := by
  unfold serialize_market_summary
  rw [hfree]
  simp only [Bool.false_eq_true, if_false, JsonBuilder.fresh, JsonBuilder.start_object,
    JsonBuilder.add_number_int64, JsonBuilder.add_number, JsonBuilder.end_object,
    JsonBuilder.build, JsonBuilder.separated, if_true, String.append_assoc,
    summary_first_key_text, (summary_key_texts _).1, (summary_key_texts _).2.1,
    (summary_key_texts _).2.2.1, (summary_key_texts _).2.2.2.1,
    (summary_key_texts _).2.2.2.2]
  rfl

/-- C19 (counterexample): on a book whose trade log holds a trade of 5 at 100 and a trade
of 3 at 90 the traded notional is 770, and none of the six numbers of the market
summary (2 trades, volume 8, average trade size 4, average price 385/4, bid depth 16,
ask depth 6) is the notional: the summary does not report it. -/
theorem market_summary_omits_notional :
    traded_notional depth_book.trades = 770 ∧
      market_summary depth_book
        = { total_trades := 2, total_volume := 8, avg_trade_size := 4,
            avg_price := 385 / 4, buy_depth := 16, sell_depth := 6 } ∧
      ((market_summary depth_book).total_trades : ℚ) ≠ traded_notional depth_book.trades ∧
      (market_summary depth_book).total_volume ≠ traded_notional depth_book.trades ∧
      (market_summary depth_book).avg_trade_size ≠ traded_notional depth_book.trades ∧
      (market_summary depth_book).avg_price ≠ traded_notional depth_book.trades ∧
      (market_summary depth_book).buy_depth ≠ traded_notional depth_book.trades ∧
      (market_summary depth_book).sell_depth ≠ traded_notional depth_book.trades := by
  have hn : traded_notional depth_book.trades = 770 := by
    simp only [traded_notional, depth_book, List.map_cons, List.map_nil, List.sum_cons,
      List.sum_nil]
    norm_num
  have hq : traded_quantity depth_book.trades = 8 := by decide
  have hb : ladder_quantity depth_book.buy_orders = 16 := by decide
  have hs : ladder_quantity depth_book.sell_orders = 6 := by decide
  have hl : depth_book.trades.length = 2 := by decide
  have hm : market_summary depth_book
      = { total_trades := 2, total_volume := 8, avg_trade_size := 4,
          avg_price := 385 / 4, buy_depth := 16, sell_depth := 6 } := by
    rw [market_summary_eq, hn, hq, hb, hs, hl]
    norm_num
  rw [hm, hn]
  refine ⟨rfl, rfl, ?_, ?_, ?_, ?_, ?_, ?_⟩ <;> norm_num

/-- C19 (amended): for every book, when `serialize_market_summary` can take the mutex it
returns the object with, in this order, `total_trades` = the length of the trade log,
`total_volume` = the sum of the trade quantities, `avg_trade_size` = volume / trades (0
without trades), `avg_price` = notional / volume (0 when the volume is not positive),
`buy_depth` and `sell_depth` = the sums of the quantities resting on the bid and on the
ask ladder; arithmetic on `double` is taken exact. -/
theorem market_summary_reports (lib : StdLib) (api : TradingApi)
    (hfree : api.order_book_mutex_ = false) :
    serialize_market_summary lib api
      = some ("\x7b\"total_trades\":"
          ++ lib.show_int64 (api.order_book_.trades.length : Int)
          ++ ",\"total_volume\":"
          ++ lib.show_double ((traded_quantity api.order_book_.trades : Int) : ℚ)
          ++ ",\"avg_trade_size\":"
          ++ lib.show_double
              (if 0 < api.order_book_.trades.length then
                ((traded_quantity api.order_book_.trades : Int) : ℚ)
                  / (api.order_book_.trades.length : ℚ)
               else 0)
          ++ ",\"avg_price\":"
          ++ lib.show_double
              (if 0 < traded_quantity api.order_book_.trades then
                traded_notional api.order_book_.trades
                  / ((traded_quantity api.order_book_.trades : Int) : ℚ)
               else 0)
          ++ ",\"buy_depth\":"
          ++ lib.show_double ((ladder_quantity api.order_book_.buy_orders : Int) : ℚ)
          ++ ",\"sell_depth\":"
          ++ lib.show_double ((ladder_quantity api.order_book_.sell_orders : Int) : ℚ)
          ++ "\x7d") := by
  rw [serialize_market_summary_text lib api hfree, market_summary_eq]

theorem market_summary_reports_witness :
    (⟨depth_book, false⟩ : TradingApi).order_book_mutex_ = false ∧
      (serialize_market_summary sample_lib ⟨depth_book, false⟩).isSome = true :=
  ⟨rfl, (congrArg Option.isSome
    (market_summary_reports sample_lib ⟨depth_book, false⟩ rfl)).trans rfl⟩

theorem parse_object_loop_stuck (lib : StdLib) (json : List Char) (pos : Nat)
    (result : JsonObject)
    (h : parse_object_step lib json pos result = ObjectStep.next pos result) :
    ∀ fuel, parse_object_loop lib json fuel pos result = Run.out_of_fuel := by
  intro fuel
  induction fuel with
  | zero =>
    unfold parse_object_loop
    rw [h]
  | succ n ih =>
    unfold parse_object_loop
    rw [h]
    exact ih

theorem parse_object_loop_next (lib : StdLib) (json : List Char) {pos p : Nat}
    {result r : JsonObject}
    (h : parse_object_step lib json pos result = ObjectStep.next p r)
    (hrest : ∀ fuel, parse_object_loop lib json fuel p r = Run.out_of_fuel) :
    ∀ fuel, parse_object_loop lib json fuel pos result = Run.out_of_fuel := by
  intro fuel
  cases fuel with
  | zero =>
    unfold parse_object_loop
    rw [h]
  | succ n =>
    unfold parse_object_loop
    rw [h]
    exact hrest n

theorem hold_body_step1 (lib : StdLib) :
    parse_object_step lib hold_body.toList 1 []
      = ObjectStep.next 15 [("type".toList, "HOLD".toList)] := by
  rfl

theorem hold_body_step2 (lib : StdLib) :
    parse_object_step lib hold_body.toList 15 [("type".toList, "HOLD".toList)]
      = ObjectStep.next 22 [("type".toList, "HOLD".toList)] := by
  rfl

theorem hold_body_step3 (lib : StdLib) :
    parse_object_step lib hold_body.toList 22 [("type".toList, "HOLD".toList)]
      = ObjectStep.next 22 [("type".toList, "HOLD".toList)] := by
  rfl

/-- On `hold_body` the member loop of `parse_object` reaches the `[` of the array, where
no branch of the value dispatch moves `pos_`, and repeats that iteration for ever. -/
theorem parse_object_hold_body (lib : StdLib) (fuel : Nat) :
    parse_object lib fuel hold_body.toList = Run.out_of_fuel := by
  have h := parse_object_loop_next lib hold_body.toList (hold_body_step1 lib)
    (parse_object_loop_next lib hold_body.toList (hold_body_step2 lib)
      (parse_object_loop_stuck lib hold_body.toList 22 _ (hold_body_step3 lib)))
  have hstart : parse_object lib fuel hold_body.toList
      = parse_object_loop lib hold_body.toList fuel 1 [] := by
    rfl
  rw [hstart]
  exact h fuel

/-- C20 (evaluation at the failing input): for the request body
`hold_body`, whose type `HOLD` is neither BUY nor SELL and whose other member is an
array, `submit_order` produces no response within any number of iterations of the member
loop of `parse_object`, whatever the clock, the number conversions and the state of the
book: the request is never answered, with 400 or otherwise. -/
theorem submit_order_never_answers (lib : StdLib) (fuel clock_id clock_ts : Nat)
    (api : TradingApi) :
    submit_order lib fuel clock_id clock_ts api
      { method := "POST", path := "/api/orders", headers := [], body := hold_body }
      = Run.out_of_fuel := by
  have h : get_string lib fuel hold_body.toList "type" = Run.out_of_fuel := by
    unfold get_string
    rw [parse_object_hold_body]
  unfold submit_order parse_order_from_json
  simp only [h]

/-- The part of the validation that the code performs once the parser has returned: an
unrecognised type, or a quantity or price that is not positive, is answered with status
400 and the API state (book included) is left as it was. -/
theorem submit_order_rejects (lib : StdLib) (fuel clock_id clock_ts : Nat)
    (api : TradingApi) (request : HttpRequest) :
    (∀ t, get_string lib fuel request.body.toList "type" = Run.done t →
      t ≠ "BUY".toList → t ≠ "SELL".toList →
      ∃ resp, submit_order lib fuel clock_id clock_ts api request = Run.done (resp, api) ∧
        resp.status_code = 400 ∧
        resp.body = "\x7b\"error\": \"" ++ ("Invalid order type: " ++ String.mk t)
          ++ "\"\x7d") ∧
    (∀ t q p c, get_string lib fuel request.body.toList "type" = Run.done t →
      get_number lib fuel request.body.toList "quantity" = Run.done q →
      get_number lib fuel request.body.toList "price" = Run.done p →
      get_string lib fuel request.body.toList "client_id" = Run.done c →
      (q ≤ 0 ∨ p ≤ 0) →
      ∃ resp, submit_order lib fuel clock_id clock_ts api request = Run.done (resp, api) ∧
        resp.status_code = 400) := by
  constructor
  · intro t ht h1 h2
    refine ⟨{ HttpResponse.fresh with
              status_code := 400
              body := "\x7b\"error\": \"" ++ ("Invalid order type: " ++ String.mk t)
                ++ "\"\x7d" }, ?_, rfl, rfl⟩
    unfold submit_order parse_order_from_json
    simp only [ht, ne_eq, h1, h2, not_false_eq_true, and_self, if_true]
  · intro t q p c ht hq hp hc hbad
    by_cases hty : t ≠ "BUY".toList ∧ t ≠ "SELL".toList
    · refine ⟨{ HttpResponse.fresh with
                status_code := 400
                body := "\x7b\"error\": \"" ++ ("Invalid order type: " ++ String.mk t)
                  ++ "\"\x7d" }, ?_, rfl⟩
      unfold submit_order parse_order_from_json
      simp only [ht, hty, ne_eq, not_false_eq_true, and_self, if_true]
    · refine ⟨{ HttpResponse.fresh with
                status_code := 400
                body := "\x7b\"error\": \""
                  ++ ("Invalid quantity or price: quantity="
                    ++ String.mk (lib.double_to_string q) ++ ", price="
                    ++ String.mk (lib.double_to_string p))
                  ++ "\"\x7d" }, ?_, rfl⟩
      unfold submit_order parse_order_from_json
      simp only [ht, hty, if_false, hq, hp, hc, hbad, if_true]

/-- C29: the sample run of `main` (add then match, in turn, BUY 1 of 20 at 100, SELL 2 of
15 at 99, BUY 3 of 100 at 98, SELL 4 of 50 at 97, BUY 5 of 30 at 101, SELL 6 of 60 at 96,
on the empty book) has defined behaviour and ends with exactly five trades, in order
(0: buy 1, sell 2, 15 at 99), (1: buy 1, sell 4, 5 at 97), (2: buy 3, sell 4, 45 at 97),
(3: buy 5, sell 6, 30 at 96), (4: buy 3, sell 6, 30 at 96), an empty ask ladder and a bid
ladder holding only BUY 3 with quantity 25 at 98, whatever the six clock readings. -/
theorem main_sample_run (t1 t2 t3 t4 t5 t6 : Nat) :
    run_ops (main_ops t1 t2 t3 t4 t5 t6) OrderBook.empty
      = some
        { trade_id := 5
          buy_orders := [(98, [⟨3, OrderType.BUY, 25, 98, "client3", t3⟩])]
          sell_orders := []
          orders := [(1, 100), (2, 99), (3, 98), (4, 97), (5, 101), (6, 96)]
          trades := [⟨0, 1, 2, 15, 99, t1⟩, ⟨1, 1, 4, 5, 97, t1⟩, ⟨2, 3, 4, 45, 97, t3⟩,
                     ⟨3, 5, 6, 30, 96, t5⟩, ⟨4, 3, 6, 30, 96, t3⟩] } := by
  rfl

/-- C27: no order trades at a price worse than its limit.  On every book whose orders
each rest at the level of their own price, every trade appended by `match_orders` has a
price that is at most the limit price of its buy order and equal to the limit price of
its sell order.  The call returns on every book without empty levels. -/
theorem match_orders_price_within_limits (b : OrderBook)
    (hbuy : own_price_levels b.buy_orders) (hsell : own_price_levels b.sell_orders) :
    (b.levels_nonempty → ∃ r, match_orders b = some r) ∧
    ∀ r, match_orders b = some r →
      ∀ (i : Nat) (t : Trade), (appended_trades b r)[i]? = some t →
        ∃ s bk bf bt br sk sf st sr, match_iterate i b = some s ∧
          s.buy_orders = (bk, bf :: bt) :: br ∧ s.sell_orders = (sk, sf :: st) :: sr ∧
          t.buy_order_id = bf.order_id ∧ t.sell_order_id = sf.order_id ∧
          t.price ≤ bf.price ∧ t.price = sf.price := by
  refine ⟨match_orders_defined b, ?_⟩
  intro r hr i t ht
  obtain ⟨s, bk, bf, bt, br, sk, sf, st, sr, hs, hb, hs2, hlt, rfl⟩ :=
    appended_trade_of_match_orders hr ht
  have h1 := match_iterate_own_price_buy hbuy hs
  have h2 := match_iterate_own_price_sell hsell hs
  rw [hb] at h1
  rw [hs2] at h2
  have hbf : bf.price = bk :=
    h1 (bk, bf :: bt) (List.mem_cons_self _ _) bf (List.mem_cons_self _ _)
  have hsf : sf.price = sk :=
    h2 (sk, sf :: st) (List.mem_cons_self _ _) sf (List.mem_cons_self _ _)
  refine ⟨s, bk, bf, bt, br, sk, sf, st, sr, hs, hb, hs2, rfl, rfl, ?_, ?_⟩
  · simp only [make_trade, hbf]
    exact not_lt.mp hlt
  · simp only [make_trade, hsf]

theorem match_orders_price_within_limits_witness :
    own_price_levels buy_first_book.buy_orders ∧
      own_price_levels buy_first_book.sell_orders ∧
      ∃ s bk bf bt br sk sf st sr, match_iterate 0 buy_first_book = some s ∧
        s.buy_orders = (bk, bf :: bt) :: br ∧ s.sell_orders = (sk, sf :: st) :: sr ∧
        (1 : Int) = bf.order_id ∧ (2 : Int) = sf.order_id ∧
        (99 : Price) ≤ bf.price ∧ (99 : Price) = sf.price :=
  ⟨by decide, by decide,
    (match_orders_price_within_limits buy_first_book (by decide) (by decide)).2
      buy_first_result (by decide) 0 ⟨0, 1, 2, 5, 99, 10⟩ (by decide)⟩

theorem keyed_orders_pop_filled (k : Price) (o : Order) (q : List Order) (r : Ladder) :
    keyed_orders (pop_filled k o q r)
      = (if o.quantity = 0 then [] else [(k, o)]) ++ q.map (fun x => (k, x))
          ++ keyed_orders r := by
  unfold pop_filled
  by_cases h0 : o.quantity = 0
  · cases q with
    | nil => simp [h0]
    | cons a t => simp [h0, keyed_orders]
  · simp [h0, keyed_orders]

theorem forall₂_self {α : Type} {R : α → α → Prop} (hrefl : ∀ x, R x x) (l : List α) :
    List.Forall₂ R l l := by
  induction l with
  | nil => exact List.Forall₂.nil
  | cons a l ih => exact List.Forall₂.cons (hrefl a) ih

theorem forall₂_chain {α : Type} {R : α → α → Prop}
    (htrans : ∀ x y z, R x y → R y z → R x z) {a b c : List α}
    (h1 : List.Forall₂ R a b) (h2 : List.Forall₂ R b c) : List.Forall₂ R a c := by
  induction h1 generalizing c with
  | nil =>
    cases h2
    exact List.Forall₂.nil
  | cons hxy _ ih =>
    cases h2 with
    | cons hyz hrest => exact List.Forall₂.cons (htrans _ _ _ hxy hyz) (ih hrest)

theorem forall₂_drop_chain {α : Type} {R : α → α → Prop}
    (htrans : ∀ x y z, R x y → R y z → R x z) {a b c : List α} {n m : Nat}
    (h1 : List.Forall₂ R a (b.drop n)) (h2 : List.Forall₂ R b (c.drop m)) :
    List.Forall₂ R a (c.drop (m + n)) := by
  have h3 : List.Forall₂ R (b.drop n) ((c.drop m).drop n) := List.forall₂_drop n h2
  rw [List.drop_drop] at h3
  exact forall₂_chain htrans h1 h3

/-- One iteration pops the front order of a ladder or rewrites its quantity: the entries
afterwards are the entries before, from the first or the second on, related by any
reflexive relation that relates the rewritten front to the old one. -/
theorem pop_filled_entries {R : Price × Order → Price × Order → Prop}
    (hrefl : ∀ x, R x x) (k : Price) (o o1 : Order) (q : List Order) (r : Ladder)
    (hhead : R (k, o1) (k, o)) :
    ∃ n, List.Forall₂ R (keyed_orders (pop_filled k o1 q r))
      ((keyed_orders ((k, o :: q) :: r)).drop n) := by
  rw [keyed_orders_pop_filled]
  by_cases h0 : o1.quantity = 0
  · refine ⟨1, ?_⟩
    simp only [h0, if_true, List.nil_append, keyed_orders, List.map_cons, List.cons_append,
      List.drop_succ_cons, List.drop_zero]
    exact forall₂_self hrefl _
  · refine ⟨0, ?_⟩
    simp only [h0, if_false, keyed_orders, List.map_cons, List.cons_append,
      List.drop_zero, List.singleton_append, List.append_assoc]
    exact List.Forall₂.cons hhead (forall₂_self hrefl _)

/-- Along a run the entries of both ladders are related to the entries at its start,
for every reflexive and transitive relation that each iteration respects on the two
front orders, under an invariant `P` of the iterations. -/
theorem match_iterate_entries {R : Price × Order → Price × Order → Prop}
    (hrefl : ∀ x, R x x) (htrans : ∀ x y z, R x y → R y z → R x z)
    (P : OrderBook → Prop)
    (hP : ∀ s s1, P s → match_step s = MatchStep.next s1 → P s1)
    (hfront : ∀ s bk bf bt br sk sf st sr, P s →
      s.buy_orders = (bk, bf :: bt) :: br → s.sell_orders = (sk, sf :: st) :: sr →
      R (bk, { bf with quantity := int_sub bf.quantity (min bf.quantity sf.quantity) }) (bk, bf) ∧
      R (sk, { sf with quantity := int_sub sf.quantity (min bf.quantity sf.quantity) }) (sk, sf))
    {n : Nat} {b r : OrderBook} (hPb : P b) (h : match_iterate n b = some r) :
    (∃ m, List.Forall₂ R (keyed_orders r.buy_orders) ((keyed_orders b.buy_orders).drop m)) ∧
    (∃ m, List.Forall₂ R (keyed_orders r.sell_orders)
      ((keyed_orders b.sell_orders).drop m)) := by
  induction n generalizing b with
  | zero =>
    simp only [match_iterate, Option.some.injEq] at h
    subst h
    exact ⟨⟨0, forall₂_self hrefl _⟩, ⟨0, forall₂_self hrefl _⟩⟩
  | succ n ih =>
    rw [match_iterate] at h
    split at h
    swap
    · simp at h
    rename_i s1 hstep
    obtain ⟨⟨m1, h1⟩, ⟨m2, h2⟩⟩ := ih (hP b s1 hPb hstep) h
    obtain ⟨bk, bf, bt, br, sk, sf, st, sr, hb, hs, _, hb1, hs1, _, _, _⟩ :=
      match_step_next_fields hstep
    obtain ⟨hR1, hR2⟩ := hfront b bk bf bt br sk sf st sr hPb hb hs
    obtain ⟨k1, hk1⟩ := pop_filled_entries hrefl bk bf _ bt br hR1
    obtain ⟨k2, hk2⟩ := pop_filled_entries hrefl sk sf _ st sr hR2
    rw [← hb1, ← hb] at hk1
    rw [← hs1, ← hs] at hk2
    exact ⟨⟨k1 + m1, forall₂_drop_chain htrans h1 hk1⟩,
      ⟨k2 + m2, forall₂_drop_chain htrans h2 hk2⟩⟩

theorem same_entry_refl (x : Price × Order) : same_entry x x :=
  ⟨rfl, rfl, rfl, rfl, rfl, rfl⟩

theorem same_entry_requantified (k : Price) (o : Order) (x : Int) :
    same_entry (k, { o with quantity := x }) (k, o) :=
  ⟨rfl, rfl, rfl, rfl, rfl, rfl⟩

theorem same_entry_trans (x y z : Price × Order) (h1 : same_entry x y)
    (h2 : same_entry y z) : same_entry x z := by
  obtain ⟨a1, a2, a3, a4, a5, a6⟩ := h1
  obtain ⟨b1, b2, b3, b4, b5, b6⟩ := h2
  exact ⟨a1.trans b1, a2.trans b2, a3.trans b3, a4.trans b4, a5.trans b5, a6.trans b6⟩

theorem filled_entry_refl (x : Price × Order) : filled_entry x x :=
  ⟨same_entry_refl x, le_refl _⟩

theorem filled_entry_trans (x y z : Price × Order) (h1 : filled_entry x y)
    (h2 : filled_entry y z) : filled_entry x z :=
  ⟨same_entry_trans x y z h1.1 h2.1, le_trans h1.2 h2.2⟩

/-- C28 (counterexample): a BUY of -1 and a SELL of 5 rest at 100.  `match_orders` trades
the quantity `min(-1, 5) = -1`, pops the BUY and leaves the SELL resting with
`5 - (-1) = 6`: the order resting after the call has a larger quantity than before. -/
theorem fill_grows_quantity :
    match_orders negative_book = some negative_result ∧
      keyed_orders negative_book.sell_orders
        = [(100, ⟨2, OrderType.SELL, 5, 100, "b", 11⟩)] ∧
      keyed_orders negative_result.sell_orders
        = [(100, ⟨2, OrderType.SELL, 6, 100, "b", 11⟩)] ∧
      ¬ ∃ n, List.Forall₂ filled_entry (keyed_orders negative_result.sell_orders)
          ((keyed_orders negative_book.sell_orders).drop n) := by
  refine ⟨by decide, by decide, by decide, ?_⟩
  rintro ⟨n, h⟩
  have h1 : keyed_orders negative_result.sell_orders
      = [(100, ⟨2, OrderType.SELL, 6, 100, "b", 11⟩)] := by decide
  have h2 : keyed_orders negative_book.sell_orders
      = [(100, ⟨2, OrderType.SELL, 5, 100, "b", 11⟩)] := by decide
  rw [h1, h2] at h
  cases n with
  | zero =>
    simp only [List.drop_zero, List.forall₂_cons, List.forall₂_nil_right_iff, and_true] at h
    exact absurd h.2 (by decide)
  | succ n =>
    simp at h

/-- C28 (amended): `match_orders` only fills and removes.  The entries (level key and
order) of each ladder after the call are, in the same order, the entries before the call
from some position on, each at the same level and the same order up to the quantity:
same `order_id`, type, price, client and timestamp; so no order is added or moved and
the relative FIFO order is kept.  When no resting quantity is negative, no quantity has
grown.  The call returns on every book without empty levels. -/
theorem match_orders_only_fills (b : OrderBook) :
    (b.levels_nonempty → ∃ r, match_orders b = some r) ∧
    ∀ r, match_orders b = some r →
      (∃ n, List.Forall₂ same_entry (keyed_orders r.buy_orders)
        ((keyed_orders b.buy_orders).drop n)) ∧
      (∃ n, List.Forall₂ same_entry (keyed_orders r.sell_orders)
        ((keyed_orders b.sell_orders).drop n)) ∧
      (b.quantities_nonneg →
        (∃ n, List.Forall₂ filled_entry (keyed_orders r.buy_orders)
          ((keyed_orders b.buy_orders).drop n)) ∧
        (∃ n, List.Forall₂ filled_entry (keyed_orders r.sell_orders)
          ((keyed_orders b.sell_orders).drop n))) := by
  refine ⟨match_orders_defined b, ?_⟩
  intro r hr
  obtain ⟨n, hit, _⟩ := match_orders_iff.mp hr
  have hsame := match_iterate_entries same_entry_refl same_entry_trans (fun _ => True)
    (fun _ _ _ _ => trivial)
    (fun s bk bf bt br sk sf st sr _ _ _ =>
      ⟨same_entry_requantified bk bf _, same_entry_requantified sk sf _⟩)
    trivial hit
  refine ⟨hsame.1, hsame.2, ?_⟩
  intro hnn
  refine match_iterate_entries filled_entry_refl filled_entry_trans
    (fun s => s.quantities_nonneg) match_step_quantities_nonneg ?_ hnn hit
  intro s bk bf bt br sk sf st sr hP hb hs
  obtain ⟨h1, h2⟩ := hP
  rw [hb] at h1
  rw [hs] at h2
  have hbf : 0 ≤ bf.quantity := h1 bf (by simp [resting_orders])
  have hsf : 0 ≤ sf.quantity := h2 sf (by simp [resting_orders])
  have hmin : 0 ≤ min bf.quantity sf.quantity := le_min hbf hsf
  have e1 := int_sub_min_left bf.quantity sf.quantity hbf hsf
  have e2 := int_sub_min_right bf.quantity sf.quantity hbf hsf
  constructor
  · exact ⟨same_entry_requantified bk bf _, by simp only; omega⟩
  · exact ⟨same_entry_requantified sk sf _, by simp only; omega⟩

theorem match_orders_only_fills_witness :
    fifo_book.levels_nonempty ∧ fifo_book.quantities_nonneg ∧
      (∃ r, match_orders fifo_book = some r) ∧
      (∃ n, List.Forall₂ filled_entry (keyed_orders fifo_result.buy_orders)
        ((keyed_orders fifo_book.buy_orders).drop n)) ∧
      (∃ n, List.Forall₂ filled_entry (keyed_orders fifo_result.sell_orders)
        ((keyed_orders fifo_book.sell_orders).drop n)) :=
  ⟨by decide, by decide, (match_orders_only_fills fifo_book).1 (by decide),
    ((match_orders_only_fills fifo_book).2 fifo_result (by decide)).2.2 (by decide)⟩

theorem forall₂_mem_left {α : Type} {R : α → α → Prop} {xs ys : List α}
    (h : List.Forall₂ R xs ys) {x : α} (hx : x ∈ xs) : ∃ y ∈ ys, R x y := by
  induction h with
  | nil => simp at hx
  | cons hab _ ih =>
    rcases List.mem_cons.mp hx with rfl | hx
    · exact ⟨_, List.mem_cons_self _ _, hab⟩
    · obtain ⟨y, hy, hR⟩ := ih hx
      exact ⟨y, List.mem_cons_of_mem _ hy, hR⟩

theorem keyed_orders_snd (m : Ladder) : (keyed_orders m).map Prod.snd = resting_orders m := by
  induction m with
  | nil => rfl
  | cons e r ih =>
    obtain ⟨k, q⟩ := e
    simp [keyed_orders, resting_orders, ih, Function.comp_def]

/-- A buy order found at the front of the first bid level during a run was resting on
the bid ladder when the run started, up to its quantity. -/
theorem front_buy_was_resting {n : Nat} {b s : OrderBook} (h : match_iterate n b = some s)
    {bk : Price} {bf : Order} {bt : List Order} {br : Ladder}
    (hb : s.buy_orders = (bk, bf :: bt) :: br) :
    ∃ x ∈ resting_orders b.buy_orders, same_order bf x := by
  obtain ⟨⟨m, hm⟩, _⟩ := match_iterate_entries same_entry_refl same_entry_trans
    (fun _ => True) (fun _ _ _ _ => trivial)
    (fun s bk bf bt br sk sf st sr _ _ _ =>
      ⟨same_entry_requantified bk bf _, same_entry_requantified sk sf _⟩)
    trivial h
  have hmem : (bk, bf) ∈ keyed_orders s.buy_orders := by
    rw [hb]
    simp [keyed_orders]
  obtain ⟨y, hy, hR⟩ := forall₂_mem_left hm hmem
  refine ⟨y.2, ?_, hR.2⟩
  rw [← keyed_orders_snd]
  exact List.mem_map_of_mem _ (List.mem_of_mem_drop hy)

/-- C24 (counterexample): a BUY with timestamp 10 rests at 100, then a SELL with
timestamp 11 is added at 99 and crosses it; the one trade that `match_orders` appends
carries the timestamp 10 of the resting BUY, not the timestamp 11 of the aggressing
SELL. -/
theorem trade_timestamp_not_aggressor :
    match_orders (add_order (add_order OrderBook.empty ⟨1, OrderType.BUY, 8, 100, "a", 10⟩)
        ⟨2, OrderType.SELL, 5, 99, "b", 11⟩)
      = some buy_first_result ∧
    buy_first_result.trades = [⟨0, 1, 2, 5, 99, 10⟩] ∧
    ∀ t ∈ buy_first_result.trades,
      t.timestamp ≠ (⟨2, OrderType.SELL, 5, 99, "b", 11⟩ : Order).timestamp := by
  decide

/-- C24 (amended): every trade appended by `match_orders` after `add_order` of an order
`o` carries the timestamp of its buy order, the front order of the first bid level at
that iteration, whether or not that order is the aggressor; when `o` is a SELL, the buy
order of every such trade rested on the bid ladder before `o` arrived and the trade
carries the timestamp of that resting BUY.  The call returns when the book had no empty
level. -/
theorem trade_timestamp_of_buy_order (b : OrderBook) (o : Order) :
    (b.levels_nonempty → ∃ r, match_orders (add_order b o) = some r) ∧
    ∀ r, match_orders (add_order b o) = some r →
      ∀ (i : Nat) (t : Trade), (appended_trades (add_order b o) r)[i]? = some t →
        (∃ s bk bf bt br, match_iterate i (add_order b o) = some s ∧
          s.buy_orders = (bk, bf :: bt) :: br ∧
          t.buy_order_id = bf.order_id ∧ t.timestamp = bf.timestamp) ∧
        (o.type = OrderType.SELL →
          ∃ x ∈ resting_orders b.buy_orders,
            t.buy_order_id = x.order_id ∧ t.timestamp = x.timestamp) := by
  refine ⟨fun hne => match_orders_defined _ (add_order_levels_nonempty hne o), ?_⟩
  intro r hr i t ht
  obtain ⟨s, bk, bf, bt, br, sk, sf, st, sr, hs, hb, _, _, rfl⟩ :=
    appended_trade_of_match_orders hr ht
  refine ⟨⟨s, bk, bf, bt, br, hs, hb, rfl, rfl⟩, ?_⟩
  intro hsell
  obtain ⟨x, hx, hsame⟩ := front_buy_was_resting hs hb
  have hbuy : (add_order b o).buy_orders = b.buy_orders := by
    have hne : o.type ≠ OrderType.BUY := by rw [hsell]; decide
    simp only [add_order, hne, if_false]
  rw [hbuy] at hx
  exact ⟨x, hx, hsame.1, hsame.2.2.2.2⟩

theorem trade_timestamp_of_buy_order_witness :
    (add_order OrderBook.empty ⟨1, OrderType.BUY, 8, 100, "a", 10⟩).levels_nonempty ∧
      (⟨2, OrderType.SELL, 5, 99, "b", 11⟩ : Order).type = OrderType.SELL ∧
      ∃ x ∈ resting_orders
          (add_order OrderBook.empty ⟨1, OrderType.BUY, 8, 100, "a", 10⟩).buy_orders,
        (1 : Int) = x.order_id ∧ (10 : Nat) = x.timestamp :=
  ⟨by decide, rfl,
    ((trade_timestamp_of_buy_order
        (add_order OrderBook.empty ⟨1, OrderType.BUY, 8, 100, "a", 10⟩)
        ⟨2, OrderType.SELL, 5, 99, "b", 11⟩).2 buy_first_result (by decide) 0
      ⟨0, 1, 2, 5, 99, 10⟩ (by decide)).2 rfl⟩

/-- C26 (evaluation at the failing input): after BUY 1 and SELL 2 of 10 at 100 have
filled each other, the index still maps id 1 to price 100; `cancel_order(1)` does not
find 100 on the bid ladder, goes to the ask branch, where `sell_orders[100]` creates the
level, and calls `erase` with the dangling iterator: undefined behaviour.  The same
holds in the FIFO scenario, where order 2 still rests at the level of the filled
order 1. -/
theorem cancel_after_fill_undefined :
    run_ops [Op.add_order ⟨1, OrderType.BUY, 10, 100, "a", 10⟩,
             Op.add_order ⟨2, OrderType.SELL, 10, 100, "b", 11⟩, Op.match_orders]
        OrderBook.empty = some simple_cross_result ∧
      index_find simple_cross_result.orders 1 = some 100 ∧
      map_count greater simple_cross_result.buy_orders 100 = false ∧
      map_find less simple_cross_result.sell_orders 100 = none ∧
      cancel_order simple_cross_result 1 = none ∧
      match_orders fifo_book = some fifo_result ∧
      ladder_ids fifo_result.buy_orders = [2] ∧
      index_find fifo_result.orders 1 = some 100 ∧
      cancel_order fifo_result 1 = none := by
  decide

theorem parse_object_loop_of_next (lib : StdLib) (json : List Char) {pos p : Nat}
    {result r : JsonObject}
    (h : parse_object_step lib json pos result = ObjectStep.next p r) (n : Nat) :
    parse_object_loop lib json (n + 1) pos result = parse_object_loop lib json n p r := by
  rw [parse_object_loop, h]

theorem parse_object_loop_of_finished (lib : StdLib) (json : List Char) {pos : Nat}
    {result r : JsonObject}
    (h : parse_object_step lib json pos result = ObjectStep.finished r) (n : Nat) :
    parse_object_loop lib json n pos result = Run.done r := by
  unfold parse_object_loop
  rw [h]

/-- C30 (evaluation at the failing input): on the body `nested_body`, whose member value
is an object, the iteration of the member loop that starts at the inner opening brace
(position 9) neither moves `pos_` nor leaves the loop, so `parse_object` does not return
within any number of iterations, and neither do `get_string` and `get_number`. -/
theorem parse_object_never_returns (lib : StdLib) :
    parse_object_step lib nested_body.toList 9 [] = ObjectStep.next 9 [] ∧
    (∀ fuel, parse_object lib fuel nested_body.toList = Run.out_of_fuel) ∧
    (∀ fuel key, get_string lib fuel nested_body.toList key = Run.out_of_fuel) ∧
    (∀ fuel key, get_number lib fuel nested_body.toList key = Run.out_of_fuel) := by
  have hstep1 : parse_object_step lib nested_body.toList 1 [] = ObjectStep.next 9 [] := rfl
  have hstep2 : parse_object_step lib nested_body.toList 9 [] = ObjectStep.next 9 [] := rfl
  have hloop := parse_object_loop_next lib nested_body.toList hstep1
    (parse_object_loop_stuck lib nested_body.toList 9 [] hstep2)
  have hparse : ∀ fuel, parse_object lib fuel nested_body.toList = Run.out_of_fuel := by
    intro fuel
    have hstart : parse_object lib fuel nested_body.toList
        = parse_object_loop lib nested_body.toList fuel 1 [] := rfl
    rw [hstart]
    exact hloop fuel
  refine ⟨hstep2, hparse, ?_, ?_⟩
  · intro fuel key
    unfold get_string
    rw [hparse]
  · intro fuel key
    unfold get_number
    rw [hparse]

/-- C23 (evaluation at the failing input): `get_market_summary` has no defined result on
any state of the API: with the mutex free it takes it and then, inside
`serialize_market_summary`, takes it a second time (with the mutex held on entry the
first `lock_guard` already does); the sibling handlers `get_order_book` and `get_trades`
take it once and return. -/
theorem get_market_summary_never_returns (lib : StdLib) (api : TradingApi)
    (request : HttpRequest) :
    TradingApi.get_market_summary lib api request = none ∧
    (api.order_book_mutex_ = false →
      TradingApi.get_order_book lib api request
        = some { HttpResponse.fresh with body := serialize_order_book lib api.order_book_ } ∧
      TradingApi.get_trades lib api request
        = some { HttpResponse.fresh with body := serialize_trades lib api.order_book_ }) := by
  constructor
  · unfold TradingApi.get_market_summary
    by_cases h : api.order_book_mutex_ = true
    · simp [h]
    · simp [h, serialize_market_summary]
  · intro h
    simp [TradingApi.get_order_book, TradingApi.get_trades, h]

theorem parse_object_small_quantity (n : Nat) :
    parse_object decimal_lib (n + 4) small_quantity_body.toList
      = Run.done small_quantity_object := by
  have h1 : parse_object_step decimal_lib small_quantity_body.toList 1 []
      = ObjectStep.next 14 [("type".toList, "BUY".toList)] := by decide!
  have h2 : parse_object_step decimal_lib small_quantity_body.toList 14
        [("type".toList, "BUY".toList)]
      = ObjectStep.next 29
          [("type".toList, "BUY".toList), ("quantity".toList, "0.300000".toList)] := by
    decide!
  have h3 : parse_object_step decimal_lib small_quantity_body.toList 29
        [("type".toList, "BUY".toList), ("quantity".toList, "0.300000".toList)]
      = ObjectStep.next 41
          [("type".toList, "BUY".toList), ("quantity".toList, "0.300000".toList),
           ("price".toList, "100.000000".toList)] := by
    decide!
  have h4 : parse_object_step decimal_lib small_quantity_body.toList 41
        [("type".toList, "BUY".toList), ("quantity".toList, "0.300000".toList),
         ("price".toList, "100.000000".toList)]
      = ObjectStep.next 56 small_quantity_object := by
    decide!
  have h5 : parse_object_step decimal_lib small_quantity_body.toList 56
        small_quantity_object = ObjectStep.finished small_quantity_object := by
    decide!
  have hstart : parse_object decimal_lib (n + 4) small_quantity_body.toList
      = parse_object_loop decimal_lib small_quantity_body.toList (n + 4) 1 [] := rfl
  rw [hstart, parse_object_loop_of_next _ _ h1, parse_object_loop_of_next _ _ h2,
    parse_object_loop_of_next _ _ h3, parse_object_loop_of_next _ _ h4,
    parse_object_loop_of_finished _ _ h5]

theorem small_quantity_getters (n : Nat) :
    get_string decimal_lib (n + 4) small_quantity_body.toList "type"
      = Run.done "BUY".toList ∧
    get_number decimal_lib (n + 4) small_quantity_body.toList "quantity"
      = Run.done (3 / 10) ∧
    get_number decimal_lib (n + 4) small_quantity_body.toList "price" = Run.done 100 ∧
    get_string decimal_lib (n + 4) small_quantity_body.toList "client_id"
      = Run.done "c".toList := by
  refine ⟨?_, ?_, ?_, ?_⟩
  · unfold get_string
    rw [parse_object_small_quantity]
    rfl
  · unfold get_number
    rw [parse_object_small_quantity]
    rfl
  · unfold get_number
    rw [parse_object_small_quantity]
    rfl
  · unfold get_string
    rw [parse_object_small_quantity]
    rfl

theorem round_small_quantity : double_to_int ((3 / 10 : ℚ) + 1 / 2) = some 0 := by
  decide!

/-- C21 (evaluation at the failing input): for the request body `small_quantity_body`
(BUY, quantity 0.3, price 100) `parse_order_from_json` accepts the order, because 0.3 is
positive, and stores the quantity 0.3 + 0.5 truncated, which is 0; `submit_order`
answers 200 and the order rests in the book with quantity 0, whatever the clock. -/
theorem submit_order_accepts_zero_quantity (n clock_id clock_ts : Nat) :
    parse_order_from_json decimal_lib (n + 4) clock_id clock_ts small_quantity_body
      = Run.done
          { order_id := to_int (clock_id % 2 ^ 64)
            type := OrderType.BUY
            quantity := 0
            price := 100
            client_id := "c"
            timestamp := clock_ts % 2 ^ 64 } ∧
    submit_order decimal_lib (n + 4) clock_id clock_ts
        { order_book_ := OrderBook.empty, order_book_mutex_ := false }
        { method := "POST", path := "/api/orders", headers := [],
          body := small_quantity_body }
      = Run.done
          ({ HttpResponse.fresh with
              body := "\x7b\"status\": \"success\", \"order_id\": "
                ++ decimal_lib.int_to_string (to_int (clock_id % 2 ^ 64)) ++ "\x7d" },
           { order_book_ :=
               { trade_id := 0
                 buy_orders :=
                   [(100, [{ order_id := to_int (clock_id % 2 ^ 64)
                             type := OrderType.BUY
                             quantity := 0
                             price := 100
                             client_id := "c"
                             timestamp := clock_ts % 2 ^ 64 }])]
                 sell_orders := []
                 orders := [(to_int (clock_id % 2 ^ 64), 100)]
                 trades := [] }
             order_book_mutex_ := false }) := by
  obtain ⟨h1, h2, h3, h4⟩ := small_quantity_getters n
  have hparse : parse_order_from_json decimal_lib (n + 4) clock_id clock_ts
      small_quantity_body
      = Run.done
          { order_id := to_int (clock_id % 2 ^ 64)
            type := OrderType.BUY
            quantity := 0
            price := 100
            client_id := "c"
            timestamp := clock_ts % 2 ^ 64 } := by
    unfold parse_order_from_json
    simp only [h1, h2, h3, h4, round_small_quantity]
    norm_num
  refine ⟨hparse, ?_⟩
  unfold submit_order
  simp only [hparse]
  rfl

theorem shift_mask_byte (n i : Nat) :
    ((n >>> (i * 8)) &&& 0xFF) % 256 = n / 256 ^ i % 256 := by
  rw [Nat.shiftRight_eq_div_pow]
  have h : (0xFF : Nat) = 2 ^ 8 - 1 := by norm_num
  rw [h, Nat.and_pow_two_sub_one_eq_mod]
  have h2 : (2 : Nat) ^ (i * 8) = 256 ^ i := by
    rw [Nat.mul_comm, pow_mul]
    norm_num
  rw [h2]
  norm_num

theorem mask_byte (n : Nat) : (n &&& 0xFF) % 256 = n % 256 := by
  have := shift_mask_byte n 0
  simpa using this

/-- C22: for every payload of `n` bytes (`n` below 2^64, as every `size_t`),
`encode_frame` returns the byte 0x81, the unmasked length encoding and the payload
unchanged: the single byte `n` when `n < 126`; the byte 126 and `n` as 2 big-endian bytes
when `126 ≤ n < 65536`; the byte 127 and `n` as 8 big-endian bytes otherwise; the frame is
`n + 2`, `n + 4` or `n + 10` bytes long. -/
theorem encode_frame_layout (data : List Nat) (hsize : data.length < 2 ^ 64) :
    (data.length < 126 →
      encode_frame data = 0x81 :: data.length :: data ∧
      (encode_frame data).length = data.length + 2) ∧
    (126 ≤ data.length → data.length < 65536 →
      encode_frame data = 0x81 :: 126 :: (data.length / 256) :: (data.length % 256) :: data ∧
      big_endian [data.length / 256, data.length % 256] = data.length ∧
      data.length / 256 < 256 ∧
      (encode_frame data).length = data.length + 4) ∧
    (65536 ≤ data.length →
      encode_frame data
        = 0x81 :: 127 ::
          ([7, 6, 5, 4, 3, 2, 1, 0].map (fun i => data.length / 256 ^ i % 256) ++ data) ∧
      big_endian ([7, 6, 5, 4, 3, 2, 1, 0].map (fun i => data.length / 256 ^ i % 256))
        = data.length ∧
      (encode_frame data).length = data.length + 10) := by
  have hmod : data.length % 2 ^ 64 = data.length := Nat.mod_eq_of_lt hsize
  refine ⟨?_, ?_, ?_⟩
  · intro h
    have h1 : data.length % 256 = data.length := Nat.mod_eq_of_lt (by omega)
    have henc : encode_frame data = 0x81 :: data.length :: data := by
      simp only [encode_frame, hmod, h, if_true, h1, List.singleton_append, List.cons_append,
        List.nil_append]
    exact ⟨henc, by rw [henc]; simp⟩
  · intro h1 h2
    have hn : ¬ data.length < 126 := by omega
    have hshift := shift_mask_byte data.length 1
    simp only [one_mul, pow_one] at hshift
    have hhi : data.length / 256 % 256 = data.length / 256 := Nat.mod_eq_of_lt (by omega)
    have henc : encode_frame data
        = 0x81 :: 126 :: (data.length / 256) :: (data.length % 256) :: data := by
      simp only [encode_frame, hmod, hn, if_false, h2, if_true, hshift, hhi, mask_byte,
        List.singleton_append, List.cons_append, List.nil_append, List.append_assoc]
    refine ⟨henc, ?_, by omega, by rw [henc]; simp⟩
    simp only [big_endian, List.foldl_cons, List.foldl_nil, zero_mul, zero_add]
    omega
  · intro h
    have hn1 : ¬ data.length < 126 := by omega
    have hn2 : ¬ data.length < 65536 := by omega
    have henc : encode_frame data
        = 0x81 :: 127 ::
          ([7, 6, 5, 4, 3, 2, 1, 0].map (fun i => data.length / 256 ^ i % 256) ++ data) := by
      simp only [encode_frame, hmod, hn1, hn2, if_false, shift_mask_byte,
        List.singleton_append, List.cons_append, List.nil_append, List.append_assoc]
    refine ⟨henc, ?_, by rw [henc]; simp⟩
    simp only [big_endian, List.map_cons, List.map_nil, List.foldl_cons, List.foldl_nil,
      zero_mul, zero_add]
    norm_num
    have hlt : data.length < 18446744073709551616 := by norm_num at hsize; exact hsize
    omega

theorem encode_frame_layout_witness :
    (List.replicate 130 65).length < 2 ^ 64 ∧
      (encode_frame (List.replicate 130 65)).length = (List.replicate 130 65).length + 4 :=
  ⟨by simp, ((encode_frame_layout (List.replicate 130 65) (by simp)).2.1
    (by simp) (by simp)).2.2.2⟩

theorem parse_order_accepted (lib : StdLib) (fuel clock_id clock_ts : Nat) (body : String)
    (o : Order) (h : parse_order_from_json lib fuel clock_id clock_ts body = Run.done o) :
    0 < o.price ∧
    get_number lib fuel body.toList "price" = Run.done o.price ∧
    ∃ q : ℚ, get_number lib fuel body.toList "quantity" = Run.done q ∧ 0 < q ∧
      double_to_int (q + 1 / 2) = some o.quantity := by
  unfold parse_order_from_json at h
  simp only at h
  split at h
  · simp at h
  · simp at h
  · simp at h
  · split at h
    · simp at h
    · split at h
      · simp at h
      · simp at h
      · simp at h
      · rename_i quantity hq
        split at h
        · simp at h
        · simp at h
        · simp at h
        · rename_i price hp
          split at h
          · simp at h
          · simp at h
          · simp at h
          · split at h
            · simp at h
            · rename_i hvalid
              split at h
              · simp at h
              · rename_i q hround
                simp only [Run.done.injEq] at h
                subst h
                simp only [not_or, not_le] at hvalid
                exact ⟨hvalid.2, hp, quantity, hq, hvalid.1, hround⟩

theorem shift_or_byte (a b : Nat) (hb : b < 256) : (a <<< 8) ||| b = a * 256 + b := by
  have h := Nat.mul_add_lt_is_or (show b < 2 ^ 8 by omega) a
  rw [Nat.shiftLeft_eq, Nat.mul_comm a, ← h]

theorem mask_low_seven (n : Nat) : n &&& 0x7F = n % 128 := by
  have h : (0x7F : Nat) = 2 ^ 7 - 1 := by norm_num
  rw [h, Nat.and_pow_two_sub_one_eq_mod]

theorem encode_frame_short (data : List Nat) (h : data.length < 126) :
    encode_frame data = 0x81 :: data.length :: data := by
  have hmod : data.length % 2 ^ 64 = data.length := Nat.mod_eq_of_lt (by omega)
  have h1 : data.length % 256 = data.length := Nat.mod_eq_of_lt (by omega)
  simp only [encode_frame, hmod, h, if_true, h1, List.singleton_append, List.cons_append,
    List.nil_append]

theorem encode_frame_medium (data : List Nat) (h1 : 126 ≤ data.length)
    (h2 : data.length < 65536) :
    encode_frame data = 0x81 :: 126 :: (data.length / 256) :: (data.length % 256) :: data := by
  have hmod : data.length % 2 ^ 64 = data.length := Nat.mod_eq_of_lt (by omega)
  have hn : ¬ data.length < 126 := by omega
  have hshift := shift_mask_byte data.length 1
  simp only [one_mul, pow_one] at hshift
  have hhi : data.length / 256 % 256 = data.length / 256 := Nat.mod_eq_of_lt (by omega)
  simp only [encode_frame, hmod, hn, if_false, h2, if_true, hshift, hhi, mask_byte,
    List.singleton_append, List.cons_append, List.nil_append, List.append_assoc]

theorem encode_frame_long (data : List Nat) (h1 : 65536 ≤ data.length)
    (h2 : data.length < 2 ^ 64) :
    encode_frame data
      = 0x81 :: 127 ::
        ([7, 6, 5, 4, 3, 2, 1, 0].map (fun i => data.length / 256 ^ i % 256) ++ data) := by
  have hmod : data.length % 2 ^ 64 = data.length := Nat.mod_eq_of_lt h2
  have hn1 : ¬ data.length < 126 := by omega
  have hn2 : ¬ data.length < 65536 := by omega
  simp only [encode_frame, hmod, hn1, hn2, if_false, shift_mask_byte,
    List.singleton_append, List.cons_append, List.nil_append, List.append_assoc]

theorem extract_payload_exact (header data : List Nat)
    (h : header.length + data.length < 2 ^ 64) :
    extract_payload (header ++ data) header.length data.length = data := by
  unfold extract_payload
  rw [Nat.mod_eq_of_lt h]
  simp

theorem byte_at_zero (x : Nat) (xs : List Nat) : byte_at (x :: xs) 0 = x % 256 := rfl

theorem byte_at_succ (x : Nat) (xs : List Nat) (i : Nat) :
    byte_at (x :: xs) (i + 1) = byte_at xs i := rfl

theorem text_frame_opcode (xs : List Nat) : byte_at (0x81 :: xs) 0 &&& 0x0F = 1 := by
  rw [byte_at_zero]
  decide

theorem decode_encode_short (data : List Nat) (h : data.length < 126) :
    decode_frame (encode_frame data) = data := by
  rw [encode_frame_short data h]
  have h0 := text_frame_opcode (data.length :: data)
  have h1 : byte_at (0x81 :: data.length :: data) 1 &&& 0x7F = data.length := by
    rw [mask_low_seven]
    simp only [byte_at, List.getD_cons_succ, List.getD_cons_zero]
    omega
  have hx := extract_payload_exact [0x81, data.length] data (by simp; omega)
  unfold decode_frame
  simp only [h0, h1]
  have a1 : data.length ≠ 126 := by omega
  have a2 : data.length ≠ 127 := by omega
  simpa [a1, a2] using hx

theorem decode_encode_medium (data : List Nat) (h1 : 126 ≤ data.length)
    (h2 : data.length < 65536) :
    decode_frame (encode_frame data) = data := by
  rw [encode_frame_medium data h1 h2]
  have h0 := text_frame_opcode (126 :: (data.length / 256) :: (data.length % 256) :: data)
  have hlen : byte_at (0x81 :: 126 :: (data.length / 256) :: (data.length % 256) :: data) 1
      &&& 0x7F = 126 := by
    rw [mask_low_seven]
    rfl
  have hhi : byte_at (0x81 :: 126 :: (data.length / 256) :: (data.length % 256) :: data) 2
      = data.length / 256 := by
    show data.length / 256 % 256 = data.length / 256
    omega
  have hlo : byte_at (0x81 :: 126 :: (data.length / 256) :: (data.length % 256) :: data) 3
      = data.length % 256 := by
    show data.length % 256 % 256 = data.length % 256
    omega
  have hsum : (data.length / 256) <<< 8 ||| data.length % 256 = data.length := by
    rw [shift_or_byte _ _ (Nat.mod_lt _ (by norm_num))]
    omega
  have hx := extract_payload_exact [0x81, 126, data.length / 256, data.length % 256] data
    (by simp; omega)
  unfold decode_frame
  simp only [h0, hlen, hhi, hlo, hsum]
  simpa using hx

theorem decode_length_step (acc b : Nat) (hacc : acc < 72057594037927936) (hb : b < 256) :
    ((acc <<< 8) % 18446744073709551616) ||| b = acc * 256 + b := by
  have h : (acc <<< 8) % 18446744073709551616 = acc <<< 8 := by
    rw [Nat.shiftLeft_eq]
    apply Nat.mod_eq_of_lt
    omega
  rw [h, shift_or_byte acc b hb]

theorem decode_length_bytes (n : Nat) (hn : n < 2 ^ 64) (data : List Nat) :
    [2, 3, 4, 5, 6, 7, 8, 9].foldl
      (fun payload_len i => ((payload_len <<< 8) % 2 ^ 64) |||
        byte_at (0x81 :: 127 ::
          ([7, 6, 5, 4, 3, 2, 1, 0].map (fun i => n / 256 ^ i % 256) ++ data)) i) 0 = n := by
  have hn2 : n < 18446744073709551616 := by norm_num at hn; exact hn
  simp only [List.foldl_cons, List.foldl_nil, List.map_cons, List.map_nil, List.cons_append,
    List.nil_append]
  simp only [byte_at, List.getD_cons_succ, List.getD_cons_zero, Nat.mod_mod]
  norm_num
  simp (disch := omega) only [decode_length_step]
  omega

theorem decode_encode_long (data : List Nat) (h1 : 65536 ≤ data.length)
    (h2 : data.length + 10 < 2 ^ 64) :
    decode_frame (encode_frame data) = data := by
  have hsize : data.length < 2 ^ 64 := by omega
  rw [encode_frame_long data h1 hsize]
  have h0 := text_frame_opcode
    (127 :: ([7, 6, 5, 4, 3, 2, 1, 0].map (fun i => data.length / 256 ^ i % 256) ++ data))
  have hlen : byte_at (0x81 :: 127 ::
      ([7, 6, 5, 4, 3, 2, 1, 0].map (fun i => data.length / 256 ^ i % 256) ++ data)) 1
      &&& 0x7F = 127 := by
    rw [mask_low_seven]
    rfl
  have hx := extract_payload_exact
    (0x81 :: 127 :: [7, 6, 5, 4, 3, 2, 1, 0].map (fun i => data.length / 256 ^ i % 256)) data
    (by simp; omega)
  unfold decode_frame
  simp only [h0, hlen, decode_length_bytes data.length hsize data]
  simpa using hx

/-- C31: for every payload `data` whose frame fits a `std::string` (fewer than
2^64 - 10 bytes, so in each of the three length encodings),
`decode_frame(encode_frame(data))` returns `data`. -/
theorem decode_frame_encode_frame (data : List Nat) (hsize : data.length + 10 < 2 ^ 64) :
    decode_frame (encode_frame data) = data := by
  by_cases h1 : data.length < 126
  · exact decode_encode_short data h1
  · by_cases h2 : data.length < 65536
    · exact decode_encode_medium data (by omega) h2
    · exact decode_encode_long data (by omega) hsize

theorem decode_frame_encode_frame_witness :
    (List.replicate 130 65).length + 10 < 2 ^ 64 ∧
      decode_frame (encode_frame (List.replicate 130 65)) = List.replicate 130 65 :=
  ⟨by simp, decode_frame_encode_frame (List.replicate 130 65) (by simp)⟩

theorem serialize_response_fresh :
    serialize_response HttpResponse.fresh
      = "HTTP/1.1 200 OK\r\n"
        ++ "Access-Control-Allow-Headers: Content-Type, Authorization\r\n"
        ++ "Access-Control-Allow-Methods: GET, POST, PUT, DELETE, OPTIONS\r\n"
        ++ "Access-Control-Allow-Origin: *\r\n"
        ++ "Content-Type: application/json\r\n"
        ++ "Content-Length: 0\r\n\r\n" := by
  rfl

/-- Supporting lemma on the dispatch: for every request whose method is `OPTIONS`,
whatever its path, whatever routes are registered and whatever state the handlers are
in, the dispatch of `handle_request` invokes no route handler, leaves the state of the
handlers as it is, and builds a response with status 200
(`HTTP/1.1 200 OK`) that carries `Access-Control-Allow-Origin: *`,
`Access-Control-Allow-Methods` and `Access-Control-Allow-Headers`. -/
theorem handle_request_options {σ : Type} (routes_ : Routes σ) (request : HttpRequest) (s : σ)
    (hmethod : request.method = "OPTIONS") :
    ∃ response text,
      handle_request routes_ request s
        = { invoked := [], outcome := Run.done (response, text, s) } ∧
      response.status_code = 200 ∧
      ("Access-Control-Allow-Origin", "*") ∈ response.headers ∧
      ("Access-Control-Allow-Methods", "GET, POST, PUT, DELETE, OPTIONS")
        ∈ response.headers ∧
      ("Access-Control-Allow-Headers", "Content-Type, Authorization") ∈ response.headers ∧
      text = serialize_response response ∧
      text = "HTTP/1.1 200 OK\r\n"
        ++ "Access-Control-Allow-Headers: Content-Type, Authorization\r\n"
        ++ "Access-Control-Allow-Methods: GET, POST, PUT, DELETE, OPTIONS\r\n"
        ++ "Access-Control-Allow-Origin: *\r\n"
        ++ "Content-Type: application/json\r\n"
        ++ "Content-Length: 0\r\n\r\n" := by
  refine ⟨HttpResponse.fresh, serialize_response HttpResponse.fresh, ?_, rfl, ?_, ?_, ?_, rfl,
    serialize_response_fresh⟩
  · unfold handle_request
    simp only [hmethod, if_true]
    rfl
  · simp [HttpResponse.fresh]
  · simp [HttpResponse.fresh]
  · simp [HttpResponse.fresh]

theorem handle_request_options_witness :
    preflight_request.method = "OPTIONS" ∧
      (routes_find preflight_routes "OPTIONS /api/orders").isSome = true ∧
      (handle_request preflight_routes preflight_request 7).invoked = [] ∧
      ∃ response text,
        (handle_request preflight_routes preflight_request 7).outcome
          = Run.done (response, text, 7) ∧ response.status_code = 200 :=
  ⟨rfl, rfl,
    (handle_request_options preflight_routes preflight_request 7 rfl).elim
      (fun _ h => h.elim (fun _ h => congrArg Handled.invoked h.1)),
    (handle_request_options preflight_routes preflight_request 7 rfl).elim
      (fun response h => h.elim (fun text h =>
        ⟨response, text, congrArg Handled.outcome h.1, h.2.1⟩))⟩

theorem map_subscript_of_count {before : Price → Price → Bool}
    (m : Ladder) (price : Price)
    (hsorted : sorted_by before m)
    (htrans : ∀ a b c, before a b = true → before b c = true → before a c = true)
    (h : map_count before m price = true) : map_subscript before m price = m := by
  induction m with
  | nil => simp [map_count] at h
  | cons e r ih =>
    obtain ⟨k, q⟩ := e
    unfold map_subscript
    by_cases h1 : before price k = true
    · exfalso
      simp only [map_count, List.any_cons, Bool.or_eq_true, List.any_eq_true] at h
      rcases h with h | ⟨x, hx, hxe⟩
      · simp [equiv_key, h1] at h
      · have hkx : before k x.1 = true := sorted_by_head hsorted x hx
        have := htrans price k x.1 h1 hkx
        simp [equiv_key, this] at hxe
    · simp only [h1, Bool.false_eq_true, if_false]
      by_cases h2 : before k price = true
      · simp only [h2, if_true]
        have hr : map_count before r price = true := by
          simp only [map_count, List.any_cons, Bool.or_eq_true] at h ⊢
          rcases h with h | h
          · simp [equiv_key, h2] at h
          · exact h
        rw [ih (sorted_by_tail hsorted) hr]
      · simp [h2]

/-- C12 (evaluation at the failing input): BUY 1 and SELL 2 of 10 at 100 are added (unique
ids, positive quantities) and matched; both ladders are empty and the index still holds
both ids.  `cancel_order(1)` finds id 1 in the index, does not find 100 on the bid
ladder and evaluates `sell_orders[100]`: at its call of `erase` the ask ladder holds the
price key 100 with an empty FIFO under it, and the `erase` through the iterator of the
filled order is undefined behaviour. -/
theorem cancel_creates_empty_level :
    run_ops (filled_then_cancelled.take 3) OrderBook.empty = some simple_cross_result ∧
      simple_cross_result.levels_nonempty ∧
      cancel_order_at_erase simple_cross_result 1
        = some { simple_cross_result with sell_orders := [(100, [])] } ∧
      map_find less [(100, [])] 100 = some [] ∧
      ¬ OrderBook.levels_nonempty { simple_cross_result with sell_orders := [(100, [])] } ∧
      cancel_order simple_cross_result 1 = none ∧
      run_ops filled_then_cancelled OrderBook.empty = none := by
  decide

/-- C25 (evaluation at the failing input): four buys, ids 1 to 4, are added at 100; the
iterator recorded for each designates its order, also after the later orders have been
appended behind it, and a `pop_front` leaves the others in place.  `cancel_order(2)`
erases from the middle of the FIFO: `erase` moves order 1 one cell up and pops the
front, so orders 1, 3, 4 rest and the iterator recorded for order 1 designates no
element.  `cancel_order(1)` through that iterator moves orders 1, 3, 4 one cell down and
pops the back: orders 3 and 4 rest, and the iterator recorded for order 3 designates
order 4.  `cancel_order(3)` then removes order 4: order 3 still rests, out of the index,
and order 4, which was never cancelled, is gone and still indexed.  With iterators that
kept designating their orders, order 4 alone would rest. -/
theorem index_handle_shifted :
    Layout.level_ids four_buys_layout.buy_orders = [(100, [1, 2, 3, 4])] ∧
    four_buys.map (fun o => Layout.handle_target four_buys_layout o.order_id)
      = four_buys.map some ∧
    (Layout.map_find greater four_buys_layout.buy_orders 100).map
        (fun q => [1, 2, 3].map (fun pos => (q.pop_front.element pos).map Order.order_id))
      = some [some 2, some 3, some 4] ∧
    (Layout.cancel_orders [2] four_buys_layout).map
        (fun b => (Layout.level_ids b.buy_orders, Layout.handle_target b 1,
          (Layout.handle_target b 3).map Order.order_id,
          (Layout.handle_target b 4).map Order.order_id))
      = some ([(100, [1, 3, 4])], none, some 3, some 4) ∧
    (Layout.cancel_orders [2, 1] four_buys_layout).map
        (fun b => (Layout.level_ids b.buy_orders,
          (Layout.handle_target b 3).map Order.order_id))
      = some ([(100, [3, 4])], some 4) ∧
    (Layout.cancel_orders [2, 1, 3] four_buys_layout).map
        (fun b => (Layout.level_ids b.buy_orders, b.orders.map Prod.fst))
      = some ([(100, [3])], [4]) ∧
    (run_ops [Op.cancel_order 2, Op.cancel_order 1, Op.cancel_order 3]
        (add_orders four_buys)).map (fun b => ladder_ids b.buy_orders) = some [4] := by
  decide

/-- C32 (evaluation at the failing input): a connection delivers the preflight request
`OPTIONS /api/orders` with the header `Content-Length: abc`.  `parse_request` gives the
method `OPTIONS`; `handle_client` then finds the header and calls `std::stoul` on
`abc`, which throws `std::invalid_argument`: the exception leaves the method before the
dispatch, nothing is passed to `send` and no handler is invoked, whatever routes are
registered.  The same request without the header is answered with `HTTP/1.1 200 OK`
and the CORS headers. -/
theorem options_bad_content_length {σ : Type} (max_size : Nat) (routes_ : Routes σ)
    (s : σ) :
    parse_request bad_length_preflight.toList
      = { method := "OPTIONS", path := "/api/orders",
          headers := [("host", "localhost"), ("content-length", "abc")], body := "" } ∧
    stoul "abc".toList = none ∧
    handle_client max_size routes_ bad_length_preflight.toList s
      = { invoked := [], sent := none, outcome := Run.throws "stoul" } ∧
    handle_client max_size routes_ plain_preflight.toList s
      = { invoked := [],
          sent := some ("HTTP/1.1 200 OK\r\n"
            ++ "Access-Control-Allow-Headers: Content-Type, Authorization\r\n"
            ++ "Access-Control-Allow-Methods: GET, POST, PUT, DELETE, OPTIONS\r\n"
            ++ "Access-Control-Allow-Origin: *\r\n"
            ++ "Content-Type: application/json\r\n"
            ++ "Content-Length: 0\r\n\r\n"),
          outcome := Run.done s } :=
  ⟨rfl, rfl, rfl, rfl⟩
theorem read_line_rest_length (connection : List Char) :
    (read_line connection).2.length ≤ connection.length ∧
      (connection ≠ [] → (read_line connection).2.length < connection.length) := by
  induction connection with
  | nil => simp [read_line]
  | cons c rest ih =>
    unfold read_line
    by_cases hc : c = '\n'
    · simp [hc]
    · simp only [hc, if_false]
      constructor
      · exact Nat.le_succ_of_le ih.1
      · intro _
        exact Nat.lt_succ_of_le ih.1

theorem read_line_nil : (read_line []).1 = [] := rfl

theorem read_headers_defined (fuel : Nat) :
    ∀ (raw_request connection : List Char), connection.length < fuel →
      ∃ r, read_headers fuel raw_request connection = some r := by
  induction fuel with
  | zero => intro _ _ h; omega
  | succ n ih =>
    intro raw_request connection h
    unfold read_headers
    by_cases he : (read_line connection).1.isEmpty = true
    · simp only [he, if_true]
      exact ⟨_, rfl⟩
    · simp only [he, Bool.false_eq_true, if_false]
      apply ih
      have hne : connection ≠ [] := by
        intro h0
        rw [h0] at he
        exact he rfl
      have := (read_line_rest_length connection).2 hne
      omega

/-- Supporting lemma on the whole method: `handle_client` reads every connection to the
end of its header lines; when the request line is not empty, the parsed method is
`OPTIONS` and the request carries no `Content-Length` header, it invokes no handler,
sends `HTTP/1.1 200 OK` with the CORS headers and returns. -/
theorem handle_client_options {σ : Type} (max_size : Nat) (routes_ : Routes σ)
    (connection : List Char) (s : σ) (hline : (read_line connection).1.isEmpty = false) :
    ∃ raw_request rest,
      read_headers (connection.length + 1) ((read_line connection).1 ++ ['\r', '\n'])
          (read_line connection).2 = some (raw_request, rest) ∧
      ((parse_request (raw_request ++ ['\r', '\n'])).method = "OPTIONS" →
        headers_find (parse_request (raw_request ++ ['\r', '\n'])).headers "content-length"
          = none →
        handle_client max_size routes_ connection s
          = { invoked := [],
              sent := some ("HTTP/1.1 200 OK\r\n"
                ++ "Access-Control-Allow-Headers: Content-Type, Authorization\r\n"
                ++ "Access-Control-Allow-Methods: GET, POST, PUT, DELETE, OPTIONS\r\n"
                ++ "Access-Control-Allow-Origin: *\r\n"
                ++ "Content-Type: application/json\r\n"
                ++ "Content-Length: 0\r\n\r\n"),
              outcome := Run.done s }) := by
  obtain ⟨⟨raw_request, rest⟩, hr⟩ := read_headers_defined (connection.length + 1)
    ((read_line connection).1 ++ ['\r', '\n']) (read_line connection).2
    (Nat.lt_succ_of_le (read_line_rest_length connection).1)
  refine ⟨raw_request, rest, hr, ?_⟩
  intro hmethod hnone
  obtain ⟨response, text, hreq, _, _, _, _, _, htext⟩ :=
    handle_request_options routes_ (parse_request (raw_request ++ ['\r', '\n'])) s hmethod
  unfold handle_client
  simp only [hline, Bool.false_eq_true, if_false, hr, hnone, hreq, htext]

end TradingEngine
